import Mathlib

/-!
# Page-Mapping: a shallow embedding of `kernel/vmm.c`

The virtual memory manager of the kernel is embedded as pure functions on an
explicit machine state.  Physical memory is a byte-addressed map (the frame
zeroing loop of the source works on bytes); 32-bit words are stored
little-endian, as on the x86 target of the kernel.  Every `uint32_t` of the
source is a natural number, with an explicit reduction modulo `2 ^ 32` where
the C arithmetic can overflow.  Calls into the console and to `invlpg` are
recorded in logs carried by the state.
-/

namespace PageMapping

/-! ## Machine words and memory -/

/-- Number of values of a `uint32_t`. -/
def W32 : Nat := 4294967296

/-- Byte-addressed physical memory. -/
abbrev Mem := Nat → Nat

/-- Read of one byte (`char`) at a 32-bit address. -/
def load8 (m : Mem) (a : Nat) : Nat := m (a % W32) % 256

/-- Write of one byte (`char`) at a 32-bit address. -/
def store8 (m : Mem) (a v : Nat) : Mem :=
  fun x => if x = a % W32 then v % 256 else m x

/-- Read of a little-endian `uint32_t` at address `a`. -/
def load32 (m : Mem) (a : Nat) : Nat :=
  load8 m a + 256 * load8 m (a + 1) + 65536 * load8 m (a + 2) + 16777216 * load8 m (a + 3)

/-- Write of a little-endian `uint32_t` at address `a`. -/
def store32 (m : Mem) (a v : Nat) : Mem :=
  store8 (store8 (store8 (store8 m a v) (a + 1) (v / 256)) (a + 2) (v / 65536))
    (a + 3) (v / 16777216)

/-! ## Macros of the source -/

/-- The macro `LAST(term,leftcut)`: `(term) & ((1<<(leftcut))-1)`. -/
def LAST (term leftcut : Nat) : Nat := term &&& ((1 <<< leftcut) - 1)

/-- The macro `MID(term,rightcut,leftcut)`: `LAST((term)>>(rightcut),leftcut)`. -/
def MID (term rightcut leftcut : Nat) : Nat := LAST (term >>> rightcut) leftcut

/-- The macro `FRAME_SIZE`: each frame is 4K. -/
def FRAME_SIZE : Nat := 1 <<< 12

/-- The macro `TABLE_ENTRIES`: a table holds 4K/4 entries (`sizeof(uint32_t)` is 4). -/
def TABLE_ENTRIES : Nat := FRAME_SIZE / 4

/-! ## State -/

/-- One call into the console collaborator (`console.h`). -/
inductive ConsoleEvent where
  | putStr (s : String)
  | putHex (n : Nat)
  | sayHex (label : String) (n : Nat)
  deriving DecidableEq, Repr

/-- The globals of `vmm.c` (`avail`, `pd`), physical memory, and the logs of
the calls made to `invlpg` and to the console. -/
structure VMM where
  avail : Nat
  pd : Nat
  mem : Mem
  tlb : List Nat
  console : List ConsoleEvent

/-- The state at boot: `avail = 0x100000`, `pd = 0`, memory contents arbitrary. -/
def fresh (m : Mem) : VMM :=
  { avail := 0x100000, pd := 0, mem := m, tlb := [], console := [] }

/-- Address of entry `i` of the table at `base` (`&t->entries[i]`). -/
def entryAddr (base i : Nat) : Nat := (base + 4 * i) % W32

/-! ## Operations of `vmm.c` -/

/-- The function `zeroFrame`: the loop `for (i=0; i<FRAME_SIZE; i++) p[i] = 0`. -/
@[irreducible] def zeroFrame (m : Mem) (ptr : Nat) : Mem :=
  (List.range FRAME_SIZE).foldl (fun mem i => store8 mem (ptr + i) 0) m

/-- The function `vmm_frame`: returns the cursor, advances it, zeroes the frame. -/
def vmm_frame (s : VMM) : Nat × VMM :=
  let p := s.avail
  let s1 := { s with avail := (s.avail + FRAME_SIZE) % W32 }
  (p, { s1 with mem := zeroFrame s1.mem p })

/-- The function `getPD`: the page directory, allocated on first use. -/
def getPD (s : VMM) : Nat × VMM :=
  if s.pd = 0 then
    let r := vmm_frame s
    (r.1, { r.2 with pd := r.1 })
  else (s.pd, s)

/-- The function `getPT`: the page table that maps `va`, allocated on first use. -/
def getPT (va : Nat) (s : VMM) : Nat × VMM :=
  let r := getPD s
  let s1 := { r.2 with pd := r.1 }
  let idx := va >>> 22
  let pde := load32 s1.mem (entryAddr s1.pd idx)
  if pde = 0 then
    let f := vmm_frame s1
    let s2 := { f.2 with mem := store32 f.2.mem (entryAddr f.2.pd idx) (f.1 ||| 1) }
    (load32 s2.mem (entryAddr s2.pd idx) &&& 0xfffff000, s2)
  else ((load32 s1.mem (entryAddr s1.pd idx) ||| 1) &&& 0xfffff000, s1)

/-- The function `vmm_map`: create a new mapping from `va` to `pa`. -/
def vmm_map (va pa : Nat) (s : VMM) : VMM :=
  let r := getPT va s
  let pt := r.1
  let idx := ((va <<< 10) % W32) >>> 22
  let s1 := { r.2 with mem := store32 r.2.mem (entryAddr pt idx) ((pa >>> 12) <<< 12) }
  { s1 with mem := store32 s1.mem (entryAddr pt idx) (load32 s1.mem (entryAddr pt idx) ||| 1) }

/-- The function `vmm_dirty`. -/
def vmm_dirty (va : Nat) (s : VMM) : Nat × VMM :=
  let r := getPT va s
  let pte := load32 r.2.mem (entryAddr r.1 (MID va 12 10))
  (MID pte 6 1, r.2)

/-- The function `vmm_accessed`. -/
def vmm_accessed (va : Nat) (s : VMM) : Nat × VMM :=
  let r := getPT va s
  let pte := load32 r.2.mem (entryAddr r.1 (MID va 12 10))
  (MID pte 5 1, r.2)

/-- The function `vmm_pa`: the PA that corresponds to `va`. -/
def vmm_pa (va : Nat) (s : VMM) : Nat × VMM :=
  let r := getPD s
  let s1 := { r.2 with pd := r.1 }
  let off := va >>> 22
  let idx := load32 s1.mem (entryAddr s1.pd off)
  if idx = 0 then (0xffffffff, s1)
  else
    let pt := load32 s1.mem (entryAddr s1.pd off) &&& 0xfffff000
    let off := (va >>> 12) &&& 0x3ff
    let pa := load32 s1.mem (entryAddr pt off)
    ((pa &&& 0xfffff000) ||| (va &&& 0x3ff), s1)

/-- The external `invlpg`, recorded in the log of the state. -/
def invlpg (va : Nat) (s : VMM) : VMM := { s with tlb := s.tlb ++ [va] }

/-- The function `vmm_unmap`; its `pd` is a local that shadows the global. -/
def vmm_unmap (va : Nat) (s : VMM) : VMM :=
  let r := getPD s
  let pd := r.1
  let s1 := r.2
  let off := va >>> 22
  if load32 s1.mem (entryAddr pd off) &&& 1 = 1 then
    let pt := load32 s1.mem (entryAddr pd off) &&& 0xfffff000
    let off := ((va <<< 10) % W32) >>> 22
    let pte := load32 s1.mem (entryAddr pt off) &&& 0xfffffffe
    let s2 := { s1 with mem := store32 s1.mem (entryAddr pt off) pte }
    invlpg va s2
  else s1

/-- Console call appended to the log. -/
def emit (e : ConsoleEvent) (s : VMM) : VMM := { s with console := s.console ++ [e] }

/-- The function `pageFault`. -/
def pageFault (addr : Nat) (s : VMM) : VMM :=
  let s1 := emit (.sayHex "page fault @ " addr) s
  let r := vmm_frame s1
  vmm_map addr r.1 r.2

/-- Inner loop body of `vmm_dump` for leaf entry `j` of the table at `pt`. -/
def dumpLeaf (pt : Nat) (s : VMM) (j : Nat) : VMM :=
  let e := load32 s.mem (entryAddr pt j)
  if e ≠ 0 then
    emit (.sayHex ") PTE = " e) (emit (.putHex j) (emit (.putStr "        ") s))
  else s

/-- Outer loop body of `vmm_dump` for entry `i` of the directory at `pd`. -/
def dumpDir (pd : Nat) (s : VMM) (i : Nat) : VMM :=
  let e := load32 s.mem (entryAddr pd i)
  if e ≠ 0 then
    let s1 := emit (.sayHex ") PDE = " e) (emit (.putHex i) (emit (.putStr "    ") s))
    let pt := e &&& 0xfffff000
    (List.range TABLE_ENTRIES).foldl (dumpLeaf pt) s1
  else s

/-- The function `vmm_dump`. -/
def vmm_dump (s : VMM) : VMM :=
  let r := getPD s
  let s1 := emit (.sayHex "PD @ " r.1) r.2
  (List.range TABLE_ENTRIES).foldl (dumpDir r.1) s1

/-! ## Reachable states -/

/-- A call of one public operation of the module. -/
inductive Op where
  | frame
  | map (va pa : Nat)
  | unmap (va : Nat)
  | pa (va : Nat)
  | dirty (va : Nat)
  | accessed (va : Nat)
  | pageFault (addr : Nat)
  | dump
  deriving DecidableEq, Repr

/-- The arguments of a call are `uint32_t` values. -/
def Op.args32 : Op → Prop
  | .frame => True
  | .map v p => v < W32 ∧ p < W32
  | .unmap v => v < W32
  | .pa v => v < W32
  | .dirty v => v < W32
  | .accessed v => v < W32
  | .pageFault v => v < W32
  | .dump => True

/-- State after a call of a public operation (the returned value is dropped). -/
def step (o : Op) (s : VMM) : VMM :=
  match o with
  | .frame => (vmm_frame s).2
  | .map v p => vmm_map v p s
  | .unmap v => vmm_unmap v s
  | .pa v => (vmm_pa v s).2
  | .dirty v => (vmm_dirty v s).2
  | .accessed v => (vmm_accessed v s).2
  | .pageFault v => pageFault v s
  | .dump => vmm_dump s

/-- States reachable from a fresh VMM by calls of the public operations. -/
inductive Reachable : VMM → Prop where
  | init (m : Mem) : Reachable (fresh m)
  | call (o : Op) (s : VMM) : Reachable s → o.args32 → Reachable (step o s)

/-- States reachable from a fresh VMM by calls of the public operations none of
which makes the 32-bit cursor `avail` wrap around (a call that wraps leaves a
cursor below the one it started from). -/
inductive ReachableNW : VMM → Prop where
  | init (m : Mem) : ReachableNW (fresh m)
  | call (o : Op) (s : VMM) :
      ReachableNW s → o.args32 → s.avail ≤ (step o s).avail → ReachableNW (step o s)

/-- Directory entry `i` as `getPT`, `vmm_pa` and `vmm_unmap` read it. -/
def dirEntry (s : VMM) (i : Nat) : Nat := load32 s.mem (entryAddr s.pd i)

/-- Leaf entry `j` of the page table at `pt`. -/
def leafEntry (s : VMM) (pt j : Nat) : Nat := load32 s.mem (entryAddr pt j)

/-- Frames handed out so far, when the cursor has advanced to `A` counted
without reduction modulo `2 ^ 32`: the frames from `0x100000` up to `A`, and,
once the count has passed `2 ^ 32`, the frames from `0` up to `A - 2 ^ 32`. -/
def allocd (A x : Nat) : Prop :=
  x % 4096 = 0 ∧ x < W32 ∧ ((0x100000 ≤ x ∧ x < A) ∧ x < W32 ∨ x + W32 < A)

/-- Well-formedness of the directory, for an unreduced cursor `A` that has
not come back to `0x100000`: every directory entry is zero, or the base of a
frame handed out before, other than the directory itself, with the present
bit; no two entries hold the same base. -/
structure InvG (A : Nat) (s : VMM) : Prop where
  A_al : A % 4096 = 0
  A_lo : 0x100000 ≤ A
  A_hi : A ≤ W32 + 0x100000
  avail_eq : s.avail = A % W32
  pd_ok : s.pd = 0 ∨ allocd A s.pd
  dir_ok : s.pd ≠ 0 → ∀ i, i < 1024 →
    dirEntry s i = 0 ∨ ∃ b, dirEntry s i = b + 1 ∧ allocd A b ∧ b ≠ s.pd
  dir_inj : s.pd ≠ 0 → ∀ i j, i < 1024 → j < 1024 →
    dirEntry s i ≠ 0 → dirEntry s i = dirEntry s j → i = j

/-- State after `n` successive calls of `vmm_frame`. -/
@[irreducible] def allocMany : Nat → VMM → VMM
  | 0, s => s
  | n + 1, s => allocMany n (vmm_frame s).2

/-- A state reached after the cursor has wrapped around to `0`: the fresh VMM
(memory all zero) followed by `2 ^ 20 - 256` calls of `vmm_frame`. -/
def wrapState : VMM := allocMany 1048320 (fresh (fun _ => 0))

/-- A state reached after the cursor has wrapped around to the directory: the
fresh VMM (memory all zero), one call `vmm_pa(0)`, which creates the directory
at `0x100000`, then `2 ^ 20 - 1` calls of `vmm_frame`. -/
def aliasState : VMM := allocMany 1048575 (step (Op.pa 0) (fresh (fun _ => 0)))

/-- The cursor of `t` is the cursor of `s` after `k` frames were handed out. -/
def Advanced (k : Nat) (s t : VMM) : Prop :=
  (k = 0 ∧ t.avail = s.avail) ∨ (0 < k ∧ t.avail = (s.avail + 4096 * k) % W32)

/-- The cursor is a 4 KiB-aligned 32-bit value and `pd` is 4 KiB-aligned. -/
def Aligned (s : VMM) : Prop :=
  s.avail % 4096 = 0 ∧ s.avail < W32 ∧ s.pd % 4096 = 0

/-- Runs of public operations from one state to another. -/
inductive Steps : VMM → VMM → Prop where
  | refl (s : VMM) : Steps s s
  | call (o : Op) (s t : VMM) : Steps s t → o.args32 → Steps s (step o t)

/-- A state reached without wrapping whose cursor is the last frame below
`2 ^ 32`: the fresh VMM followed by `2 ^ 20 - 257` calls of `vmm_frame`. -/
def topState : VMM := allocMany 1048319 (fresh (fun _ => 0))

/-- A state reached after the cursor has wrapped in which the table of directory
slot `0` is the directory itself: `aliasState` followed by `vmm_dirty(0)`. -/
def selfMapState : VMM := step (Op.dirty 0) aliasState

/-- One record of the diagnostic dump: the directory base, a directory entry
(index, raw value) or a leaf entry (index, raw value). -/
inductive DumpRecord where
  | base (pd : Nat)
  | dir (index raw : Nat)
  | leaf (index raw : Nat)
  deriving DecidableEq, Repr

/-- The console calls that print one record in `vmm_dump`. -/
def DumpRecord.render : DumpRecord → List ConsoleEvent
  | .base pd => [.sayHex "PD @ " pd]
  | .dir i e => [.putStr "    ", .putHex i, .sayHex ") PDE = " e]
  | .leaf j e => [.putStr "        ", .putHex j, .sayHex ") PTE = " e]

/-- Records of the entries that `keep` selects in the table at `pt`, in
ascending index. -/
def leafRecords (keep : Nat → Bool) (s : VMM) (pt : Nat) : List DumpRecord :=
  ((List.range TABLE_ENTRIES).filter (fun j => keep (leafEntry s pt j))).map
    (fun j => DumpRecord.leaf j (leafEntry s pt j))

/-- Records for directory entry `i`: none when `keep` does not select it, else
its record followed by the records of its table. -/
def dirRecords (keep : Nat → Bool) (s : VMM) (i : Nat) : List DumpRecord :=
  if keep (dirEntry s i) then
    DumpRecord.dir i (dirEntry s i) :: leafRecords keep s (dirEntry s i &&& 0xfffff000)
  else []

/-- Content of a dump, written from its description: the directory base, then
in ascending index one record for each directory entry that `keep` selects,
each followed in ascending index by one record for each entry of its table that
`keep` selects. -/
def dumpRecordsBy (keep : Nat → Bool) (s : VMM) : List DumpRecord :=
  DumpRecord.base s.pd :: (List.range TABLE_ENTRIES).flatMap (dirRecords keep s)

/-- Dump content that keeps the entries that are not zero. -/
def dumpRecords (s : VMM) : List DumpRecord := dumpRecordsBy (fun e => decide (e ≠ 0)) s

/-- Dump content that keeps the entries whose present bit is 1. -/
def dumpRecordsPresent (s : VMM) : List DumpRecord :=
  dumpRecordsBy (fun e => decide (e &&& 1 = 1)) s

/-- The fresh VMM after `vmm_map(0x00200000, 0x00200000)` and
`vmm_unmap(0x00200000)`: it holds one stale leaf entry. -/
def staleState : VMM :=
  vmm_unmap 0x00200000 (vmm_map 0x00200000 0x00200000 (fresh (fun _ => 0)))

/-! ## Bit arithmetic -/


theorem and_shifted_mask (x k n : Nat) :
    x &&& ((2 ^ n - 1) <<< k) = (x / 2 ^ k % 2 ^ n) * 2 ^ k := by
  apply Nat.eq_of_testBit_eq
  intro i
  rw [Nat.testBit_and, Nat.testBit_shiftLeft, Nat.testBit_two_pow_sub_one, Nat.mul_comm,
    Nat.testBit_mul_pow_two, Nat.testBit_mod_two_pow, ← Nat.shiftRight_eq_div_pow,
    Nat.testBit_shiftRight]
  by_cases hk : k ≤ i
  · have e : k + (i - k) = i := by omega
    simp [hk, e, Bool.and_comm]
  · simp [hk]

theorem and_frameMask (x : Nat) : x &&& 0xfffff000 = x / 4096 % 1048576 * 4096 := by
  have h := and_shifted_mask x 12 20
  norm_num at h
  exact h

theorem and_notPresent (x : Nat) : x &&& 0xfffffffe = x / 2 % 2147483648 * 2 := by
  have h := and_shifted_mask x 1 31
  norm_num at h
  exact h

theorem and_one (x : Nat) : x &&& 1 = x % 2 := Nat.and_one_is_mod x

theorem and_3ff (x : Nat) : x &&& 0x3ff = x % 1024 := by
  have h := Nat.and_pow_two_sub_one_eq_mod x 10
  norm_num at h
  exact h

theorem and_fff (x : Nat) : x &&& 0xfff = x % 4096 := by
  have h := Nat.and_pow_two_sub_one_eq_mod x 12
  norm_num at h
  exact h

theorem or_low12 (a b : Nat) (ha : a % 4096 = 0) (hb : b < 4096) : a ||| b = a + b := by
  have h := Nat.mul_add_lt_is_or (i := 12) (b := b) (by norm_num; exact hb) (a / 4096)
  have e : 2 ^ 12 * (a / 4096) = a := by norm_num; omega
  rw [e] at h
  exact h.symm

theorem or_one (a : Nat) : a ||| 1 = a / 2 * 2 + 1 := by
  apply Nat.eq_of_testBit_eq
  intro i
  have h := Nat.mul_add_lt_is_or (i := 1) (b := 1) (by norm_num) (a / 2)
  have e : a / 2 * 2 + 1 = 2 ^ 1 * (a / 2) + 1 := by ring
  rw [e, h, Nat.testBit_or, Nat.testBit_or, Nat.testBit_mul_pow_two]
  cases i with
  | zero => simp
  | succ j => simp [Nat.testBit_add_one]

theorem shr_shl12 (x : Nat) : (x >>> 12) <<< 12 = x / 4096 * 4096 := by
  rw [Nat.shiftRight_eq_div_pow, Nat.shiftLeft_eq]

theorem shr22 (x : Nat) : x >>> 22 = x / 4194304 := by
  rw [Nat.shiftRight_eq_div_pow]
theorem shr12 (x : Nat) : x >>> 12 = x / 4096 := by
  rw [Nat.shiftRight_eq_div_pow]
theorem shl10 (x : Nat) : x <<< 10 = x * 1024 := by
  rw [Nat.shiftLeft_eq]

theorem leafIndex_eq (va : Nat) : ((va <<< 10) % W32) >>> 22 = va / 4096 % 1024 := by
  rw [shr22, shl10]; unfold W32; omega





theorem FRAME_SIZE_eq : FRAME_SIZE = 4096 := rfl
theorem TABLE_ENTRIES_eq : TABLE_ENTRIES = 1024 := rfl

theorem load8_store8 (m : Mem) (a v b : Nat) :
    load8 (store8 m a v) b = if b % W32 = a % W32 then v % 256 else load8 m b := by
  unfold load8 store8
  split_ifs <;> simp

theorem load8_lt (m : Mem) (a : Nat) : load8 m a < 256 := by
  unfold load8; omega

theorem load32_lt (m : Mem) (a : Nat) : load32 m a < W32 := by
  have h0 := load8_lt m a
  have h1 := load8_lt m (a + 1)
  have h2 := load8_lt m (a + 2)
  have h3 := load8_lt m (a + 3)
  unfold load32 W32; omega

theorem load8_store32 (m : Mem) (a v b : Nat) :
    load8 (store32 m a v) b =
      if b % W32 = (a + 3) % W32 then v / 16777216 % 256
      else if b % W32 = (a + 2) % W32 then v / 65536 % 256
      else if b % W32 = (a + 1) % W32 then v / 256 % 256
      else if b % W32 = a % W32 then v % 256
      else load8 m b := by
  unfold store32
  simp only [load8_store8]

theorem load32_store32_same (m : Mem) (a v : Nat) :
    load32 (store32 m a v) a = v % W32 := by
  unfold load32
  simp only [load8_store32]
  unfold W32
  have e1 : ¬ (a % 4294967296 = (a + 3) % 4294967296) := by omega
  have e2 : ¬ (a % 4294967296 = (a + 2) % 4294967296) := by omega
  have e3 : ¬ (a % 4294967296 = (a + 1) % 4294967296) := by omega
  have e4 : ¬ ((a + 1) % 4294967296 = (a + 3) % 4294967296) := by omega
  have e5 : ¬ ((a + 1) % 4294967296 = (a + 2) % 4294967296) := by omega
  have e6 : ¬ ((a + 2) % 4294967296 = (a + 3) % 4294967296) := by omega
  simp only [e1, e2, e3, e4, e5, e6, if_true, if_false]
  omega

theorem load32_store32_other (m : Mem) (a v b : Nat) (ha : a % 4 = 0) (hb : b % 4 = 0)
    (hne : a % W32 ≠ b % W32) : load32 (store32 m a v) b = load32 m b := by
  unfold load32
  simp only [load8_store32]
  unfold W32 at *
  have e00 : ¬ (b % 4294967296 = a % 4294967296) := by omega
  have e01 : ¬ (b % 4294967296 = (a + 1) % 4294967296) := by omega
  have e02 : ¬ (b % 4294967296 = (a + 2) % 4294967296) := by omega
  have e03 : ¬ (b % 4294967296 = (a + 3) % 4294967296) := by omega
  have e10 : ¬ ((b + 1) % 4294967296 = a % 4294967296) := by omega
  have e11 : ¬ ((b + 1) % 4294967296 = (a + 1) % 4294967296) := by omega
  have e12 : ¬ ((b + 1) % 4294967296 = (a + 2) % 4294967296) := by omega
  have e13 : ¬ ((b + 1) % 4294967296 = (a + 3) % 4294967296) := by omega
  have e20 : ¬ ((b + 2) % 4294967296 = a % 4294967296) := by omega
  have e21 : ¬ ((b + 2) % 4294967296 = (a + 1) % 4294967296) := by omega
  have e22 : ¬ ((b + 2) % 4294967296 = (a + 2) % 4294967296) := by omega
  have e23 : ¬ ((b + 2) % 4294967296 = (a + 3) % 4294967296) := by omega
  have e30 : ¬ ((b + 3) % 4294967296 = a % 4294967296) := by omega
  have e31 : ¬ ((b + 3) % 4294967296 = (a + 1) % 4294967296) := by omega
  have e32 : ¬ ((b + 3) % 4294967296 = (a + 2) % 4294967296) := by omega
  have e33 : ¬ ((b + 3) % 4294967296 = (a + 3) % 4294967296) := by omega
  simp only [e00, e01, e02, e03, e10, e11, e12, e13, e20, e21, e22, e23, e30, e31, e32, e33,
    if_false]

theorem store8_apply (m : Mem) (a v x : Nat) :
    store8 m a v x = if x = a % W32 then v % 256 else m x := rfl

/-- Pointwise description of the zeroing loop run for `n` iterations. -/
theorem zeroLoop_apply (p : Nat) (n : Nat) (hn : n ≤ W32) (m : Mem) (x : Nat) :
    (List.range n).foldl (fun mem i => store8 mem (p + i) 0) m x =
      if x < W32 ∧ (x + W32 - p % W32) % W32 < n then 0 else m x := by
  induction n with
  | zero => simp
  | succ k ih =>
    rw [List.range_succ, List.foldl_append, List.foldl_cons, List.foldl_nil, store8_apply,
      ih (by omega)]
    unfold W32 at *
    by_cases hx : x = (p + k) % 4294967296
    · have c : x < 4294967296 ∧ (x + 4294967296 - p % 4294967296) % 4294967296 < k + 1 := by
        omega
      rw [if_pos hx, if_pos c]
    · rw [if_neg hx]
      by_cases c : x < 4294967296 ∧ (x + 4294967296 - p % 4294967296) % 4294967296 < k
      · have c2 : x < 4294967296 ∧ (x + 4294967296 - p % 4294967296) % 4294967296 < k + 1 := by
          omega
        rw [if_pos c, if_pos c2]
      · have c2 : ¬ (x < 4294967296 ∧
            (x + 4294967296 - p % 4294967296) % 4294967296 < k + 1) := by
          omega
        rw [if_neg c, if_neg c2]

theorem zeroFrame_apply (m : Mem) (p x : Nat) :
    zeroFrame m p x = if x < W32 ∧ (x + W32 - p % W32) % W32 < 4096 then 0 else m x := by
  unfold zeroFrame
  rw [zeroLoop_apply p FRAME_SIZE (by decide)]
  rfl

theorem load8_zeroFrame (m : Mem) (p b : Nat) :
    load8 (zeroFrame m p) b =
      if (b % W32 + W32 - p % W32) % W32 < 4096 then 0 else load8 m b := by
  unfold load8
  rw [zeroFrame_apply]
  have h : b % W32 < W32 := Nat.mod_lt _ (by decide)
  by_cases c : (b % W32 + W32 - p % W32) % W32 < 4096
  · rw [if_pos ⟨h, c⟩, if_pos c]
  · rw [if_neg (fun hc => c hc.2), if_neg c]

/-- A word inside the frame at `p` reads as zero after `zeroFrame`. -/
theorem load32_zeroFrame_in (m : Mem) (p b : Nat) (hp : p % 4096 = 0) (hb : b % 4 = 0)
    (hin : b % W32 / 4096 = p % W32 / 4096) : load32 (zeroFrame m p) b = 0 := by
  unfold load32
  simp only [load8_zeroFrame]
  unfold W32 at *
  have c0 : (b % 4294967296 + 4294967296 - p % 4294967296) % 4294967296 < 4096 := by omega
  have c1 : ((b + 1) % 4294967296 + 4294967296 - p % 4294967296) % 4294967296 < 4096 := by
    omega
  have c2 : ((b + 2) % 4294967296 + 4294967296 - p % 4294967296) % 4294967296 < 4096 := by
    omega
  have c3 : ((b + 3) % 4294967296 + 4294967296 - p % 4294967296) % 4294967296 < 4096 := by
    omega
  simp only [c0, c1, c2, c3, if_true]

/-- A word outside the frame at `p` is not changed by `zeroFrame`. -/
theorem load32_zeroFrame_out (m : Mem) (p b : Nat) (hp : p % 4096 = 0) (hb : b % 4 = 0)
    (hout : b % W32 / 4096 ≠ p % W32 / 4096) : load32 (zeroFrame m p) b = load32 m b := by
  unfold load32
  simp only [load8_zeroFrame]
  unfold W32 at *
  have c0 : ¬ (b % 4294967296 + 4294967296 - p % 4294967296) % 4294967296 < 4096 := by omega
  have c1 : ¬ ((b + 1) % 4294967296 + 4294967296 - p % 4294967296) % 4294967296 < 4096 := by
    omega
  have c2 : ¬ ((b + 2) % 4294967296 + 4294967296 - p % 4294967296) % 4294967296 < 4096 := by
    omega
  have c3 : ¬ ((b + 3) % 4294967296 + 4294967296 - p % 4294967296) % 4294967296 < 4096 := by
    omega
  simp only [c0, c1, c2, c3, if_false]

theorem getPD_pos (s : VMM) (h : s.pd ≠ 0) : getPD s = (s.pd, s) := by
  unfold getPD; rw [if_neg h]

theorem getPD_zero (s : VMM) (h : s.pd = 0) :
    getPD s = (s.avail, { s with avail := (s.avail + 4096) % W32,
                                  mem := zeroFrame s.mem s.avail, pd := s.avail }) := by
  unfold getPD vmm_frame; rw [if_pos h, FRAME_SIZE_eq]

theorem getPD_pd (s : VMM) : (getPD s).2.pd = (getPD s).1 := by
  unfold getPD; split_ifs <;> rfl

theorem getPD_setpd (s : VMM) : { (getPD s).2 with pd := (getPD s).1 } = (getPD s).2 := by
  rw [← getPD_pd]

theorem or_one_and_frameMask (e : Nat) : (e ||| 1) &&& 0xfffff000 = e &&& 0xfffff000 := by
  rw [and_frameMask, and_frameMask, or_one]; omega

theorem vmm_frame_eq (s : VMM) : vmm_frame s =
    (s.avail, { s with avail := (s.avail + 4096) % W32, mem := zeroFrame s.mem s.avail }) := by
  unfold vmm_frame
  rw [FRAME_SIZE_eq]

/-- The walker in terms of the state left by `getPD`. -/
theorem getPT_eq (va : Nat) (s : VMM) :
    getPT va s =
      if dirEntry (getPD s).2 (va >>> 22) = 0 then
        (((getPD s).2.avail ||| 1) % W32 &&& 0xfffff000,
          { (getPD s).2 with
            avail := ((getPD s).2.avail + 4096) % W32,
            mem := store32 (zeroFrame (getPD s).2.mem (getPD s).2.avail)
              (entryAddr (getPD s).2.pd (va >>> 22)) ((getPD s).2.avail ||| 1) })
      else (dirEntry (getPD s).2 (va >>> 22) &&& 0xfffff000, (getPD s).2) := by
  unfold getPT dirEntry
  have hpd := getPD_pd s
  generalize getPD s = r at *
  obtain ⟨p, s1⟩ := r
  simp only at hpd
  subst hpd
  simp only [vmm_frame_eq, load32_store32_same, or_one_and_frameMask]


/-! ## Addresses of table entries -/

theorem entryAddr_al (base i : Nat) (hb : base % 4 = 0) : entryAddr base i % 4 = 0 := by
  unfold entryAddr W32; omega

theorem entryAddr_mod (base i : Nat) : entryAddr base i % W32 = entryAddr base i := by
  unfold entryAddr; exact Nat.mod_mod _ _

theorem entryAddr_frame (base i : Nat) (hb : base % 4096 = 0) (hlt : base < W32)
    (hi : i < 1024) : entryAddr base i % W32 / 4096 = base / 4096 := by
  unfold entryAddr W32 at *; omega

theorem entryAddr_inj (base i j : Nat)
    (hi : i < 1024) (hj : j < 1024) (h : entryAddr base i = entryAddr base j) : i = j := by
  unfold entryAddr W32 at *; omega

/-- Zeroing another frame leaves a table entry alone. -/
theorem load32_zeroFrame_entry_ne (m : Mem) (p base i : Nat) (hp : p % 4096 = 0)
    (hb : base % 4096 = 0) (hlt : base < W32) (hi : i < 1024) (hne : p % W32 ≠ base) :
    load32 (zeroFrame m p) (entryAddr base i) = load32 m (entryAddr base i) := by
  apply load32_zeroFrame_out m p _ hp (entryAddr_al base i (by omega))
  rw [entryAddr_frame base i hb hlt hi]
  unfold W32 at *; omega

/-- Zeroing a frame clears every entry of the table in it. -/
theorem load32_zeroFrame_entry_eq (m : Mem) (p base i : Nat) (hp : p % 4096 = 0)
    (hb : base % 4096 = 0) (hlt : base < W32) (hi : i < 1024) (he : p % W32 = base) :
    load32 (zeroFrame m p) (entryAddr base i) = 0 := by
  apply load32_zeroFrame_in m p _ hp (entryAddr_al base i (by omega))
  rw [entryAddr_frame base i hb hlt hi]
  unfold W32 at *; omega

/-- A store into one table leaves the entries of another table alone. -/
theorem load32_store32_table_ne (m : Mem) (b1 j v b2 i : Nat) (h1 : b1 % 4096 = 0)
    (h1lt : b1 < W32) (h2 : b2 % 4096 = 0) (h2lt : b2 < W32) (hi : i < 1024) (hj : j < 1024)
    (hne : b1 ≠ b2) :
    load32 (store32 m (entryAddr b1 j) v) (entryAddr b2 i) = load32 m (entryAddr b2 i) := by
  apply load32_store32_other m _ v _ (entryAddr_al b1 j (by omega))
    (entryAddr_al b2 i (by omega))
  rw [entryAddr_mod, entryAddr_mod]
  unfold entryAddr W32 at *; omega

/-- A store into an entry leaves the other entries of the same table alone. -/
theorem load32_store32_index_ne (m : Mem) (b j v i : Nat) (h1 : b % 4096 = 0)
    (hi : i < 1024) (hj : j < 1024) (hne : j ≠ i) :
    load32 (store32 m (entryAddr b j) v) (entryAddr b i) = load32 m (entryAddr b i) := by
  apply load32_store32_other m _ v _ (entryAddr_al b j (by omega))
    (entryAddr_al b i (by omega))
  rw [entryAddr_mod, entryAddr_mod]
  unfold entryAddr W32 at *; omega

/-! ## Frames handed out -/

theorem allocd_mono {A B x : Nat} (h : allocd A x) (hAB : A ≤ B) : allocd B x := by
  unfold allocd at *; omega

theorem allocd_fresh_ne {A x : Nat} (h : allocd A x) (hlo : 0x100000 ≤ A)
    (hhi : A + 4096 ≤ W32 + 0x100000) : A % W32 ≠ x := by
  unfold allocd W32 at *; omega

theorem allocd_fresh {A : Nat} (hal : A % 4096 = 0) (hlo : 0x100000 ≤ A)
    (hhi : A ≤ W32 + 0x100000) : allocd (A + 4096) (A % W32) := by
  unfold allocd W32 at *; omega

theorem or_one_of_aligned (f : Nat) (h : f % 4096 = 0) : f ||| 1 = f + 1 := by
  rw [or_one]; omega

theorem frameMask_succ (b : Nat) (h : b % 4096 = 0) (hlt : b < W32) :
    (b + 1) &&& 0xfffff000 = b := by
  rw [and_frameMask]; unfold W32 at *; omega


/-! ## The invariant is kept by the building blocks -/

theorem dirEntry_congr {s t : VMM} (hpd : t.pd = s.pd) (hmem : t.mem = s.mem) (i : Nat) :
    dirEntry t i = dirEntry s i := by
  unfold dirEntry; rw [hpd, hmem]

theorem InvG.congr {A : Nat} {s t : VMM} (h : InvG A s) (hav : t.avail = s.avail)
    (hpd : t.pd = s.pd) (hmem : t.mem = s.mem) : InvG A t := by
  refine ⟨h.A_al, h.A_lo, h.A_hi, ?_, ?_, ?_, ?_⟩
  · rw [hav]; exact h.avail_eq
  · rw [hpd]; exact h.pd_ok
  · intro hp i hi
    rw [dirEntry_congr hpd hmem, hpd]
    exact h.dir_ok (hpd ▸ hp) i hi
  · intro hp i j hi hj
    rw [dirEntry_congr hpd hmem, dirEntry_congr hpd hmem]
    exact h.dir_inj (hpd ▸ hp) i j hi hj

theorem InvG.pd_lt {A : Nat} {s : VMM} (h : InvG A s) : s.pd < W32 := by
  rcases h.pd_ok with h0 | h1
  · rw [h0]; decide
  · exact h1.2.1

theorem InvG.pd_al {A : Nat} {s : VMM} (h : InvG A s) : s.pd % 4096 = 0 := by
  rcases h.pd_ok with h0 | h1
  · rw [h0]
  · exact h1.1

/-- Zeroing the frame at the cursor does not touch the directory. -/
theorem InvG.dirEntry_zeroFrame {A : Nat} {s : VMM} (h : InvG A s) (hp : s.pd ≠ 0)
    (hA : A + 4096 ≤ W32 + 0x100000) (i : Nat) (hi : i < 1024) :
    load32 (zeroFrame s.mem s.avail) (entryAddr s.pd i) = dirEntry s i := by
  have hal : allocd A s.pd := h.pd_ok.resolve_left hp
  have hne := allocd_fresh_ne hal h.A_lo hA
  unfold dirEntry
  apply load32_zeroFrame_entry_ne _ _ _ _ ?_ hal.1 hal.2.1 hi
  · rw [h.avail_eq, Nat.mod_mod]; exact hne
  · rw [h.avail_eq]; have := h.A_al; unfold W32; omega

theorem InvG.after_frame {A : Nat} {s : VMM} (h : InvG A s) (hA : A + 4096 ≤ W32 + 0x100000) :
    InvG (A + 4096) (vmm_frame s).2 := by
  rw [vmm_frame_eq]
  have e : ∀ i, i < 1024 → s.pd ≠ 0 →
      dirEntry { s with avail := (s.avail + 4096) % W32,
                        mem := zeroFrame s.mem s.avail } i = dirEntry s i := by
    intro i hi hp
    exact h.dirEntry_zeroFrame hp hA i hi
  refine ⟨?_, ?_, hA, ?_, ?_, ?_, ?_⟩
  · have := h.A_al; omega
  · have := h.A_lo; omega
  · show (s.avail + 4096) % W32 = (A + 4096) % W32
    rw [h.avail_eq]; unfold W32; omega
  · rcases h.pd_ok with h0 | h1
    · exact Or.inl h0
    · exact Or.inr (allocd_mono h1 (by omega))
  · intro hp i hi
    rw [e i hi hp]
    rcases h.dir_ok hp i hi with h0 | ⟨b, hb, hal, hne⟩
    · exact Or.inl h0
    · exact Or.inr ⟨b, hb, allocd_mono hal (by omega), hne⟩
  · intro hp i j hi hj
    rw [e i hi hp, e j hj hp]
    exact h.dir_inj hp i j hi hj


/-- The state `getPD` leaves, by cases on whether the directory exists. -/
theorem getPD_snd (s : VMM) :
    (getPD s).2 = if s.pd = 0 then
        { s with avail := (s.avail + 4096) % W32, mem := zeroFrame s.mem s.avail,
                 pd := s.avail }
      else s := by
  by_cases hp : s.pd = 0
  · rw [getPD_zero s hp, if_pos hp]
  · rw [getPD_pos s hp, if_neg hp]

theorem InvG.after_getPD {A : Nat} {s : VMM} (h : InvG A s)
    (hA : s.pd = 0 → A + 4096 ≤ W32 + 0x100000) :
    InvG (if s.pd = 0 then A + 4096 else A) (getPD s).2 := by
  by_cases hp : s.pd = 0
  · have hA := hA hp
    rw [getPD_zero s hp, if_pos hp]
    have hfr := allocd_fresh h.A_al h.A_lo (by omega : A ≤ W32 + 0x100000)
    have hz : ∀ i, i < 1024 →
        dirEntry { s with avail := (s.avail + 4096) % W32, mem := zeroFrame s.mem s.avail,
                          pd := s.avail } i = 0 := by
      intro i hi
      show load32 (zeroFrame s.mem s.avail) (entryAddr s.avail i) = 0
      rw [h.avail_eq]
      exact load32_zeroFrame_entry_eq _ _ _ i hfr.1 hfr.1 hfr.2.1 hi (Nat.mod_mod _ _)
    refine ⟨?_, ?_, hA, ?_, ?_, ?_, ?_⟩
    · have := h.A_al; omega
    · have := h.A_lo; omega
    · show (s.avail + 4096) % W32 = (A + 4096) % W32
      rw [h.avail_eq]; unfold W32; omega
    · right
      show allocd (A + 4096) s.avail
      rw [h.avail_eq]; exact hfr
    · intro _ i hi
      exact Or.inl (hz i hi)
    · intro _ i j hi _ hne
      exact absurd (hz i hi) hne
  · rw [getPD_pos s hp, if_neg hp]
    exact h

/-- A store into a leaf table keeps the invariant. -/
theorem InvG.leafStore {A : Nat} {s : VMM} (h : InvG A s) (pt j v : Nat)
    (hpt : s.pd = 0 ∨ (pt % 4096 = 0 ∧ pt < W32 ∧ pt ≠ s.pd)) (hj : j < 1024) :
    InvG A { s with mem := store32 s.mem (entryAddr pt j) v } := by
  have e : ∀ i, i < 1024 → s.pd ≠ 0 →
      dirEntry { s with mem := store32 s.mem (entryAddr pt j) v } i = dirEntry s i := by
    intro i hi hp
    obtain ⟨h1, h2, h3⟩ := hpt.resolve_left hp
    exact load32_store32_table_ne _ _ _ _ _ _ h1 h2 h.pd_al h.pd_lt hi hj h3
  refine ⟨h.A_al, h.A_lo, h.A_hi, h.avail_eq, h.pd_ok, ?_, ?_⟩
  · intro hp i hi
    rw [e i hi hp]
    exact h.dir_ok hp i hi
  · intro hp i j hi hj
    rw [e i hi hp, e j hj hp]
    exact h.dir_inj hp i j hi hj

/-- The table a non-zero directory entry points to is a frame handed out
before, other than the directory. -/
theorem InvG.table_of_entry {A : Nat} {s : VMM} (h : InvG A s) (hp : s.pd ≠ 0) (i : Nat)
    (hi : i < 1024) (hne : dirEntry s i ≠ 0) :
    dirEntry s i = (dirEntry s i &&& 0xfffff000) + 1 ∧
      allocd A (dirEntry s i &&& 0xfffff000) ∧ dirEntry s i &&& 0xfffff000 ≠ s.pd := by
  rcases h.dir_ok hp i hi with h0 | ⟨b, hb, hal, hbne⟩
  · exact absurd h0 hne
  · rw [hb, frameMask_succ b hal.1 hal.2.1]
    exact ⟨rfl, hal, hbne⟩


theorem InvG.avail_lt {A : Nat} {s : VMM} (h : InvG A s) : s.avail < W32 := by
  rw [h.avail_eq]; exact Nat.mod_lt _ (by decide)

theorem InvG.avail_al {A : Nat} {s : VMM} (h : InvG A s) : s.avail % 4096 = 0 := by
  rw [h.avail_eq]; have := h.A_al; unfold W32; omega

/-- Directory entries after the walker has installed a new table in slot `d`. -/
theorem InvG.dirEntry_install {A : Nat} {s : VMM} (h : InvG A s) (hp : s.pd ≠ 0)
    (hA : A + 4096 ≤ W32 + 0x100000) (d i : Nat) (hd : d < 1024) (hi : i < 1024) :
    dirEntry { s with avail := (s.avail + 4096) % W32,
                      mem := store32 (zeroFrame s.mem s.avail) (entryAddr s.pd d)
                        (s.avail ||| 1) } i
      = if i = d then s.avail + 1 else dirEntry s i := by
  show load32 (store32 (zeroFrame s.mem s.avail) (entryAddr s.pd d) (s.avail ||| 1))
    (entryAddr s.pd i) = _
  by_cases hid : i = d
  · rw [if_pos hid, hid, load32_store32_same, or_one_of_aligned _ h.avail_al]
    have := h.avail_lt; have := h.avail_al
    unfold W32 at *; omega
  · rw [if_neg hid, load32_store32_index_ne _ _ _ _ _ h.pd_al hi hd (fun e => hid e.symm)]
    exact h.dirEntry_zeroFrame hp hA i hi

theorem InvG.install {A : Nat} {s : VMM} (h : InvG A s) (hA : A + 4096 ≤ W32 + 0x100000)
    (d : Nat) (hd : d < 1024) :
    InvG (A + 4096) { s with avail := (s.avail + 4096) % W32,
                             mem := store32 (zeroFrame s.mem s.avail) (entryAddr s.pd d)
                               (s.avail ||| 1) } := by
  have hfr := allocd_fresh h.A_al h.A_lo (by omega : A ≤ W32 + 0x100000)
  rw [← h.avail_eq] at hfr
  refine ⟨?_, ?_, hA, ?_, ?_, ?_, ?_⟩
  · have := h.A_al; omega
  · have := h.A_lo; omega
  · show (s.avail + 4096) % W32 = (A + 4096) % W32
    rw [h.avail_eq]; unfold W32; omega
  · rcases h.pd_ok with h0 | h1
    · exact Or.inl h0
    · exact Or.inr (allocd_mono h1 (by omega))
  · intro hp i hi
    have hp : s.pd ≠ 0 := hp
    rw [h.dirEntry_install hp hA d i hd hi]
    by_cases hid : i = d
    · rw [if_pos hid]
      refine Or.inr ⟨s.avail, rfl, hfr, ?_⟩
      have := allocd_fresh_ne (h.pd_ok.resolve_left hp) h.A_lo hA
      rw [← h.avail_eq] at this
      exact this
    · rw [if_neg hid]
      rcases h.dir_ok hp i hi with h0 | ⟨b, hb, hal, hne⟩
      · exact Or.inl h0
      · exact Or.inr ⟨b, hb, allocd_mono hal (by omega), hne⟩
  · intro hp i j hi hj
    have hp : s.pd ≠ 0 := hp
    rw [h.dirEntry_install hp hA d i hd hi, h.dirEntry_install hp hA d j hd hj]
    have key : ∀ k, k < 1024 → dirEntry s k ≠ s.avail + 1 := by
      intro k hk hek
      rcases h.dir_ok hp k hk with h0 | ⟨b, hb, hal, _⟩
      · omega
      · have := allocd_fresh_ne hal h.A_lo hA
        rw [← h.avail_eq] at this
        omega
    by_cases hid : i = d
    · by_cases hjd : j = d
      · intro _ _; omega
      · rw [if_pos hid, if_neg hjd]
        intro _ e
        exact absurd e.symm (key j hj)
    · by_cases hjd : j = d
      · rw [if_neg hid, if_pos hjd]
        intro _ e
        exact absurd e (key i hi)
      · rw [if_neg hid, if_neg hjd]
        exact h.dir_inj hp i j hi hj


/-! ## The operations, in terms of the state left by `getPD` -/

theorem getPT_zero (va : Nat) (s : VMM) (hz : dirEntry (getPD s).2 (va >>> 22) = 0) :
    getPT va s =
      (((getPD s).2.avail ||| 1) % W32 &&& 0xfffff000,
        { (getPD s).2 with
          avail := ((getPD s).2.avail + 4096) % W32,
          mem := store32 (zeroFrame (getPD s).2.mem (getPD s).2.avail)
            (entryAddr (getPD s).2.pd (va >>> 22)) ((getPD s).2.avail ||| 1) }) := by
  rw [getPT_eq, if_pos hz]

theorem getPT_nonzero (va : Nat) (s : VMM) (hz : dirEntry (getPD s).2 (va >>> 22) ≠ 0) :
    getPT va s = (dirEntry (getPD s).2 (va >>> 22) &&& 0xfffff000, (getPD s).2) := by
  rw [getPT_eq, if_neg hz]

theorem getPT_pd (va : Nat) (s : VMM) : (getPT va s).2.pd = (getPD s).2.pd := by
  rw [getPT_eq]; split_ifs <;> rfl

theorem getPT_tlb (va : Nat) (s : VMM) : (getPT va s).2.tlb = s.tlb := by
  rw [getPT_eq, getPD_snd]; split_ifs <;> rfl

theorem shr22_lt (va : Nat) (h : va < W32) : va >>> 22 < 1024 := by
  rw [shr22]; unfold W32 at h; omega

theorem leafIndex_lt (va : Nat) : ((va <<< 10) % W32) >>> 22 < 1024 := by
  rw [leafIndex_eq]; omega

/-- The walker keeps the invariant; the table it returns is a frame handed
out by the allocator, other than the directory, and the directory entry of
`va` points to it. -/
theorem InvG.after_getPT {A : Nat} {s : VMM} (h : InvG A s) (va : Nat) (hva : va < W32)
    (hA : A + 8192 ≤ W32 + 0x100000) :
    ∃ B, A ≤ B ∧ B ≤ A + 8192 ∧ InvG B (getPT va s).2 ∧
      ((getPT va s).2.pd ≠ 0 →
        (getPT va s).1 % 4096 = 0 ∧ (getPT va s).1 < W32 ∧
        (getPT va s).1 ≠ (getPT va s).2.pd ∧
        dirEntry (getPT va s).2 (va >>> 22) = (getPT va s).1 + 1) := by
  have hd := shr22_lt va hva
  have h1 := h.after_getPD (fun _ => by omega)
  generalize hB : (if s.pd = 0 then A + 4096 else A) = B at h1
  have hB1 : A ≤ B ∧ B ≤ A + 4096 := by
    rw [← hB]; split_ifs <;> omega
  by_cases hz : dirEntry (getPD s).2 (va >>> 22) = 0
  · rw [getPT_zero va s hz]
    refine ⟨B + 4096, by omega, by omega, h1.install (by omega) _ hd, ?_⟩
    intro hp
    have hp : (getPD s).2.pd ≠ 0 := hp
    have hav := h1.avail_al
    have hlt := h1.avail_lt
    have e1 : ((getPD s).2.avail ||| 1) % W32 &&& 0xfffff000 = (getPD s).2.avail := by
      rw [or_one_of_aligned _ hav, and_frameMask]
      unfold W32 at *; omega
    have hne := allocd_fresh_ne (h1.pd_ok.resolve_left hp) h1.A_lo (by omega)
    rw [← h1.avail_eq] at hne
    refine ⟨?_, ?_, ?_, ?_⟩
    · show (((getPD s).2.avail ||| 1) % W32 &&& 0xfffff000) % 4096 = 0
      rw [e1]; exact hav
    · show (((getPD s).2.avail ||| 1) % W32 &&& 0xfffff000) < W32
      rw [e1]; exact hlt
    · show (((getPD s).2.avail ||| 1) % W32 &&& 0xfffff000) ≠ (getPD s).2.pd
      rw [e1]; exact hne
    · show dirEntry _ _ = (((getPD s).2.avail ||| 1) % W32 &&& 0xfffff000) + 1
      rw [e1, h1.dirEntry_install hp (by omega) _ _ hd hd, if_pos rfl]
  · rw [getPT_nonzero va s hz]
    refine ⟨B, by omega, by omega, h1, ?_⟩
    intro hp
    have hp : (getPD s).2.pd ≠ 0 := hp
    obtain ⟨e, hal, hne⟩ := h1.table_of_entry hp _ hd hz
    exact ⟨hal.1, hal.2.1, hne, e⟩

theorem vmm_map_eq (va pa : Nat) (s : VMM) :
    vmm_map va pa s =
      { (getPT va s).2 with
        mem := store32
          (store32 (getPT va s).2.mem
            (entryAddr (getPT va s).1 (((va <<< 10) % W32) >>> 22)) ((pa >>> 12) <<< 12))
          (entryAddr (getPT va s).1 (((va <<< 10) % W32) >>> 22))
          (((pa >>> 12) <<< 12) % W32 ||| 1) } := by
  unfold vmm_map
  simp only [load32_store32_same]

theorem getPD_fst (s : VMM) : (getPD s).1 = (getPD s).2.pd := (getPD_pd s).symm

theorem vmm_pa_snd (va : Nat) (s : VMM) : (vmm_pa va s).2 = (getPD s).2 := by
  unfold vmm_pa
  have hpd := getPD_pd s
  generalize getPD s = r at *
  obtain ⟨p, s1⟩ := r
  simp only at hpd
  subst hpd
  dsimp only
  split_ifs <;> rfl

theorem vmm_pa_fst (va : Nat) (s : VMM) :
    (vmm_pa va s).1 =
      if dirEntry (getPD s).2 (va >>> 22) = 0 then 0xffffffff
      else (leafEntry (getPD s).2 (dirEntry (getPD s).2 (va >>> 22) &&& 0xfffff000)
              ((va >>> 12) &&& 0x3ff) &&& 0xfffff000) ||| (va &&& 0x3ff) := by
  unfold vmm_pa dirEntry leafEntry
  have hpd := getPD_pd s
  generalize getPD s = r at *
  obtain ⟨p, s1⟩ := r
  simp only at hpd
  subst hpd
  dsimp only
  split_ifs <;> rfl

theorem vmm_unmap_eq (va : Nat) (s : VMM) :
    vmm_unmap va s =
      if dirEntry (getPD s).2 (va >>> 22) &&& 1 = 1 then
        { (getPD s).2 with
          mem := store32 (getPD s).2.mem
            (entryAddr (dirEntry (getPD s).2 (va >>> 22) &&& 0xfffff000)
              (((va <<< 10) % W32) >>> 22))
            (leafEntry (getPD s).2 (dirEntry (getPD s).2 (va >>> 22) &&& 0xfffff000)
              (((va <<< 10) % W32) >>> 22) &&& 0xfffffffe),
          tlb := (getPD s).2.tlb ++ [va] }
      else (getPD s).2 := by
  unfold vmm_unmap dirEntry leafEntry invlpg
  dsimp only
  rw [getPD_fst]

theorem vmm_dirty_snd (va : Nat) (s : VMM) : (vmm_dirty va s).2 = (getPT va s).2 := rfl
theorem vmm_accessed_snd (va : Nat) (s : VMM) : (vmm_accessed va s).2 = (getPT va s).2 := rfl

theorem emit_avail (e : ConsoleEvent) (s : VMM) : (emit e s).avail = s.avail := rfl
theorem emit_pd (e : ConsoleEvent) (s : VMM) : (emit e s).pd = s.pd := rfl
theorem emit_mem (e : ConsoleEvent) (s : VMM) : (emit e s).mem = s.mem := rfl
theorem emit_tlb (e : ConsoleEvent) (s : VMM) : (emit e s).tlb = s.tlb := rfl

/-- The dump loops only write to the console. -/
theorem dumpLeaf_frame (pt : Nat) (s : VMM) (j : Nat) :
    (dumpLeaf pt s j).avail = s.avail ∧ (dumpLeaf pt s j).pd = s.pd ∧
      (dumpLeaf pt s j).mem = s.mem ∧ (dumpLeaf pt s j).tlb = s.tlb := by
  unfold dumpLeaf
  dsimp only
  split_ifs <;> exact ⟨rfl, rfl, rfl, rfl⟩

theorem foldl_frame (f : VMM → Nat → VMM)
    (hf : ∀ s j, (f s j).avail = s.avail ∧ (f s j).pd = s.pd ∧
      (f s j).mem = s.mem ∧ (f s j).tlb = s.tlb) (l : List Nat) (s : VMM) :
    (l.foldl f s).avail = s.avail ∧ (l.foldl f s).pd = s.pd ∧
      (l.foldl f s).mem = s.mem ∧ (l.foldl f s).tlb = s.tlb := by
  induction l generalizing s with
  | nil => exact ⟨rfl, rfl, rfl, rfl⟩
  | cons x xs ih =>
    rw [List.foldl_cons]
    obtain ⟨a1, a2, a3, a4⟩ := ih (f s x)
    obtain ⟨b1, b2, b3, b4⟩ := hf s x
    exact ⟨a1.trans b1, a2.trans b2, a3.trans b3, a4.trans b4⟩

theorem dumpDir_frame (pd : Nat) (s : VMM) (i : Nat) :
    (dumpDir pd s i).avail = s.avail ∧ (dumpDir pd s i).pd = s.pd ∧
      (dumpDir pd s i).mem = s.mem ∧ (dumpDir pd s i).tlb = s.tlb := by
  unfold dumpDir
  dsimp only
  split_ifs
  · exact foldl_frame _ (dumpLeaf_frame _) _ _
  · exact ⟨rfl, rfl, rfl, rfl⟩

theorem vmm_dump_frame (s : VMM) :
    (vmm_dump s).avail = (getPD s).2.avail ∧ (vmm_dump s).pd = (getPD s).2.pd ∧
      (vmm_dump s).mem = (getPD s).2.mem ∧ (vmm_dump s).tlb = (getPD s).2.tlb := by
  unfold vmm_dump
  exact foldl_frame _ (dumpDir_frame _) _ _


/-! ## The invariant is kept by the public operations -/

theorem InvG.after_map {A : Nat} {s : VMM} (h : InvG A s) (va pa : Nat) (hva : va < W32)
    (hA : A + 8192 ≤ W32 + 0x100000) :
    ∃ B, A ≤ B ∧ B ≤ A + 8192 ∧ InvG B (vmm_map va pa s) := by
  obtain ⟨B, h1, h2, h3, h4⟩ := h.after_getPT va hva hA
  refine ⟨B, h1, h2, ?_⟩
  rw [vmm_map_eq]
  have hpt : (getPT va s).2.pd = 0 ∨ ((getPT va s).1 % 4096 = 0 ∧ (getPT va s).1 < W32 ∧
      (getPT va s).1 ≠ (getPT va s).2.pd) := by
    by_cases hp : (getPT va s).2.pd = 0
    · exact Or.inl hp
    · obtain ⟨a, b, c, _⟩ := h4 hp
      exact Or.inr ⟨a, b, c⟩
  have k1 := h3.leafStore (getPT va s).1 _ ((pa >>> 12) <<< 12) hpt (leafIndex_lt va)
  exact k1.leafStore (getPT va s).1 _ _ hpt (leafIndex_lt va)

theorem InvG.after_unmap {A : Nat} {s : VMM} (h : InvG A s) (va : Nat) (hva : va < W32)
    (hA : A + 4096 ≤ W32 + 0x100000) :
    ∃ B, A ≤ B ∧ B ≤ A + 4096 ∧ InvG B (vmm_unmap va s) := by
  have h1 := h.after_getPD (fun _ => hA)
  generalize hB : (if s.pd = 0 then A + 4096 else A) = B at h1
  have hB1 : A ≤ B ∧ B ≤ A + 4096 := by
    rw [← hB]; split_ifs <;> omega
  refine ⟨B, hB1.1, hB1.2, ?_⟩
  rw [vmm_unmap_eq]
  split_ifs with hpres
  · have hne : dirEntry (getPD s).2 (va >>> 22) ≠ 0 := by
      intro e; rw [e] at hpres; exact absurd hpres (by decide)
    have hpt : (getPD s).2.pd = 0 ∨
        ((dirEntry (getPD s).2 (va >>> 22) &&& 0xfffff000) % 4096 = 0 ∧
          (dirEntry (getPD s).2 (va >>> 22) &&& 0xfffff000) < W32 ∧
          (dirEntry (getPD s).2 (va >>> 22) &&& 0xfffff000) ≠ (getPD s).2.pd) := by
      by_cases hp : (getPD s).2.pd = 0
      · exact Or.inl hp
      · obtain ⟨_, hal, c⟩ := h1.table_of_entry hp _ (shr22_lt va hva) hne
        exact Or.inr ⟨hal.1, hal.2.1, c⟩
    exact (h1.leafStore _ _ _ hpt (leafIndex_lt va)).congr rfl rfl rfl
  · exact h1

theorem InvG.after_step {A : Nat} {s : VMM} (h : InvG A s) (o : Op) (ho : o.args32)
    (hA : A + 12288 ≤ W32 + 0x100000) :
    ∃ B, A ≤ B ∧ B ≤ A + 12288 ∧ InvG B (step o s) := by
  cases o with
  | frame => exact ⟨A + 4096, by omega, by omega, h.after_frame (by omega)⟩
  | map va pa =>
    obtain ⟨B, h1, h2, h3⟩ := h.after_map va pa ho.1 (by omega)
    exact ⟨B, h1, by omega, h3⟩
  | unmap va =>
    obtain ⟨B, h1, h2, h3⟩ := h.after_unmap va ho (by omega)
    exact ⟨B, h1, by omega, h3⟩
  | pa va =>
    have h1 := h.after_getPD (fun _ => by omega)
    refine ⟨_, ?_, ?_, h1.congr (by rw [step, vmm_pa_snd]) (by rw [step, vmm_pa_snd])
      (by rw [step, vmm_pa_snd])⟩ <;> split_ifs <;> omega
  | dirty va =>
    obtain ⟨B, h1, h2, h3, _⟩ := h.after_getPT va ho (by omega)
    exact ⟨B, h1, by omega, h3⟩
  | accessed va =>
    obtain ⟨B, h1, h2, h3, _⟩ := h.after_getPT va ho (by omega)
    exact ⟨B, h1, by omega, h3⟩
  | pageFault va =>
    have h0 : InvG A (emit (.sayHex "page fault @ " va) s) := h.congr rfl rfl rfl
    have h1 := h0.after_frame (by omega)
    obtain ⟨B, k1, k2, k3⟩ := h1.after_map va (vmm_frame (emit (.sayHex "page fault @ " va) s)).1
      ho (by omega)
    exact ⟨B, by omega, by omega, k3⟩
  | dump =>
    have h1 := h.after_getPD (fun _ => by omega)
    obtain ⟨e1, e2, e3, _⟩ := vmm_dump_frame s
    refine ⟨_, ?_, ?_, h1.congr e1 e2 e3⟩ <;> split_ifs <;> omega

theorem InvG.fresh (m : Mem) : InvG 0x100000 (fresh m) := by
  refine ⟨by decide, by decide, by decide, rfl, Or.inl rfl, ?_, ?_⟩
  · intro hp; exact absurd rfl hp
  · intro hp; exact absurd rfl hp

/-- Every state reached without wrapping the cursor has a well-formed directory. -/
theorem ReachableNW.inv {s : VMM} (h : ReachableNW s) : InvG s.avail s := by
  induction h with
  | init m => exact InvG.fresh m
  | call o s _ ho hnw ih =>
    have hlt := ih.avail_lt
    obtain ⟨B, h1, h2, h3⟩ := ih.after_step o ho (by unfold W32 at *; omega)
    have e := h3.avail_eq
    have hB : B % W32 = B := by
      rw [e] at hnw
      unfold W32 at *; omega
    rw [hB] at e
    rw [e]; exact h3

theorem getPD_pd_ne {A : Nat} {s : VMM} (h : InvG A s) (hpd : s.pd ≠ 0 ∨ A < W32) :
    (getPD s).2.pd ≠ 0 := by
  rw [getPD_snd]
  split_ifs with hp
  · show s.avail ≠ 0
    have := h.avail_eq; have := h.A_lo
    rcases hpd with h1 | h1
    · exact absurd hp h1
    · unfold W32 at *; omega
  · exact hp

/-- The value `vmm_map` leaves in the leaf entry. -/
theorem mapValue_eq (pa : Nat) (hpa : pa < W32) :
    ((((pa >>> 12) <<< 12) % W32 ||| 1) % W32) = pa / 4096 * 4096 + 1 := by
  rw [shr_shl12, or_one]; unfold W32 at *; omega

/-- State after `vmm_map` from a state with a well-formed directory. -/
theorem InvG.map_post {A : Nat} {s : VMM} (h : InvG A s) (va pa : Nat) (hva : va < W32)
    (hpa : pa < W32) (hA : A + 8192 ≤ W32 + 0x100000) (hpd : s.pd ≠ 0 ∨ A < W32) :
    (vmm_map va pa s).pd ≠ 0 ∧
    (getPT va s).1 % 4096 = 0 ∧ (getPT va s).1 < W32 ∧
    (getPT va s).1 ≠ (vmm_map va pa s).pd ∧
    dirEntry (vmm_map va pa s) (va >>> 22) = (getPT va s).1 + 1 ∧
    leafEntry (vmm_map va pa s) (getPT va s).1 (va / 4096 % 1024) = pa / 4096 * 4096 + 1 := by
  obtain ⟨B, _, _, h3, h4⟩ := h.after_getPT va hva hA
  have hp : (getPT va s).2.pd ≠ 0 := by
    rw [getPT_pd]; exact getPD_pd_ne h hpd
  obtain ⟨a, b, c, d⟩ := h4 hp
  have hd := shr22_lt va hva
  rw [vmm_map_eq]
  refine ⟨hp, a, b, c, ?_, ?_⟩
  · show load32 (store32 (store32 _ _ _) _ _) (entryAddr (getPT va s).2.pd (va >>> 22)) = _
    rw [load32_store32_table_ne _ _ _ _ _ _ a b h3.pd_al h3.pd_lt hd (leafIndex_lt va) c,
      load32_store32_table_ne _ _ _ _ _ _ a b h3.pd_al h3.pd_lt hd (leafIndex_lt va) c]
    exact d
  · show load32 (store32 (store32 _ _ _) _ _) (entryAddr (getPT va s).1 (va / 4096 % 1024)) = _
    rw [leafIndex_eq, load32_store32_same, mapValue_eq pa hpa]

/-- What `vmm_pa` returns after `vmm_map`, for any address of the mapped page. -/
theorem InvG.resolve_after_map {A : Nat} {s : VMM} (h : InvG A s) (va pa va2 : Nat)
    (hva : va < W32) (hpa : pa < W32) (hA : A + 8192 ≤ W32 + 0x100000)
    (hpd : s.pd ≠ 0 ∨ A < W32) (hpage : va2 / 4096 = va / 4096) :
    (vmm_pa va2 (vmm_map va pa s)).1 = pa / 4096 * 4096 + va2 % 1024 := by
  obtain ⟨hp, a, b, _, d, e⟩ := h.map_post va pa hva hpa hA hpd
  have hd2 : va2 >>> 22 = va >>> 22 := by rw [shr22, shr22]; omega
  have hl2 : (va2 >>> 12) &&& 0x3ff = va / 4096 % 1024 := by rw [and_3ff, shr12, hpage]
  rw [vmm_pa_fst, getPD_pos _ hp, hd2, d, if_neg (by omega), frameMask_succ _ a b, hl2, e,
    frameMask_succ _ (by omega) (by unfold W32 at *; omega), and_3ff,
    or_low12 _ _ (by omega) (by omega)]

theorem and_frameMask_or_lt (x va : Nat) :
    (x &&& 0xfffff000) ||| (va &&& 0x3ff) = x / 4096 % 1048576 * 4096 + va % 1024 := by
  rw [and_frameMask, and_3ff, or_low12 _ _ (by omega) (by omega)]

/-- C1. Map/resolve round trip: from every state reached from the fresh VMM
without the cursor wrapping, and for 4 KiB-aligned `va`, `pa`, `pa2`, the call
`vmm_pa(va)` after `vmm_map(va, pa)` returns `pa`, and after a second
`vmm_map(va, pa2)` at the same `va` it returns `pa2`. -/
theorem C1_map_resolve_round_trip (s : VMM) (hs : ReachableNW s) (va pa pa2 : Nat)
    (hva : va < W32) (hpa : pa < W32) (hpa2 : pa2 < W32)
    (hva_al : va % 4096 = 0) (hpa_al : pa % 4096 = 0) (hpa2_al : pa2 % 4096 = 0) :
    (vmm_pa va (vmm_map va pa s)).1 = pa ∧
      (vmm_pa va (vmm_map va pa2 (vmm_map va pa s))).1 = pa2 := by
  have h := hs.inv
  have hlt := h.avail_lt
  have hA : s.avail + 8192 ≤ W32 + 0x100000 := by unfold W32 at *; omega
  constructor
  · rw [h.resolve_after_map va pa va hva hpa hA (Or.inr hlt) rfl]
    omega
  · obtain ⟨B, _, hB, h1⟩ := h.after_map va pa hva hA
    have hp := (h.map_post va pa hva hpa hA (Or.inr hlt)).1
    rw [h1.resolve_after_map va pa2 va hva hpa2 (by unfold W32 at *; omega) (Or.inl hp) rfl]
    omega

/-- Witness of C1 on the fresh VMM with `va = 0x00200000`. -/
theorem C1_map_resolve_round_trip_witness :
    (vmm_pa 0x00200000 (vmm_map 0x00200000 0x00200000 (fresh (fun _ => 0)))).1 = 0x00200000 ∧
      (vmm_pa 0x00200000 (vmm_map 0x00200000 0x00300000
        (vmm_map 0x00200000 0x00200000 (fresh (fun _ => 0))))).1 = 0x00300000 :=
  C1_map_resolve_round_trip (fresh (fun _ => 0)) (ReachableNW.init _) 0x00200000 0x00200000
    0x00300000 (by decide) (by decide) (by decide) (by decide) (by decide) (by decide)

/-- C2. The code at the scenario of the claim: on the fresh VMM, after
`vmm_map(0x00200000, 0x00200000)` the call `vmm_pa(0x00200abc)` returns
`0x002002bc`, not `0x00200abc`: the offset is masked with `0x3ff`, so bits 10
and 11 of the page offset are lost. -/
theorem C2_resolve_offset_masked_3ff (m : Mem) :
    (vmm_pa 0x00200abc (vmm_map 0x00200000 0x00200000 (fresh m))).1 = 0x002002bc ∧
      (vmm_pa 0x00200abc (vmm_map 0x00200000 0x00200000 (fresh m))).1 ≠ 0x00200abc := by
  have h := InvG.fresh m
  have e := h.resolve_after_map 0x00200000 0x00200000 0x00200abc (by decide) (by decide)
    (by decide) (Or.inr (by decide)) (by decide)
  rw [e]
  constructor <;> decide

/-- C3. Unmapped sentinel: in every state and for every `va`, `vmm_pa(va)`
returns `0xFFFFFFFF` exactly when the directory entry at index `va >> 22` (of
the directory the call works on) is zero; when that entry is non-zero the result
is the address synthesized from the leaf entry, whatever the leaf entry holds,
and it differs from `0xFFFFFFFF`. -/
theorem C3_unmapped_sentinel (s : VMM) (va : Nat) :
    ((vmm_pa va s).1 = 0xFFFFFFFF ↔ dirEntry (getPD s).2 (va >>> 22) = 0) ∧
      (dirEntry (getPD s).2 (va >>> 22) ≠ 0 →
        (vmm_pa va s).1 =
          (leafEntry (getPD s).2 (dirEntry (getPD s).2 (va >>> 22) &&& 0xfffff000)
            ((va >>> 12) &&& 0x3ff) &&& 0xfffff000) ||| (va &&& 0x3ff) ∧
        (vmm_pa va s).1 ≠ 0xFFFFFFFF) := by
  rw [vmm_pa_fst]
  by_cases hz : dirEntry (getPD s).2 (va >>> 22) = 0
  · rw [if_pos hz]
    exact ⟨⟨fun _ => hz, fun _ => rfl⟩, fun h => absurd hz h⟩
  · rw [if_neg hz]
    have hne : (leafEntry (getPD s).2 (dirEntry (getPD s).2 (va >>> 22) &&& 0xfffff000)
        ((va >>> 12) &&& 0x3ff) &&& 0xfffff000) ||| (va &&& 0x3ff) ≠ 0xFFFFFFFF := by
      rw [and_frameMask_or_lt]; omega
    exact ⟨⟨fun h => absurd h hne, fun h => absurd h hz⟩, fun _ => ⟨rfl, hne⟩⟩

/-- Witness of C3 on the state after `vmm_map(0, 0x5000)` from the fresh VMM:
the directory entry of slot 0 is not zero and `vmm_pa(0)` is not the sentinel. -/
theorem C3_unmapped_sentinel_witness :
    dirEntry (getPD (vmm_map 0 0x5000 (fresh (fun _ => 0)))).2 (0 >>> 22) ≠ 0 ∧
      (vmm_pa 0 (vmm_map 0 0x5000 (fresh (fun _ => 0)))).1 ≠ 0xFFFFFFFF :=
  have hne : dirEntry (getPD (vmm_map 0 0x5000 (fresh (fun _ => 0)))).2 (0 >>> 22) ≠ 0 := by
    have h := (InvG.fresh (fun _ => 0)).map_post 0 0x5000 (by decide) (by decide) (by decide)
      (Or.inr (by decide))
    rw [getPD_pos _ h.1, h.2.2.2.2.1]
    omega
  ⟨hne, ((C3_unmapped_sentinel (vmm_map 0 0x5000 (fresh (fun _ => 0))) 0).2 hne).2⟩

theorem getPD_tlb (s : VMM) : (getPD s).2.tlb = s.tlb := by
  rw [getPD_snd]; split_ifs <;> rfl

theorem leafIndex_eq_and (va : Nat) : ((va <<< 10) % W32) >>> 22 = (va >>> 12) &&& 0x3ff := by
  rw [leafIndex_eq, and_3ff, shr12]

theorem and_notPresent_mod (e : Nat) (he : e < W32) : (e &&& 0xfffffffe) % W32 = e / 2 * 2 := by
  rw [and_notPresent]; unfold W32 at *; omega

/-- Entry `i` of the table in the frame just zeroed reads as zero, whatever the
alignment of the frame. -/
theorem load32_zeroFrame_self (m : Mem) (p i : Nat) (hi : i < 1024) :
    load32 (zeroFrame m p) (entryAddr p i) = 0 := by
  unfold load32
  simp only [load8_zeroFrame]
  unfold entryAddr W32
  have c0 : ((p + 4 * i) % 4294967296 % 4294967296 + 4294967296 - p % 4294967296)
      % 4294967296 < 4096 := by omega
  have c1 : (((p + 4 * i) % 4294967296 + 1) % 4294967296 + 4294967296 - p % 4294967296)
      % 4294967296 < 4096 := by omega
  have c2 : (((p + 4 * i) % 4294967296 + 2) % 4294967296 + 4294967296 - p % 4294967296)
      % 4294967296 < 4096 := by omega
  have c3 : (((p + 4 * i) % 4294967296 + 3) % 4294967296 + 4294967296 - p % 4294967296)
      % 4294967296 < 4096 := by omega
  simp only [c0, c1, c2, c3, if_true]

/-- A directory that `getPD` has just created has only zero entries. -/
theorem dirEntry_getPD_of_pd_zero (s : VMM) (hp : s.pd = 0) (i : Nat) (hi : i < 1024) :
    dirEntry (getPD s).2 i = 0 := by
  rw [getPD_zero s hp]
  exact load32_zeroFrame_self _ _ _ hi

/-- The effect of `vmm_unmap` when the directory entry of `va` is present. -/
theorem vmm_unmap_present (va : Nat) (s : VMM)
    (hpres : dirEntry (getPD s).2 (va >>> 22) &&& 1 = 1) :
    vmm_unmap va s =
      { (getPD s).2 with
        mem := store32 (getPD s).2.mem
          (entryAddr (dirEntry (getPD s).2 (va >>> 22) &&& 0xfffff000) ((va >>> 12) &&& 0x3ff))
          (leafEntry (getPD s).2 (dirEntry (getPD s).2 (va >>> 22) &&& 0xfffff000)
            ((va >>> 12) &&& 0x3ff) &&& 0xfffffffe),
        tlb := s.tlb ++ [va] } := by
  rw [vmm_unmap_eq, if_pos hpres, leafIndex_eq_and, getPD_tlb]

/-- The effect of `vmm_unmap` when the directory entry of `va` is not present. -/
theorem vmm_unmap_absent (va : Nat) (s : VMM)
    (hpres : ¬ dirEntry (getPD s).2 (va >>> 22) &&& 1 = 1) :
    vmm_unmap va s = (getPD s).2 := by
  rw [vmm_unmap_eq, if_neg hpres]

/-- State after `vmm_map(va, pa); vmm_unmap(va)` from a state with a
well-formed directory. -/
theorem InvG.unmap_after_map {A : Nat} {s : VMM} (h : InvG A s) (va pa : Nat) (hva : va < W32)
    (hpa : pa < W32) (hA : A + 8192 ≤ W32 + 0x100000) (hpd : s.pd ≠ 0 ∨ A < W32) :
    vmm_unmap va (vmm_map va pa s) =
      { vmm_map va pa s with
        mem := store32 (vmm_map va pa s).mem
          (entryAddr (getPT va s).1 (va / 4096 % 1024)) (pa / 4096 * 4096 + 1 &&& 0xfffffffe),
        tlb := (vmm_map va pa s).tlb ++ [va] } := by
  obtain ⟨hp, a, b, _, d, e⟩ := h.map_post va pa hva hpa hA hpd
  have hpres : dirEntry (getPD (vmm_map va pa s)).2 (va >>> 22) &&& 1 = 1 := by
    rw [getPD_pos _ hp, d, and_one]; omega
  rw [vmm_unmap_present _ _ hpres, getPD_pos _ hp, d, frameMask_succ _ a b, and_3ff, shr12, e]

theorem InvG.unmap_after_map_post {A : Nat} {s : VMM} (h : InvG A s) (va pa : Nat)
    (hva : va < W32) (hpa : pa < W32) (hA : A + 8192 ≤ W32 + 0x100000)
    (hpd : s.pd ≠ 0 ∨ A < W32) :
    (vmm_unmap va (vmm_map va pa s)).pd ≠ 0 ∧
    dirEntry (vmm_unmap va (vmm_map va pa s)) (va >>> 22) = (getPT va s).1 + 1 ∧
    leafEntry (vmm_unmap va (vmm_map va pa s)) (getPT va s).1 (va / 4096 % 1024)
      = pa / 4096 * 4096 := by
  obtain ⟨hp, a, b, c, d, _⟩ := h.map_post va pa hva hpa hA hpd
  obtain ⟨B, _, _, h1⟩ := h.after_map va pa hva hA
  rw [h.unmap_after_map va pa hva hpa hA hpd]
  refine ⟨hp, ?_, ?_⟩
  · show load32 (store32 _ _ _) (entryAddr (vmm_map va pa s).pd (va >>> 22)) = _
    rw [load32_store32_table_ne _ _ _ _ _ _ a b h1.pd_al h1.pd_lt (shr22_lt va hva)
      (by omega) c]
    exact d
  · show load32 (store32 _ _ _) _ = _
    rw [load32_store32_same, and_notPresent_mod _ (by unfold W32 at *; omega)]
    omega

/-- What `vmm_pa` returns after `vmm_map(va, pa); vmm_unmap(va)`. -/
theorem InvG.resolve_after_unmap {A : Nat} {s : VMM} (h : InvG A s) (va pa : Nat)
    (hva : va < W32) (hpa : pa < W32) (hA : A + 8192 ≤ W32 + 0x100000)
    (hpd : s.pd ≠ 0 ∨ A < W32) :
    (vmm_pa va (vmm_unmap va (vmm_map va pa s))).1 = pa / 4096 * 4096 + va % 1024 := by
  obtain ⟨hp, d, e⟩ := h.unmap_after_map_post va pa hva hpa hA hpd
  obtain ⟨_, a, b, _, _, _⟩ := h.map_post va pa hva hpa hA hpd
  rw [vmm_pa_fst, getPD_pos _ hp, d, if_neg (by omega), frameMask_succ _ a b, and_3ff, shr12, e,
    and_frameMask_or_lt]
  unfold W32 at *; omega

/-! ## Repeated allocation -/

theorem allocMany_zero (s : VMM) : allocMany 0 s = s := by
  rw [allocMany]

theorem allocMany_succ (n : Nat) (s : VMM) :
    allocMany (n + 1) s = allocMany n (vmm_frame s).2 := by
  rw [allocMany]

theorem allocMany_pd (n : Nat) (s : VMM) : (allocMany n s).pd = s.pd := by
  induction n generalizing s with
  | zero => rw [allocMany_zero]
  | succ k ih => rw [allocMany_succ, ih, vmm_frame_eq]

theorem allocMany_avail (n : Nat) (s : VMM) :
    (allocMany (n + 1) s).avail = (s.avail + 4096 * (n + 1)) % W32 := by
  induction n generalizing s with
  | zero => rw [allocMany_succ, allocMany_zero, vmm_frame_eq]
  | succ k ih =>
    rw [allocMany_succ, ih, vmm_frame_eq]
    show ((s.avail + 4096) % W32 + 4096 * (k + 1)) % W32 = _
    unfold W32; omega

theorem allocMany_reachable (n : Nat) (s : VMM) (h : Reachable s) :
    Reachable (allocMany n s) := by
  induction n generalizing s with
  | zero => rw [allocMany_zero]; exact h
  | succ k ih =>
    rw [allocMany_succ]
    exact ih _ (Reachable.call Op.frame s h trivial)

/-- Memory that none of the `n` zeroed frames covers is not changed. -/
theorem allocMany_mem (n : Nat) (s : VMM) (x : Nat)
    (hx : ∀ k, k < n → ¬ (x < W32 ∧ (x + W32 - (s.avail + 4096 * k) % W32) % W32 < 4096)) :
    (allocMany n s).mem x = s.mem x := by
  induction n generalizing s with
  | zero => rw [allocMany_zero]
  | succ k ih =>
    rw [allocMany_succ, ih, vmm_frame_eq]
    · show zeroFrame s.mem s.avail x = s.mem x
      rw [zeroFrame_apply, if_neg]
      have := hx 0 (by omega)
      simpa using this
    · intro j hj
      have := hx (j + 1) (by omega)
      rw [vmm_frame_eq]
      show ¬ (x < W32 ∧ (x + W32 - ((s.avail + 4096) % W32 + 4096 * j) % W32) % W32 < 4096)
      have e : ((s.avail + 4096) % W32 + 4096 * j) % W32 = (s.avail + 4096 * (j + 1)) % W32 := by
        unfold W32; omega
      rw [e]; exact this

theorem wrapState_def : wrapState = allocMany 1048320 (fresh (fun _ => 0)) := by
  unfold wrapState; rfl

theorem wrapState_reachable : Reachable wrapState := by
  rw [wrapState_def]
  exact allocMany_reachable _ _ (Reachable.init _)

theorem wrapState_avail : wrapState.avail = 0 := by
  rw [wrapState_def, allocMany_avail 1048319]
  decide

theorem wrapState_pd : wrapState.pd = 0 := by
  rw [wrapState_def, allocMany_pd]; rfl

/-! ## Behaviour once the cursor has wrapped to `0` while no directory exists -/

theorem vmm_unmap_of_pd_zero (va : Nat) (s : VMM) (hp : s.pd = 0) (hva : va < W32) :
    vmm_unmap va s = (getPD s).2 := by
  apply vmm_unmap_absent
  rw [dirEntry_getPD_of_pd_zero s hp _ (shr22_lt va hva)]
  decide

theorem vmm_map_pd (va pa : Nat) (s : VMM) : (vmm_map va pa s).pd = (getPD s).2.pd := by
  rw [vmm_map_eq]; exact getPT_pd va s

theorem vmm_map_avail (va pa : Nat) (s : VMM) : (vmm_map va pa s).avail = (getPT va s).2.avail := by
  rw [vmm_map_eq]

theorem vmm_map_tlb (va pa : Nat) (s : VMM) : (vmm_map va pa s).tlb = s.tlb := by
  rw [vmm_map_eq]; exact getPT_tlb va s

/-- From a state with `avail = 0` and `pd = 0`, `vmm_map` leaves `pd = 0`, the
cursor at `8192`, and the table it used in the frame at `4096`. -/
theorem wrapped_map (s : VMM) (h0 : s.avail = 0) (hp : s.pd = 0) (va pa : Nat)
    (hva : va < W32) :
    (vmm_map va pa s).pd = 0 ∧ (vmm_map va pa s).avail = 8192 ∧ (getPT va s).1 = 4096 := by
  have hz := dirEntry_getPD_of_pd_zero s hp _ (shr22_lt va hva)
  have e1 : (getPD s).2.avail = 4096 := by rw [getPD_zero s hp, h0]; rfl
  have e2 : (getPD s).2.pd = 0 := by rw [getPD_zero s hp, h0]
  refine ⟨?_, ?_, ?_⟩
  · rw [vmm_map_pd, e2]
  · rw [vmm_map_avail, getPT_zero va s hz]
    show ((getPD s).2.avail + 4096) % W32 = 8192
    rw [e1]; rfl
  · rw [getPT_zero va s hz]
    show ((getPD s).2.avail ||| 1) % W32 &&& 0xfffff000 = 4096
    rw [e1]; rfl

/-- From a state with `avail = 0` and `pd = 0`, the sequence `vmm_map(va, pa);
vmm_unmap(va); vmm_pa(va)` ends with the unmapped sentinel. -/
theorem wrapped_resolve (s : VMM) (h0 : s.avail = 0) (hp : s.pd = 0) (va pa : Nat)
    (hva : va < W32) :
    (vmm_pa va (vmm_unmap va (vmm_map va pa s))).1 = 0xFFFFFFFF := by
  obtain ⟨e1, e2, _⟩ := wrapped_map s h0 hp va pa hva
  rw [vmm_unmap_of_pd_zero va _ e1 hva, vmm_pa_fst]
  have hz := dirEntry_getPD_of_pd_zero _ e1 _ (shr22_lt va hva)
  have hne : (getPD (vmm_map va pa s)).2.pd ≠ 0 := by
    rw [getPD_zero _ e1, e2]
    show (8192 : Nat) ≠ 0
    decide
  rw [getPD_pos _ hne, hz, if_pos rfl]

/-- From a state with `avail = 0` and `pd = 0`, after `vmm_map(va, pa);
vmm_unmap(va)` the entry that `vmm_map` wrote still has its present bit, and the
table that the directory now gives for `va` is the frame at `0`, whose entry is
zero. -/
theorem wrapped_leaf (s : VMM) (h0 : s.avail = 0) (hp : s.pd = 0) (va pa : Nat)
    (hva : va < W32) (hpa : pa < W32) :
    leafEntry (vmm_unmap va (vmm_map va pa s)) (getPT va s).1 (va / 4096 % 1024)
      = pa / 4096 * 4096 + 1 ∧
    dirEntry (vmm_unmap va (vmm_map va pa s)) (va >>> 22) = 0 := by
  obtain ⟨e1, e2, e3⟩ := wrapped_map s h0 hp va pa hva
  rw [vmm_unmap_of_pd_zero va _ e1 hva]
  refine ⟨?_, dirEntry_getPD_of_pd_zero _ e1 _ (shr22_lt va hva)⟩
  rw [getPD_zero _ e1, e2, e3]
  show load32 (zeroFrame (vmm_map va pa s).mem 8192) (entryAddr 4096 (va / 4096 % 1024)) = _
  rw [load32_zeroFrame_entry_ne _ _ _ _ (by decide) (by decide) (by decide) (by omega)
    (by decide), vmm_map_eq, e3]
  show load32 (store32 (store32 _ _ _) _ _) _ = _
  rw [leafIndex_eq, load32_store32_same, mapValue_eq pa hpa]

theorem and_notPresent_of_lt (e : Nat) (he : e < W32) : e &&& 0xfffffffe = e / 2 * 2 := by
  rw [and_notPresent]; unfold W32 at *; omega

theorem leafEntry_lt (s : VMM) (pt j : Nat) : leafEntry s pt j < W32 := load32_lt _ _

/-- The directory entry of `va` is present after `vmm_map(va, pa)` on the fresh VMM. -/
theorem fresh_map_present (m : Mem) (va pa : Nat) (hva : va < W32) (hpa : pa < W32) :
    dirEntry (getPD (vmm_map va pa (fresh m))).2 (va >>> 22) &&& 1 = 1 := by
  have h := (InvG.fresh m).map_post va pa hva hpa (by decide) (Or.inr (by decide))
  rw [getPD_pos _ h.1, h.2.2.2.2.1, and_one]
  have := h.2.1
  omega

/-- C4 (amended). Unmap clears only the present bit.  In every state, for
every `va` whose directory entry is present, `vmm_unmap(va)` stores
`e & 0xFFFFFFFE` in the leaf entry at index `(va >> 12) & 0x3FF` of the table of
`va`, where `e` is the value the entry had, and writes nothing else to memory.
From every state reached without the cursor wrapping, for 4 KiB-aligned `va`
and `pa`, after `vmm_map(va, pa); vmm_unmap(va)` the directory still points to
the table `vmm_map` used, and the leaf entry there has present `0` and frame
base `pa`. -/
theorem C4_unmap_clears_present_bit :
    (∀ (s : VMM) (va : Nat), dirEntry (getPD s).2 (va >>> 22) &&& 1 = 1 →
      (vmm_unmap va s).mem =
        store32 (getPD s).2.mem
          (entryAddr (dirEntry (getPD s).2 (va >>> 22) &&& 0xFFFFF000) ((va >>> 12) &&& 0x3FF))
          (leafEntry (getPD s).2 (dirEntry (getPD s).2 (va >>> 22) &&& 0xFFFFF000)
            ((va >>> 12) &&& 0x3FF) &&& 0xFFFFFFFE) ∧
      leafEntry (vmm_unmap va s) (dirEntry (getPD s).2 (va >>> 22) &&& 0xFFFFF000)
          ((va >>> 12) &&& 0x3FF) =
        leafEntry (getPD s).2 (dirEntry (getPD s).2 (va >>> 22) &&& 0xFFFFF000)
          ((va >>> 12) &&& 0x3FF) &&& 0xFFFFFFFE) ∧
    (∀ (s : VMM), ReachableNW s → ∀ (va pa : Nat), va < W32 → pa < W32 →
      va % 4096 = 0 → pa % 4096 = 0 →
      dirEntry (vmm_unmap va (vmm_map va pa s)) (va >>> 22) &&& 0xFFFFF000 = (getPT va s).1 ∧
      leafEntry (vmm_unmap va (vmm_map va pa s)) (getPT va s).1 ((va >>> 12) &&& 0x3FF) &&& 1
        = 0 ∧
      leafEntry (vmm_unmap va (vmm_map va pa s)) (getPT va s).1 ((va >>> 12) &&& 0x3FF)
        &&& 0xFFFFF000 = pa) := by
  constructor
  · intro s va hpres
    rw [vmm_unmap_present va s hpres]
    refine ⟨rfl, ?_⟩
    show load32 (store32 _ _ _) _ = _
    rw [load32_store32_same, and_notPresent_mod _ (leafEntry_lt _ _ _),
      and_notPresent_of_lt _ (leafEntry_lt _ _ _)]
  · intro s hs va pa hva hpa _ hpa_al
    have h := hs.inv
    have hlt := h.avail_lt
    have hA : s.avail + 8192 ≤ W32 + 0x100000 := by unfold W32 at *; omega
    obtain ⟨_, d, e⟩ := h.unmap_after_map_post va pa hva hpa hA (Or.inr hlt)
    obtain ⟨_, a, b, _, _, _⟩ := h.map_post va pa hva hpa hA (Or.inr hlt)
    rw [d, frameMask_succ _ a b, and_3ff, shr12, e, and_one, and_frameMask]
    refine ⟨rfl, ?_, ?_⟩ <;> (unfold W32 at *; omega)

/-- Witness of C4: the first part on the state after `vmm_map(0, 0x5000)`, the
second on the fresh VMM with `va = pa = 0x00200000`. -/
theorem C4_unmap_clears_present_bit_witness :
    leafEntry (vmm_unmap 0 (vmm_map 0 0x5000 (fresh (fun _ => 0))))
        (dirEntry (getPD (vmm_map 0 0x5000 (fresh (fun _ => 0)))).2 (0 >>> 22) &&& 0xFFFFF000)
        ((0 >>> 12) &&& 0x3FF) =
      leafEntry (getPD (vmm_map 0 0x5000 (fresh (fun _ => 0)))).2
        (dirEntry (getPD (vmm_map 0 0x5000 (fresh (fun _ => 0)))).2 (0 >>> 22) &&& 0xFFFFF000)
        ((0 >>> 12) &&& 0x3FF) &&& 0xFFFFFFFE ∧
    leafEntry (vmm_unmap 0x00200000 (vmm_map 0x00200000 0x00200000 (fresh (fun _ => 0))))
        (getPT 0x00200000 (fresh (fun _ => 0))).1 ((0x00200000 >>> 12) &&& 0x3FF)
      &&& 0xFFFFF000 = 0x00200000 :=
  ⟨(C4_unmap_clears_present_bit.1 (vmm_map 0 0x5000 (fresh (fun _ => 0))) 0
      (fresh_map_present _ 0 0x5000 (by decide) (by decide))).2,
   (C4_unmap_clears_present_bit.2 (fresh (fun _ => 0)) (ReachableNW.init _) 0x00200000
      0x00200000 (by decide) (by decide) (by decide) (by decide)).2.2⟩

/-- Counterexample to C4 as stated for every reachable state: in the state
reached by `2 ^ 20 - 256` calls of `vmm_frame` (cursor wrapped to `0`, no
directory), after `vmm_map(0x00200000, 0x00200000); vmm_unmap(0x00200000)` the
leaf entry that `vmm_map` wrote still has its present bit, and the directory
`vmm_unmap` created has no entry for the address. -/
theorem C4_counterexample :
    Reachable wrapState ∧
    leafEntry (vmm_unmap 0x00200000 (vmm_map 0x00200000 0x00200000 wrapState))
      (getPT 0x00200000 wrapState).1 ((0x00200000 >>> 12) &&& 0x3FF) = 0x00200001 ∧
    dirEntry (vmm_unmap 0x00200000 (vmm_map 0x00200000 0x00200000 wrapState))
      (0x00200000 >>> 22) = 0 := by
  obtain ⟨h1, h2⟩ := wrapped_leaf wrapState wrapState_avail wrapState_pd 0x00200000 0x00200000
    (by decide) (by decide)
  exact ⟨wrapState_reachable, h1, h2⟩

theorem vmm_unmap_tlb (va : Nat) (s : VMM) :
    (vmm_unmap va s).tlb =
      if dirEntry (getPD s).2 (va >>> 22) &&& 1 = 1 then s.tlb ++ [va] else s.tlb := by
  rw [vmm_unmap_eq]
  split_ifs
  · show (getPD s).2.tlb ++ [va] = _
    rw [getPD_tlb]
  · exact getPD_tlb s

/-- C5 (amended). TLB invalidation trace, with `invlpg` modelled as a log of calls.
In every state `vmm_unmap(va)` appends exactly the call `invlpg(va)` when the
directory entry of `va` is present and appends nothing otherwise, and `vmm_map`
appends nothing.  So, from every state reached without the cursor wrapping,
`vmm_map(va, pa); vmm_unmap(va)` appends exactly one call, `invlpg(va)`; and
`vmm_unmap(0xdead0000)` with a zero directory entry at index `0x37a` appends
none. -/
theorem C5_tlb_invalidation_trace :
    (∀ (s : VMM) (va : Nat),
      (vmm_unmap va s).tlb =
        if dirEntry (getPD s).2 (va >>> 22) &&& 1 = 1 then s.tlb ++ [va] else s.tlb) ∧
    (∀ (s : VMM) (va pa : Nat), (vmm_map va pa s).tlb = s.tlb) ∧
    (∀ (s : VMM), ReachableNW s → ∀ (va pa : Nat), va < W32 → pa < W32 →
      (vmm_unmap va (vmm_map va pa s)).tlb = s.tlb ++ [va]) ∧
    (∀ (s : VMM), dirEntry (getPD s).2 0x37a = 0 → (vmm_unmap 0xdead0000 s).tlb = s.tlb) := by
  refine ⟨fun s va => vmm_unmap_tlb va s, fun s va pa => vmm_map_tlb va pa s, ?_, ?_⟩
  · intro s hs va pa hva hpa
    have h := hs.inv
    have hlt := h.avail_lt
    rw [h.unmap_after_map va pa hva hpa (by unfold W32 at *; omega) (Or.inr hlt)]
    show (vmm_map va pa s).tlb ++ [va] = _
    rw [vmm_map_tlb]
  · intro s hz
    have e : (0xdead0000 : Nat) >>> 22 = 0x37a := by decide
    rw [vmm_unmap_tlb, e, hz]
    rfl

/-- Witness of C5: on the fresh VMM, `vmm_map; vmm_unmap` of `0x00200000` logs
one `invlpg(0x00200000)`, and `vmm_unmap(0xdead0000)` logs nothing. -/
theorem C5_tlb_invalidation_trace_witness :
    (vmm_unmap 0x00200000 (vmm_map 0x00200000 0x00200000 (fresh (fun _ => 0)))).tlb
      = [] ++ [0x00200000] ∧
    (vmm_unmap 0xdead0000 (fresh (fun _ => 0))).tlb = [] :=
  ⟨C5_tlb_invalidation_trace.2.2.1 (fresh (fun _ => 0)) (ReachableNW.init _) 0x00200000
      0x00200000 (by decide) (by decide),
   C5_tlb_invalidation_trace.2.2.2 (fresh (fun _ => 0))
      (dirEntry_getPD_of_pd_zero _ rfl _ (by decide))⟩

/-- C6 (amended). Resolve ignores the leaf present bit: from every state
reached without the cursor wrapping, for 4 KiB-aligned `va` and `pa`, after
`vmm_map(va, pa); vmm_unmap(va)` the call `vmm_pa(va)` still returns `pa`. -/
theorem C6_resolve_ignores_present (s : VMM) (hs : ReachableNW s) (va pa : Nat)
    (hva : va < W32) (hpa : pa < W32) (hva_al : va % 4096 = 0) (hpa_al : pa % 4096 = 0) :
    (vmm_pa va (vmm_unmap va (vmm_map va pa s))).1 = pa := by
  have h := hs.inv
  have hlt := h.avail_lt
  rw [h.resolve_after_unmap va pa hva hpa (by unfold W32 at *; omega) (Or.inr hlt)]
  omega

/-- Witness of C6: the scenario on the fresh VMM with `va = pa = 0x00200000`. -/
theorem C6_resolve_ignores_present_witness :
    (vmm_pa 0x00200000
      (vmm_unmap 0x00200000 (vmm_map 0x00200000 0x00200000 (fresh (fun _ => 0))))).1
      = 0x00200000 :=
  C6_resolve_ignores_present (fresh (fun _ => 0)) (ReachableNW.init _) 0x00200000 0x00200000
    (by decide) (by decide) (by decide) (by decide)

/-- Counterexample to C6 as stated for every reachable state: in the state
reached by `2 ^ 20 - 256` calls of `vmm_frame` (cursor wrapped to `0`, no
directory), `vmm_map(0x00200000, 0x00200000); vmm_unmap(0x00200000)` is followed
by `vmm_pa(0x00200000) = 0xFFFFFFFF`. -/
theorem C6_counterexample :
    Reachable wrapState ∧
    (vmm_pa 0x00200000
      (vmm_unmap 0x00200000 (vmm_map 0x00200000 0x00200000 wrapState))).1 = 0xFFFFFFFF :=
  ⟨wrapState_reachable,
    wrapped_resolve wrapState wrapState_avail wrapState_pd 0x00200000 0x00200000 (by decide)⟩

/-- C7 (amended). Unmap of a never-mapped address.  In every state where the
directory exists (`pd ≠ 0`), for every `va` whose directory entry is not
present, `vmm_unmap(va)` leaves the whole state unchanged.  In a state without
directory (`pd = 0`, as the fresh VMM) `vmm_unmap(va)` creates the directory:
the result is the state after `vmm_frame` with `pd` set to the old cursor; the
log of `invlpg` is unchanged. -/
theorem C7_unmap_never_mapped :
    (∀ (s : VMM) (va : Nat), s.pd ≠ 0 → ¬ (dirEntry s (va >>> 22) &&& 1 = 1) →
      vmm_unmap va s = s) ∧
    (∀ (s : VMM) (va : Nat), s.pd = 0 → va < W32 →
      vmm_unmap va s =
        { s with avail := (s.avail + 4096) % W32, pd := s.avail,
                 mem := zeroFrame s.mem s.avail }) := by
  constructor
  · intro s va hp habs
    rw [vmm_unmap_absent va s (by rw [getPD_pos s hp]; exact habs), getPD_pos s hp]
  · intro s va hp hva
    rw [vmm_unmap_of_pd_zero va s hp hva, getPD_zero s hp]

/-- Witness of C7: `vmm_unmap(0xdead0000)` after `vmm_pa(0)` has created an
empty directory leaves the state as it is; on the fresh VMM it creates the
directory. -/
theorem C7_unmap_never_mapped_witness :
    vmm_unmap 0xdead0000 (vmm_pa 0 (fresh (fun _ => 0))).2 = (vmm_pa 0 (fresh (fun _ => 0))).2 ∧
    vmm_unmap 0xdead0000 (fresh (fun _ => 0)) =
      { fresh (fun _ => 0) with
        avail := ((fresh (fun _ => 0)).avail + 4096) % W32, pd := (fresh (fun _ => 0)).avail,
        mem := zeroFrame (fresh (fun _ => 0)).mem (fresh (fun _ => 0)).avail } :=
  ⟨C7_unmap_never_mapped.1 (vmm_pa 0 (fresh (fun _ => 0))).2 0xdead0000
      (by rw [vmm_pa_snd, getPD_zero _ rfl]; decide)
      (by
        rw [vmm_pa_snd, dirEntry_getPD_of_pd_zero _ rfl _ (by decide)]
        decide),
   C7_unmap_never_mapped.2 (fresh (fun _ => 0)) 0xdead0000 rfl (by decide)⟩

/-- Counterexample to C7 as stated: on the fresh VMM, where no directory entry
exists for index `0x37a`, `vmm_unmap(0xdead0000)` moves the cursor to
`0x101000` and sets `pd` to `0x100000`. -/
theorem C7_counterexample :
    Reachable (fresh (fun _ => 0)) ∧
    dirEntry (getPD (fresh (fun _ => 0))).2 (0xdead0000 >>> 22) = 0 ∧
    (vmm_unmap 0xdead0000 (fresh (fun _ => 0))).avail = 0x101000 ∧
    (vmm_unmap 0xdead0000 (fresh (fun _ => 0))).pd = 0x100000 ∧
    (fresh (fun _ => 0)).avail = 0x100000 ∧ (fresh (fun _ => 0)).pd = 0 := by
  refine ⟨Reachable.init _, dirEntry_getPD_of_pd_zero _ rfl _ (by decide), ?_, ?_, rfl, rfl⟩
  · rw [vmm_unmap_of_pd_zero _ _ rfl (by decide), getPD_zero _ rfl]
    rfl
  · rw [vmm_unmap_of_pd_zero _ _ rfl (by decide), getPD_zero _ rfl]
    rfl

/-- C8. Frame allocator postcondition: in every state with cursor `c`,
`vmm_frame()` returns `c`, sets `avail` to `c + 4096` modulo `2 ^ 32`, makes the
4096 bytes at `c .. c + 4095` read as zero, changes no other byte of memory, and
changes neither `pd` nor the logs.  On the fresh VMM the first call returns
`0x00100000` and the second `0x00101000`. -/
theorem C8_frame_allocator (s : VMM) :
    (vmm_frame s).1 = s.avail ∧
    (vmm_frame s).2.avail = (s.avail + 4096) % W32 ∧
    (∀ i, i < 4096 → load8 (vmm_frame s).2.mem (s.avail + i) = 0) ∧
    (∀ x, (∀ i, i < 4096 → x ≠ (s.avail + i) % W32) → (vmm_frame s).2.mem x = s.mem x) ∧
    (vmm_frame s).2.pd = s.pd ∧ (vmm_frame s).2.tlb = s.tlb ∧
    (vmm_frame s).2.console = s.console ∧
    (∀ m : Mem, (vmm_frame (fresh m)).1 = 0x00100000 ∧
      (vmm_frame (vmm_frame (fresh m)).2).1 = 0x00101000 ∧
      (vmm_frame (vmm_frame (fresh m)).2).1 - (vmm_frame (fresh m)).1 = 4096) := by
  rw [vmm_frame_eq]
  refine ⟨rfl, rfl, ?_, ?_, rfl, rfl, rfl, ?_⟩
  · intro i hi
    show load8 (zeroFrame s.mem s.avail) (s.avail + i) = 0
    rw [load8_zeroFrame, if_pos]
    unfold W32; omega
  · intro x hx
    show zeroFrame s.mem s.avail x = s.mem x
    rw [zeroFrame_apply, if_neg]
    rintro ⟨h1, h2⟩
    apply hx _ h2
    unfold W32 at *; omega
  · intro m
    have e1 : (vmm_frame (fresh m)).1 = 0x00100000 := by rw [vmm_frame_eq]; rfl
    have e2 : (vmm_frame (vmm_frame (fresh m)).2).1 = 0x00101000 := by
      rw [vmm_frame_eq, vmm_frame_eq]
      show (0x00100000 + 4096) % W32 = 0x00101000
      decide
    rw [e1, e2]
    exact ⟨rfl, rfl, by decide⟩

/-- Witness of C8: the byte at `0x00100000` reads as zero after the first
allocation on a fresh VMM whose memory was all ones. -/
theorem C8_frame_allocator_witness :
    load8 (vmm_frame (fresh (fun _ => 255))).2.mem ((fresh (fun _ => 255)).avail + 0) = 0 :=
  (C8_frame_allocator (fresh (fun _ => 255))).2.2.1 0 (by decide)

theorem frameMask_or_one (pa : Nat) (hpa : pa < W32) :
    (pa &&& 0xFFFFF000) ||| 1 = pa / 4096 * 4096 + 1 := by
  rw [and_frameMask, or_one]; unfold W32 at *; omega

/-- C10. Map stores exactly frame base plus present: in every state, for every
`va` and every 32-bit `pa`, aligned or not, after `vmm_map(va, pa)` the leaf
entry at index `(va >> 12) & 0x3FF` of the table the walker returned for `va`
is `(pa & 0xFFFFF000) | 1`; its low twelve bits are `1` (bits 11..1 are `0`,
bit 0 is `1`).  From every state reached without the cursor wrapping, the
directory entry of `va` points to that table afterwards. -/
theorem C10_map_stores_base_and_present :
    (∀ (s : VMM) (va pa : Nat), pa < W32 →
      leafEntry (vmm_map va pa s) (getPT va s).1 ((va >>> 12) &&& 0x3FF)
        = (pa &&& 0xFFFFF000) ||| 1 ∧
      leafEntry (vmm_map va pa s) (getPT va s).1 ((va >>> 12) &&& 0x3FF) &&& 0xFFF = 1) ∧
    (∀ (s : VMM), ReachableNW s → ∀ (va pa : Nat), va < W32 → pa < W32 →
      dirEntry (vmm_map va pa s) (va >>> 22) &&& 0xFFFFF000 = (getPT va s).1) := by
  constructor
  · intro s va pa hpa
    have e : leafEntry (vmm_map va pa s) (getPT va s).1 ((va >>> 12) &&& 0x3FF)
        = pa / 4096 * 4096 + 1 := by
      rw [vmm_map_eq, ← leafIndex_eq_and]
      show load32 (store32 (store32 _ _ _) _ _) _ = _
      rw [load32_store32_same, mapValue_eq pa hpa]
    rw [e, frameMask_or_one pa hpa, and_fff]
    exact ⟨rfl, by omega⟩
  · intro s hs va pa hva hpa
    have h := hs.inv
    have hlt := h.avail_lt
    obtain ⟨_, a, b, _, d, _⟩ := h.map_post va pa hva hpa (by unfold W32 at *; omega)
      (Or.inr hlt)
    rw [d, frameMask_succ _ a b]

/-- Witness of C10: on the fresh VMM, `vmm_map(0x00200000, 0x00200fff)` leaves
`0x00200001` in the leaf entry, and the directory points to the table. -/
theorem C10_map_stores_base_and_present_witness :
    leafEntry (vmm_map 0x00200000 0x00200fff (fresh (fun _ => 0)))
        (getPT 0x00200000 (fresh (fun _ => 0))).1 ((0x00200000 >>> 12) &&& 0x3FF)
      = (0x00200fff &&& 0xFFFFF000) ||| 1 ∧
    dirEntry (vmm_map 0x00200000 0x00200fff (fresh (fun _ => 0))) (0x00200000 >>> 22)
      &&& 0xFFFFF000 = (getPT 0x00200000 (fresh (fun _ => 0))).1 :=
  ⟨(C10_map_stores_base_and_present.1 (fresh (fun _ => 0)) 0x00200000 0x00200fff
      (by decide)).1,
   C10_map_stores_base_and_present.2 (fresh (fun _ => 0)) (ReachableNW.init _) 0x00200000
      0x00200fff (by decide) (by decide)⟩

/-- The directory `getPD` works on, in a state reached without wrapping. -/
theorem ReachableNW.inv_getPD {s : VMM} (hs : ReachableNW s) :
    ∃ B, B + 4096 ≤ W32 + 0x100000 ∧ InvG B (getPD s).2 ∧ (getPD s).2.pd ≠ 0 := by
  have h := hs.inv
  have hlt := h.avail_lt
  refine ⟨_, ?_, h.after_getPD (fun _ => by unfold W32 at *; omega),
    getPD_pd_ne h (Or.inr hlt)⟩
  split_ifs <;> (unfold W32 at *; omega)

/-- C9 (amended). Page-table walker, from every state reached without the
cursor wrapping and for every 32-bit `va`, with `d = va >> 22`.  Part (i): if
the directory entry at `d` (after `getPD` has created the directory when it did
not exist) is zero, `getPT(va)` returns the cursor `f`, advances the cursor by
one frame, writes `f | 1` into directory entry `d`, leaves `pd` and every other
directory entry unchanged, `f` is neither the directory nor the table of
another non-zero directory entry, and all 1024 entries of the table at `f` are
zero.
Part (ii): if the entry `e` is not zero, `getPT(va)` returns `e & 0xFFFFF000`
and leaves the state unchanged.  Scenario: on the fresh VMM,
`vmm_map(0x40000000, 0x00400000)` leaves directory entry `0x100` present and the
leaf entry at index `0` of its table equal to `0x00400000 | 1`.  The last two
parts say what `getPD` does first: nothing when the directory exists, one
allocation, which becomes the directory, when it does not. -/
theorem C9_page_table_walker (s : VMM) (hs : ReachableNW s) (va : Nat) (hva : va < W32) :
    (dirEntry (getPD s).2 (va >>> 22) = 0 →
      (getPT va s).1 = (getPD s).2.avail ∧
      (getPT va s).2.avail = ((getPD s).2.avail + 4096) % W32 ∧
      (getPT va s).2.pd = (getPD s).2.pd ∧
      (getPT va s).1 ≠ (getPD s).2.pd ∧
      dirEntry (getPT va s).2 (va >>> 22) = (getPT va s).1 ||| 1 ∧
      (∀ i, i < 1024 → i ≠ va >>> 22 →
        dirEntry (getPT va s).2 i = dirEntry (getPD s).2 i ∧
        (dirEntry (getPD s).2 i = 0 ∨
          dirEntry (getPD s).2 i &&& 0xFFFFF000 ≠ (getPT va s).1)) ∧
      (∀ j, j < 1024 → leafEntry (getPT va s).2 (getPT va s).1 j = 0)) ∧
    (dirEntry (getPD s).2 (va >>> 22) ≠ 0 →
      getPT va s = (dirEntry (getPD s).2 (va >>> 22) &&& 0xFFFFF000, s)) ∧
    (∀ m : Mem,
      dirEntry (vmm_map 0x40000000 0x00400000 (fresh m)) 0x100 &&& 1 = 1 ∧
      leafEntry (vmm_map 0x40000000 0x00400000 (fresh m))
        (dirEntry (vmm_map 0x40000000 0x00400000 (fresh m)) 0x100 &&& 0xFFFFF000) 0
        = 0x00400000 ||| 1) ∧
    (s.pd ≠ 0 → (getPD s).2 = s) ∧
    (s.pd = 0 → (getPD s).2 =
      { s with avail := (s.avail + 4096) % W32, mem := zeroFrame s.mem s.avail,
               pd := s.avail }) := by
  obtain ⟨B, hB, h1, hp⟩ := hs.inv_getPD
  have hd := shr22_lt va hva
  have hav := h1.avail_al
  have hlt := h1.avail_lt
  have hpal := h1.pd_al
  have hplt := h1.pd_lt
  have hne := allocd_fresh_ne (h1.pd_ok.resolve_left hp) h1.A_lo hB
  rw [← h1.avail_eq] at hne
  refine ⟨?_, ?_, ?_, fun h => by rw [getPD_pos s h], fun h => by rw [getPD_zero s h]⟩
  · intro hz
    have e1 : ((getPD s).2.avail ||| 1) % W32 &&& 0xfffff000 = (getPD s).2.avail := by
      rw [or_one_of_aligned _ hav, and_frameMask]
      unfold W32 at *; omega
    rw [getPT_zero va s hz]
    refine ⟨e1, rfl, rfl, ?_, ?_, ?_, ?_⟩
    · show ((getPD s).2.avail ||| 1) % W32 &&& 0xfffff000 ≠ _
      rw [e1]; exact hne
    · show dirEntry _ _ = (((getPD s).2.avail ||| 1) % W32 &&& 0xfffff000) ||| 1
      rw [e1, h1.dirEntry_install hp hB _ _ hd hd, if_pos rfl, or_one_of_aligned _ hav]
    · intro i hi hid
      show dirEntry _ i = _ ∧ (_ ∨ _ ≠ ((getPD s).2.avail ||| 1) % W32 &&& 0xfffff000)
      rw [e1, h1.dirEntry_install hp hB _ _ hd hi, if_neg hid]
      refine ⟨rfl, ?_⟩
      rcases h1.dir_ok hp i hi with h0 | ⟨b, hb, hal, _⟩
      · exact Or.inl h0
      · right
        rw [hb, frameMask_succ b hal.1 hal.2.1]
        have := allocd_fresh_ne hal h1.A_lo hB
        rw [← h1.avail_eq] at this
        exact fun e => this e.symm
    · intro j hj
      show load32 (store32 (zeroFrame _ _) _ _)
        (entryAddr (((getPD s).2.avail ||| 1) % W32 &&& 0xfffff000) j) = 0
      rw [e1, load32_store32_table_ne _ _ _ _ _ _ hpal hplt hav hlt hj hd
        (fun e => hne e.symm)]
      exact load32_zeroFrame_self _ _ _ hj
  · intro hnz
    have hsp : s.pd ≠ 0 := by
      intro h0
      exact hnz (dirEntry_getPD_of_pd_zero s h0 _ hd)
    rw [getPT_nonzero va s hnz, getPD_pos s hsp]
  · intro m
    have h := (InvG.fresh m).map_post 0x40000000 0x00400000 (by decide) (by decide) (by decide)
      (Or.inr (by decide))
    obtain ⟨_, a, b, _, d, e⟩ := h
    have e22 : (0x40000000 : Nat) >>> 22 = 0x100 := by decide
    rw [e22] at d
    rw [d, frameMask_succ _ a b, and_one]
    exact ⟨by omega, e⟩

/-- Witness of C9 on the fresh VMM with `va = 0x40000000`: the walker creates
the directory at `0x100000` and returns the cursor after it. -/
theorem C9_page_table_walker_witness :
    dirEntry (getPD (fresh (fun _ => 0))).2 (0x40000000 >>> 22) = 0 ∧
    (getPT 0x40000000 (fresh (fun _ => 0))).1 = (getPD (fresh (fun _ => 0))).2.avail :=
  have hz : dirEntry (getPD (fresh (fun _ => 0))).2 (0x40000000 >>> 22) = 0 :=
    dirEntry_getPD_of_pd_zero _ rfl _ (by decide)
  ⟨hz, ((C9_page_table_walker (fresh (fun _ => 0)) (ReachableNW.init _) 0x40000000
    (by decide)).1 hz).1⟩

/-! ## Behaviour once the cursor has wrapped to the directory -/

theorem step_pa (va : Nat) (s : VMM) : step (Op.pa va) s = (getPD s).2 := by
  rw [step, vmm_pa_snd]

theorem aliasBase_avail (m : Mem) : (step (Op.pa 0) (fresh m)).avail = 0x101000 := by
  rw [step_pa, getPD_zero _ rfl]
  show (0x100000 + 4096) % W32 = 0x101000
  decide

theorem aliasBase_pd (m : Mem) : (step (Op.pa 0) (fresh m)).pd = 0x100000 := by
  rw [step_pa, getPD_zero _ rfl]
  rfl

theorem aliasBase_mem (m : Mem) : (step (Op.pa 0) (fresh m)).mem = zeroFrame m 0x100000 := by
  rw [step_pa, getPD_zero _ rfl]
  rfl

theorem aliasState_def :
    aliasState = allocMany 1048575 (step (Op.pa 0) (fresh (fun _ => 0))) := by
  unfold aliasState; rfl

theorem aliasState_reachable : Reachable aliasState := by
  rw [aliasState_def]
  exact allocMany_reachable _ _
    (Reachable.call (Op.pa 0) _ (Reachable.init _) (show (0 : Nat) < W32 by decide))

theorem aliasState_pd : aliasState.pd = 0x100000 := by
  rw [aliasState_def, allocMany_pd, aliasBase_pd]

theorem aliasState_avail : aliasState.avail = 0x100000 := by
  rw [aliasState_def, allocMany_avail 1048574, aliasBase_avail]
  decide

/-- Up to `2 ^ 20 - 1` frames handed out from `0x101000` on do not cover the
frame at `0x100000`. -/
theorem allocMany_mem_far (n : Nat) (s : VMM) (x : Nat) (hn : n ≤ 1048575)
    (hav : s.avail = 0x101000) (h1 : 0x100000 ≤ x) (h2 : x < 0x101000) :
    (allocMany n s).mem x = s.mem x := by
  apply allocMany_mem
  intro k hk
  rw [hav]
  unfold W32; omega

/-- The frames zeroed on the way to `aliasState` do not cover the directory. -/
theorem aliasState_mem (x : Nat) (h1 : 0x100000 ≤ x) (h2 : x < 0x101000) :
    aliasState.mem x = 0 := by
  rw [aliasState_def,
    allocMany_mem_far 1048575 _ x (Nat.le_refl _) (aliasBase_avail _) h1 h2,
    aliasBase_mem, zeroFrame_apply, if_pos]
  unfold W32; omega

theorem aliasState_dirEntry (i : Nat) (hi : i < 1024) : dirEntry aliasState i = 0 := by
  have e : ∀ j, j < 4 → load8 aliasState.mem (entryAddr 0x100000 i + j) = 0 := by
    intro j hj
    unfold load8
    rw [aliasState_mem]
    · unfold entryAddr W32; omega
    · unfold entryAddr W32; omega
  unfold dirEntry load32
  rw [aliasState_pd]
  have e0 := e 0 (by omega)
  rw [Nat.add_zero] at e0
  rw [e0, e 1 (by omega), e 2 (by omega), e 3 (by omega)]

/-- When the cursor equals the base of a directory whose entries are all zero,
the walker hands out the frame of the directory as the new table, so the
returned table holds the directory entry just written. -/
theorem aliased_walk (s : VMM) (hpd : s.pd = 0x100000) (hav : s.avail = 0x100000)
    (hdir : ∀ i, i < 1024 → dirEntry s i = 0) (va : Nat) (hva : va < W32) :
    dirEntry (getPD s).2 (va >>> 22) = 0 ∧
    (getPT va s).1 = (getPD s).2.pd ∧
    leafEntry (getPT va s).2 (getPT va s).1 (va >>> 22) = 0x100001 := by
  have hp : s.pd ≠ 0 := by rw [hpd]; decide
  have hz : dirEntry (getPD s).2 (va >>> 22) = 0 := by
    rw [getPD_pos _ hp]; exact hdir _ (shr22_lt va hva)
  have e1 : (s.avail ||| 1) % W32 &&& 0xfffff000 = 0x100000 := by
    rw [hav]; decide
  refine ⟨hz, ?_, ?_⟩
  · rw [getPT_zero va _ hz, getPD_pos _ hp]
    show (s.avail ||| 1) % W32 &&& 0xfffff000 = s.pd
    rw [e1, hpd]
  · rw [getPT_zero va _ hz, getPD_pos _ hp]
    show load32 (store32 _ (entryAddr s.pd (va >>> 22)) (s.avail ||| 1))
      (entryAddr ((s.avail ||| 1) % W32 &&& 0xfffff000) (va >>> 22)) = _
    rw [e1, hpd, load32_store32_same, hav]
    decide

/-- Counterexample to C9 as stated for every reachable state: in the state
reached from the fresh VMM by `vmm_pa(0)` and then `2 ^ 20 - 1` calls of
`vmm_frame`, the cursor has come back to the directory at `0x100000`.  There the
directory entry of slot `0` is zero, yet the frame `getPT(0)` returns for the new
table is the directory itself, and entry `0` of the returned table is
`0x100001`, not zero. -/
theorem C9_counterexample :
    Reachable aliasState ∧
    dirEntry (getPD aliasState).2 (0 >>> 22) = 0 ∧
    (getPT 0 aliasState).1 = (getPD aliasState).2.pd ∧
    leafEntry (getPT 0 aliasState).2 (getPT 0 aliasState).1 (0 >>> 22) = 0x100001 :=
  ⟨aliasState_reachable,
    aliased_walk aliasState aliasState_pd aliasState_avail aliasState_dirEntry 0
      (show (0 : Nat) < W32 by decide)⟩

theorem MID_12_10 (va : Nat) : MID va 12 10 = (va >>> 12) &&& 0x3FF := by
  unfold MID LAST; rfl

/-- C18. Index extraction agrees everywhere and is in bounds: for every 32-bit
`va` the leaf index of `vmm_map` and `vmm_unmap`, `((va << 10) mod 2 ^ 32) >> 22`,
the one of `vmm_dirty` and `vmm_accessed`, `MID(va, 12, 10)`, and the one of
`vmm_pa`, `(va >> 12) & 0x3FF`, are the same number, bits 21..12 of `va`; this
leaf index and the directory index `va >> 22` are below 1024, the number of
entries of a table. -/
theorem C18_index_extraction (va : Nat) (hva : va < W32) :
    ((va <<< 10) % W32) >>> 22 = MID va 12 10 ∧
    MID va 12 10 = (va >>> 12) &&& 0x3FF ∧
    (va >>> 12) &&& 0x3FF = va / 4096 % 1024 ∧
    (va >>> 12) &&& 0x3FF < TABLE_ENTRIES ∧
    va >>> 22 < TABLE_ENTRIES ∧ va >>> 22 = va / 4194304 := by
  rw [MID_12_10, leafIndex_eq_and, and_3ff, shr12, TABLE_ENTRIES_eq]
  refine ⟨rfl, rfl, rfl, by omega, shr22_lt va hva, shr22 va⟩

/-- Witness of C18 at `va = 0xdeadbeef`: leaf index `0x2db`, directory index `0x37a`. -/
theorem C18_index_extraction_witness :
    ((0xdeadbeef <<< 10) % W32) >>> 22 = MID 0xdeadbeef 12 10 ∧
    MID 0xdeadbeef 12 10 = (0xdeadbeef >>> 12) &&& 0x3FF ∧
    (0xdeadbeef >>> 12) &&& 0x3FF = 0xdeadbeef / 4096 % 1024 ∧
    (0xdeadbeef >>> 12) &&& 0x3FF < TABLE_ENTRIES ∧
    0xdeadbeef >>> 22 < TABLE_ENTRIES ∧ 0xdeadbeef >>> 22 = 0xdeadbeef / 4194304 :=
  C18_index_extraction 0xdeadbeef (by decide)

/-! ## How the cursor and `pd` move -/

theorem Advanced.trans {k l : Nat} {s t u : VMM} (h1 : Advanced k s t) (h2 : Advanced l t u) :
    Advanced (k + l) s u := by
  unfold Advanced at *
  rcases h1 with ⟨hk, e1⟩ | ⟨hk, e1⟩ <;> rcases h2 with ⟨hl, e2⟩ | ⟨hl, e2⟩
  · left; exact ⟨by omega, by rw [e2, e1]⟩
  · right; refine ⟨by omega, ?_⟩
    rw [e2, e1, hk]; simp
  · right; refine ⟨by omega, ?_⟩
    rw [e2, e1, hl]; simp
  · right; refine ⟨by omega, ?_⟩
    rw [e2, e1]; unfold W32; omega

theorem Advanced.of_avail {k : Nat} {s s' t t' : VMM} (h : Advanced k s t)
    (hs : s'.avail = s.avail) (ht : t'.avail = t.avail) : Advanced k s' t' := by
  unfold Advanced at *; rw [hs, ht]; exact h

theorem Advanced.zero (s : VMM) : Advanced 0 s s := Or.inl ⟨rfl, rfl⟩

theorem vmm_frame_advanced (s : VMM) : Advanced 1 s (vmm_frame s).2 := by
  rw [vmm_frame_eq]; exact Or.inr ⟨by omega, rfl⟩

theorem getPD_advanced (s : VMM) : ∃ k, k ≤ 1 ∧ Advanced k s (getPD s).2 := by
  by_cases hp : s.pd = 0
  · rw [getPD_zero s hp]; exact ⟨1, by omega, Or.inr ⟨by omega, rfl⟩⟩
  · rw [getPD_pos s hp]; exact ⟨0, by omega, Advanced.zero s⟩

theorem getPT_advanced (va : Nat) (s : VMM) : ∃ k, k ≤ 2 ∧ Advanced k s (getPT va s).2 := by
  obtain ⟨k, hk, h⟩ := getPD_advanced s
  by_cases hz : dirEntry (getPD s).2 (va >>> 22) = 0
  · rw [getPT_zero va s hz]
    exact ⟨k + 1, by omega, h.trans (Or.inr ⟨by omega, rfl⟩)⟩
  · rw [getPT_nonzero va s hz]
    exact ⟨k, by omega, h⟩

theorem vmm_unmap_avail (va : Nat) (s : VMM) : (vmm_unmap va s).avail = (getPD s).2.avail := by
  rw [vmm_unmap_eq]; split_ifs <;> rfl

theorem vmm_unmap_pd (va : Nat) (s : VMM) : (vmm_unmap va s).pd = (getPD s).2.pd := by
  rw [vmm_unmap_eq]; split_ifs <;> rfl

/-- Every public call hands out at most three frames. -/
theorem step_advanced (o : Op) (s : VMM) : ∃ k, k ≤ 3 ∧ Advanced k s (step o s) := by
  cases o with
  | frame => exact ⟨1, by omega, vmm_frame_advanced s⟩
  | map va pa =>
    obtain ⟨k, hk, h⟩ := getPT_advanced va s
    exact ⟨k, by omega, h.of_avail rfl (vmm_map_avail va pa s)⟩
  | unmap va =>
    obtain ⟨k, hk, h⟩ := getPD_advanced s
    exact ⟨k, by omega, h.of_avail rfl (vmm_unmap_avail va s)⟩
  | pa va =>
    obtain ⟨k, hk, h⟩ := getPD_advanced s
    exact ⟨k, by omega, h.of_avail rfl (by rw [step, vmm_pa_snd])⟩
  | dirty va =>
    obtain ⟨k, hk, h⟩ := getPT_advanced va s
    exact ⟨k, by omega, h⟩
  | accessed va =>
    obtain ⟨k, hk, h⟩ := getPT_advanced va s
    exact ⟨k, by omega, h⟩
  | pageFault va =>
    have h1 : Advanced 1 s (vmm_frame (emit (.sayHex "page fault @ " va) s)).2 :=
      (vmm_frame_advanced _).of_avail rfl rfl
    obtain ⟨k, hk, h⟩ := getPT_advanced va (vmm_frame (emit (.sayHex "page fault @ " va) s)).2
    exact ⟨1 + k, by omega, h1.trans (h.of_avail rfl (vmm_map_avail va _ _))⟩
  | dump =>
    obtain ⟨k, hk, h⟩ := getPD_advanced s
    exact ⟨k, by omega, h.of_avail rfl (vmm_dump_frame s).1⟩

theorem getPD_pd_of_ne (s : VMM) (h : s.pd ≠ 0) : (getPD s).2.pd = s.pd := by
  rw [getPD_pos s h]

/-- No public call changes `pd` once it is not zero. -/
theorem step_pd_of_ne (o : Op) (s : VMM) (h : s.pd ≠ 0) : (step o s).pd = s.pd := by
  cases o with
  | frame => rw [step, vmm_frame_eq]
  | map va pa => rw [step, vmm_map_pd, getPD_pd_of_ne s h]
  | unmap va => rw [step, vmm_unmap_pd, getPD_pd_of_ne s h]
  | pa va => rw [step, vmm_pa_snd, getPD_pd_of_ne s h]
  | dirty va => rw [step, vmm_dirty_snd, getPT_pd, getPD_pd_of_ne s h]
  | accessed va => rw [step, vmm_accessed_snd, getPT_pd, getPD_pd_of_ne s h]
  | pageFault va =>
    rw [step, pageFault, vmm_map_pd, getPD_pd_of_ne _ (by rw [vmm_frame_eq]; exact h),
      vmm_frame_eq]
    rfl
  | dump => rw [step, (vmm_dump_frame s).2.1, getPD_pd_of_ne s h]

theorem Advanced.keeps_al {k : Nat} {s t : VMM} (h : Advanced k s t)
    (hs : s.avail % 4096 = 0) : t.avail % 4096 = 0 := by
  rcases h with ⟨_, e⟩ | ⟨_, e⟩
  · rw [e]; exact hs
  · rw [e]; unfold W32; omega

theorem Advanced.lt {k : Nat} {s t : VMM} (h : Advanced k s t)
    (hs : s.avail < W32) : t.avail < W32 := by
  rcases h with ⟨_, e⟩ | ⟨_, e⟩
  · rw [e]; exact hs
  · rw [e]; exact Nat.mod_lt _ (by decide)

theorem Advanced.eq_mod {k : Nat} {s t : VMM} (h : Advanced k s t)
    (hs : s.avail < W32) : t.avail = (s.avail + 4096 * k) % W32 := by
  rcases h with ⟨hk, e⟩ | ⟨_, e⟩
  · rw [e, hk]; unfold W32 at *; omega
  · exact e

theorem Aligned.frame_ok {s : VMM} (h : Aligned s) : Aligned (vmm_frame s).2 :=
  ⟨(vmm_frame_advanced s).keeps_al h.1, (vmm_frame_advanced s).lt h.2.1, by
    rw [vmm_frame_eq]; exact h.2.2⟩

theorem Aligned.getPD_ok {s : VMM} (h : Aligned s) : Aligned (getPD s).2 := by
  obtain ⟨k, _, hk⟩ := getPD_advanced s
  refine ⟨hk.keeps_al h.1, hk.lt h.2.1, ?_⟩
  by_cases hp : s.pd = 0
  · rw [getPD_zero s hp]; exact h.1
  · rw [getPD_pos s hp]; exact h.2.2

theorem Aligned.getPT_ok {s : VMM} (h : Aligned s) (va : Nat) : Aligned (getPT va s).2 := by
  obtain ⟨k, _, hk⟩ := getPT_advanced va s
  refine ⟨hk.keeps_al h.1, hk.lt h.2.1, ?_⟩
  rw [getPT_pd]; exact h.getPD_ok.2.2

theorem Aligned.of_fields {s t : VMM} (h : Aligned s) (hav : t.avail = s.avail)
    (hpd : t.pd = s.pd) : Aligned t := by
  unfold Aligned at *; rw [hav, hpd]; exact h

theorem Aligned.step_ok {s : VMM} (h : Aligned s) (o : Op) : Aligned (step o s) := by
  cases o with
  | frame => exact h.frame_ok
  | map va pa => exact (h.getPT_ok va).of_fields (vmm_map_avail va pa s) (by
      rw [step, vmm_map_pd, getPT_pd])
  | unmap va => exact h.getPD_ok.of_fields (vmm_unmap_avail va s) (vmm_unmap_pd va s)
  | pa va => exact h.getPD_ok.of_fields (by rw [step, vmm_pa_snd]) (by rw [step, vmm_pa_snd])
  | dirty va => exact h.getPT_ok va
  | accessed va => exact h.getPT_ok va
  | pageFault va =>
    have h0 : Aligned (emit (.sayHex "page fault @ " va) s) := h.of_fields rfl rfl
    exact (h0.frame_ok.getPT_ok va).of_fields (vmm_map_avail va _ _) (by
      rw [step, pageFault, vmm_map_pd, getPT_pd])
  | dump => exact h.getPD_ok.of_fields (vmm_dump_frame s).1 (vmm_dump_frame s).2.1

theorem Reachable.aligned {s : VMM} (h : Reachable s) : Aligned s := by
  induction h with
  | init m =>
    exact ⟨show (0x100000 : Nat) % 4096 = 0 by decide, show (0x100000 : Nat) < W32 by decide,
      show (0 : Nat) % 4096 = 0 by decide⟩
  | call o s _ _ ih => exact ih.step_ok o

theorem getPT_fst_aligned (va : Nat) (s : VMM) : (getPT va s).1 % 4096 = 0 := by
  rw [getPT_eq]
  split_ifs
  · show (_ &&& 0xfffff000) % 4096 = 0
    rw [and_frameMask]; omega
  · show (_ &&& 0xfffff000) % 4096 = 0
    rw [and_frameMask]; omega

/-- C14. Cursor alignment invariant: `avail` is 4 KiB-aligned on the fresh VMM,
and a public call from any state with an aligned cursor leaves an aligned
cursor.  So, in every reachable state, `avail` is aligned, and with it the
address `vmm_frame()` returns, the page-directory base (`pd` and what `getPD`
returns) and the page-table base `getPT` returns for any `va`. -/
theorem C14_cursor_alignment :
    (∀ m : Mem, (fresh m).avail % 4096 = 0) ∧
    (∀ (o : Op) (s : VMM), s.avail % 4096 = 0 → (step o s).avail % 4096 = 0) ∧
    (∀ s : VMM, Reachable s →
      s.avail % 4096 = 0 ∧ (vmm_frame s).1 % 4096 = 0 ∧ s.pd % 4096 = 0 ∧
      (getPD s).1 % 4096 = 0 ∧ ∀ va : Nat, (getPT va s).1 % 4096 = 0) := by
  refine ⟨fun _ => show (0x100000 : Nat) % 4096 = 0 by decide, ?_, ?_⟩
  · intro o s hs
    obtain ⟨k, _, hk⟩ := step_advanced o s
    exact hk.keeps_al hs
  · intro s hs
    have h := hs.aligned
    refine ⟨h.1, ?_, h.2.2, ?_, fun va => getPT_fst_aligned va s⟩
    · rw [vmm_frame_eq]; exact h.1
    · rw [getPD_fst]; exact h.getPD_ok.2.2

/-- Witness of C14: the cursor after `vmm_map(0, 0)` on the fresh VMM is aligned. -/
theorem C14_cursor_alignment_witness :
    (step (Op.map 0 0) (fresh (fun _ => 0))).avail % 4096 = 0 :=
  C14_cursor_alignment.2.1 (Op.map 0 0) (fresh (fun _ => 0))
    (show (0x100000 : Nat) % 4096 = 0 by decide)

/-- Repeated allocation that stays below `2 ^ 32` does not wrap the cursor. -/
theorem allocMany_reachableNW (n : Nat) (s : VMM) (h : ReachableNW s)
    (hn : s.avail + 4096 * n < W32) : ReachableNW (allocMany n s) := by
  induction n generalizing s with
  | zero => rw [allocMany_zero]; exact h
  | succ k ih =>
    rw [allocMany_succ]
    have hav : (vmm_frame s).2.avail = s.avail + 4096 := by
      rw [vmm_frame_eq]
      show (s.avail + 4096) % W32 = s.avail + 4096
      unfold W32 at *; omega
    refine ih _ (ReachableNW.call Op.frame s h trivial ?_) ?_
    · show s.avail ≤ (vmm_frame s).2.avail
      omega
    · rw [hav]; omega

theorem topState_def : topState = allocMany 1048319 (fresh (fun _ => 0)) := by
  unfold topState; rfl

theorem topState_reachableNW : ReachableNW topState := by
  rw [topState_def]
  exact allocMany_reachableNW _ _ (ReachableNW.init _) (by decide)

theorem ReachableNW.reachable {s : VMM} (h : ReachableNW s) : Reachable s := by
  induction h with
  | init m => exact Reachable.init m
  | call o s _ ho _ ih => exact Reachable.call o s ih ho

theorem topState_avail : topState.avail = 0xFFFFF000 := by
  rw [topState_def, allocMany_avail 1048318]
  decide

/-- The cursor after `vmm_frame` from a state whose cursor is `0xFFFFF000`. -/
theorem frame_wraps (s : VMM) (h : s.avail = 0xFFFFF000) : (step Op.frame s).avail = 0 := by
  rw [step, vmm_frame_eq]
  show (s.avail + 4096) % W32 = 0
  rw [h]; decide

/-- C15 (amended). Movement of the cursor: in every reachable state a public
call hands out `k ≤ 3` frames and leaves `avail = (avail + 4096 * k) mod 2 ^ 32`.
So the cursor after the call is at least the cursor before it whenever
`avail + 4096 * k < 2 ^ 32`, and it is lower when the sum reaches `2 ^ 32` with
`k > 0`. -/
theorem C15_cursor_movement (s : VMM) (hs : Reachable s) (o : Op) :
    ∃ k, k ≤ 3 ∧ (step o s).avail = (s.avail + 4096 * k) % W32 ∧
      (s.avail + 4096 * k < W32 → s.avail ≤ (step o s).avail) ∧
      (W32 ≤ s.avail + 4096 * k → (step o s).avail < s.avail) := by
  obtain ⟨k, hk, h⟩ := step_advanced o s
  have hlt := hs.aligned.2.1
  have e := h.eq_mod hlt
  refine ⟨k, hk, e, ?_, ?_⟩
  · intro hsum; rw [e]; unfold W32 at *; omega
  · intro hsum; rw [e]; unfold W32 at *; omega

/-- Witness of C15: the first `vmm_frame` on the fresh VMM. -/
theorem C15_cursor_movement_witness :
    ∃ k, k ≤ 3 ∧
      (step Op.frame (fresh (fun _ => 0))).avail = ((fresh (fun _ => 0)).avail + 4096 * k) % W32 ∧
      ((fresh (fun _ => 0)).avail + 4096 * k < W32 →
        (fresh (fun _ => 0)).avail ≤ (step Op.frame (fresh (fun _ => 0))).avail) ∧
      (W32 ≤ (fresh (fun _ => 0)).avail + 4096 * k →
        (step Op.frame (fresh (fun _ => 0))).avail < (fresh (fun _ => 0)).avail) :=
  C15_cursor_movement (fresh (fun _ => 0)) (Reachable.init _) Op.frame

/-- Counterexample to C15 as stated: the state after `2 ^ 20 - 257` calls of
`vmm_frame` on the fresh VMM is reached without any wrap and has
`avail = 0xFFFFF000`; one more `vmm_frame()` leaves `avail = 0`. -/
theorem C15_counterexample :
    Reachable topState ∧ topState.avail = 0xFFFFF000 ∧ (step Op.frame topState).avail = 0 :=
  ⟨topState_reachableNW.reachable, topState_avail, frame_wraps topState topState_avail⟩

theorem Steps.pd_of_ne {s t : VMM} (h : Steps s t) (hp : s.pd ≠ 0) : t.pd = s.pd := by
  induction h with
  | refl => rfl
  | call o s t _ _ ih => rw [step_pd_of_ne o t (by rw [ih hp]; exact hp), ih hp]

/-- C12 (amended). Page-directory creation is idempotent.  On the fresh VMM the
first `getPD()` returns `0x00100000`, makes it `pd` and moves the cursor to
`0x00101000`; in every state reached without the cursor wrapping and without
directory, `getPD()` hands out one frame, the cursor, makes it `pd`, and it is
not `0`.  In every state with `pd ≠ 0`, `getPD()` returns `pd` and leaves the
state as it is; no public call changes `pd` once it is not zero, so in every
state reached afterwards `getPD()` still returns that base and changes
nothing. -/
theorem C12_directory_idempotent :
    (∀ m : Mem, (getPD (fresh m)).1 = 0x00100000 ∧ (getPD (fresh m)).2.pd = 0x00100000 ∧
      (getPD (fresh m)).2.avail = 0x00101000) ∧
    (∀ s : VMM, ReachableNW s → s.pd = 0 →
      (getPD s).1 = s.avail ∧ (getPD s).2.pd = s.avail ∧ Advanced 1 s (getPD s).2 ∧
      (getPD s).1 ≠ 0) ∧
    (∀ s : VMM, s.pd ≠ 0 → getPD s = (s.pd, s)) ∧
    (∀ (o : Op) (s : VMM), s.pd ≠ 0 → (step o s).pd = s.pd) ∧
    (∀ s t : VMM, Steps s t → s.pd ≠ 0 → t.pd = s.pd ∧ getPD t = (s.pd, t)) := by
  refine ⟨?_, ?_, getPD_pos, step_pd_of_ne, ?_⟩
  · intro m
    rw [getPD_zero _ rfl]
    refine ⟨rfl, rfl, ?_⟩
    show (0x100000 + 4096) % W32 = 0x101000
    decide
  · intro s hs hp
    have h := hs.inv
    rw [getPD_zero s hp]
    refine ⟨rfl, rfl, Or.inr ⟨by omega, rfl⟩, ?_⟩
    show s.avail ≠ 0
    have := h.A_lo
    omega
  · intro s t hst hp
    have e := hst.pd_of_ne hp
    rw [getPD_pos t (by rw [e]; exact hp), e]
    exact ⟨rfl, rfl⟩

/-- Witness of C12: after `vmm_pa(0)` has created the directory on the fresh
VMM, `getPD()` returns `pd` and changes nothing. -/
theorem C12_directory_idempotent_witness :
    getPD (getPD (fresh (fun _ => 0))).2 =
      ((getPD (fresh (fun _ => 0))).2.pd, (getPD (fresh (fun _ => 0))).2) :=
  C12_directory_idempotent.2.2.1 (getPD (fresh (fun _ => 0))).2 (by
    rw [(C12_directory_idempotent.1 (fun _ => 0)).2.1]; decide)

/-- With `avail = 0` and `pd = 0`, `getPD()` puts the directory at address `0`,
so `pd` stays `0` and the next `getPD()` hands out another frame. -/
theorem wrapped_getPD (s : VMM) (h0 : s.avail = 0) (hp : s.pd = 0) :
    (getPD s).1 = 0 ∧ (getPD s).2.pd = 0 ∧ (getPD (getPD s).2).1 = 4096 ∧
      (getPD (getPD s).2).2.avail = 8192 := by
  have e1 : (getPD s).2.pd = 0 := by rw [getPD_zero s hp, h0]
  have e2 : (getPD s).2.avail = 4096 := by rw [getPD_zero s hp, h0]; rfl
  refine ⟨by rw [getPD_fst, e1], e1, ?_, ?_⟩
  · rw [getPD_zero _ e1]; exact e2
  · rw [getPD_zero _ e1]
    show ((getPD s).2.avail + 4096) % W32 = 8192
    rw [e2]; rfl

/-- Counterexample to C12 as stated: after `2 ^ 20 - 256` calls of `vmm_frame`
on the fresh VMM (`avail = 0`, `pd = 0`) the first `getPD()` returns base `0`
and leaves `pd = 0`; the next `getPD()` returns `4096` and moves the cursor to
`8192`. -/
theorem C12_counterexample :
    Reachable wrapState ∧ wrapState.pd = 0 ∧
    (getPD wrapState).1 = 0 ∧ (getPD wrapState).2.pd = 0 ∧
    (getPD (getPD wrapState).2).1 = 4096 ∧ (getPD (getPD wrapState).2).2.avail = 8192 :=
  ⟨wrapState_reachable, wrapState_pd, wrapped_getPD wrapState wrapState_avail wrapState_pd⟩

/-- A public call from a state whose unreduced cursor is far enough below
`2 ^ 32` does not wrap the cursor. -/
theorem InvG.step_nowrap {A : Nat} {s : VMM} (h : InvG A s) (o : Op) (ho : o.args32)
    (hA : A + 12288 < W32) : s.avail ≤ (step o s).avail := by
  obtain ⟨B, h1, h2, h3⟩ := h.after_step o ho (by unfold W32 at *; omega)
  rw [h3.avail_eq, h.avail_eq]
  unfold W32 at *; omega

/-- One public call on the fresh VMM gives a state reached without wrapping. -/
theorem fresh_step_reachableNW (m : Mem) (o : Op) (ho : o.args32) :
    ReachableNW (step o (fresh m)) :=
  ReachableNW.call o _ (ReachableNW.init m) ho
    ((InvG.fresh m).step_nowrap o ho (by decide))

theorem allocd_range {A b : Nat} (h : allocd A b) (hA : A < W32) :
    b % 4096 = 0 ∧ 0x100000 ≤ b ∧ b < A := by
  unfold allocd W32 at *; omega

/-- C13. Directory well-formedness invariant: in every state reached from the
fresh VMM by public calls without the cursor wrapping, once the directory
exists (`pd ≠ 0`), the directory base is an aligned frame in `[0x100000, avail)`;
every directory entry is `0` or `base | 1` for a 4 KiB-aligned `base` with
`0x100000 ≤ base < avail`, that is, one of the frames `vmm_frame` has handed
out, other than the directory; two different indices with non-zero entries hold
different bases; and an entry is zero exactly when its present bit is clear. -/
theorem C13_directory_well_formed (s : VMM) (hs : ReachableNW s) (hp : s.pd ≠ 0) :
    (s.pd % 4096 = 0 ∧ 0x100000 ≤ s.pd ∧ s.pd < s.avail) ∧
    (∀ i, i < 1024 → dirEntry s i = 0 ∨
      ∃ base, dirEntry s i = base ||| 1 ∧ base % 4096 = 0 ∧ 0x100000 ≤ base ∧
        base < s.avail ∧ base ≠ s.pd ∧ dirEntry s i &&& 0xFFFFF000 = base) ∧
    (∀ i j, i < 1024 → j < 1024 → i ≠ j → dirEntry s i ≠ 0 → dirEntry s j ≠ 0 →
      dirEntry s i &&& 0xFFFFF000 ≠ dirEntry s j &&& 0xFFFFF000) ∧
    (∀ i, i < 1024 → (dirEntry s i = 0 ↔ dirEntry s i &&& 1 = 0)) := by
  have h := hs.inv
  have hlt := h.avail_lt
  refine ⟨allocd_range (h.pd_ok.resolve_left hp) hlt, ?_, ?_, ?_⟩
  · intro i hi
    rcases h.dir_ok hp i hi with h0 | ⟨b, hb, hal, hne⟩
    · exact Or.inl h0
    · obtain ⟨a1, a2, a3⟩ := allocd_range hal hlt
      exact Or.inr ⟨b, by rw [hb, or_one_of_aligned b a1], a1, a2, a3, hne, by
        rw [hb, frameMask_succ b hal.1 hal.2.1]⟩
  · intro i j hi hj hij hni hnj heq
    obtain ⟨ei, _, _⟩ := h.table_of_entry hp i hi hni
    obtain ⟨ej, _, _⟩ := h.table_of_entry hp j hj hnj
    exact hij (h.dir_inj hp i j hi hj hni (by rw [ei, ej, heq]))
  · intro i hi
    rw [and_one]
    rcases h.dir_ok hp i hi with h0 | ⟨b, hb, hal, _⟩
    · rw [h0]
    · rw [hb]; have := hal.1; omega

/-- Witness of C13: the state after `vmm_map(0, 0x5000)` on the fresh VMM. -/
theorem C13_directory_well_formed_witness :
    (step (Op.map 0 0x5000) (fresh (fun _ => 0))).pd ≠ 0 ∧
    ∀ i, i < 1024 → (dirEntry (step (Op.map 0 0x5000) (fresh (fun _ => 0))) i = 0 ↔
      dirEntry (step (Op.map 0 0x5000) (fresh (fun _ => 0))) i &&& 1 = 0) :=
  have hp : (step (Op.map 0 0x5000) (fresh (fun _ => 0))).pd ≠ 0 :=
    ((InvG.fresh (fun _ => 0)).map_post 0 0x5000 (by decide) (by decide) (by decide)
      (Or.inr (by decide))).1
  ⟨hp, (C13_directory_well_formed _
    (fresh_step_reachableNW _ (Op.map 0 0x5000) ⟨by decide, by decide⟩) hp).2.2.2⟩

/-! ## What the walker, `vmm_map` and `vmm_unmap` leave alone -/

/-- The frame the walker hands out for a new table, and the directory entries
it leaves alone. -/
theorem InvG.walk_dir {B : Nat} {s : VMM} (h1 : InvG B (getPD s).2) (hp : (getPD s).2.pd ≠ 0)
    (hB : B + 4096 ≤ W32 + 0x100000) (va : Nat) (hva : va < W32) (i : Nat) (hi : i < 1024)
    (hne : i ≠ va >>> 22 ∨ dirEntry (getPD s).2 (va >>> 22) ≠ 0) :
    dirEntry (getPT va s).2 i = dirEntry (getPD s).2 i := by
  by_cases hz : dirEntry (getPD s).2 (va >>> 22) = 0
  · rw [getPT_zero va s hz, h1.dirEntry_install hp hB _ _ (shr22_lt va hva) hi,
      if_neg (hne.resolve_right (fun h => h hz))]
  · rw [getPT_nonzero va s hz]

/-- The walker leaves the entries of every table alone, other than the
directory and the frame at the cursor. -/
theorem InvG.walk_leaf {B : Nat} {s : VMM} (h1 : InvG B (getPD s).2)
    (va : Nat) (hva : va < W32) (b j : Nat) (hb : b % 4096 = 0) (hblt : b < W32)
    (hbpd : b ≠ (getPD s).2.pd) (hbav : b ≠ (getPD s).2.avail) (hj : j < 1024) :
    leafEntry (getPT va s).2 b j = leafEntry (getPD s).2 b j := by
  by_cases hz : dirEntry (getPD s).2 (va >>> 22) = 0
  · rw [getPT_zero va s hz]
    show load32 (store32 (zeroFrame _ _) _ _) (entryAddr b j) = _
    rw [load32_store32_table_ne _ _ _ _ _ _ h1.pd_al h1.pd_lt hb hblt hj (shr22_lt va hva)
      (fun e => hbpd e.symm),
      load32_zeroFrame_entry_ne _ _ _ _ h1.avail_al hb hblt hj (by
        rw [Nat.mod_eq_of_lt h1.avail_lt]; exact fun e => hbav e.symm)]
    rfl
  · rw [getPT_nonzero va s hz]

/-- The table the walker returns is the cursor when the directory entry was
zero. -/
theorem InvG.walk_fst_zero {B : Nat} {s : VMM} (h1 : InvG B (getPD s).2) (va : Nat)
    (hz : dirEntry (getPD s).2 (va >>> 22) = 0) : (getPT va s).1 = (getPD s).2.avail := by
  rw [getPT_zero va s hz]
  show ((getPD s).2.avail ||| 1) % W32 &&& 0xfffff000 = _
  have := h1.avail_al; have := h1.avail_lt
  rw [or_one_of_aligned _ h1.avail_al, and_frameMask]
  unfold W32 at *; omega

/-- `vmm_map` leaves every entry alone other than the one it writes, in any
table other than the directory. -/
theorem vmm_map_leaf_other (va pa : Nat) (s : VMM) (b j : Nat)
    (hpt : (getPT va s).1 < W32) (hb : b % 4096 = 0) (hblt : b < W32) (hj : j < 1024)
    (hne : b ≠ (getPT va s).1 ∨ j ≠ va / 4096 % 1024) :
    leafEntry (vmm_map va pa s) b j = leafEntry (getPT va s).2 b j := by
  rw [vmm_map_eq, leafIndex_eq]
  show load32 (store32 (store32 _ _ _) _ _) (entryAddr b j) = _
  have hpa := getPT_fst_aligned va s
  by_cases e : b = (getPT va s).1
  · have hj2 : va / 4096 % 1024 ≠ j := fun h => (hne.resolve_left (fun h' => h' e)) h.symm
    rw [e, load32_store32_index_ne _ _ _ _ _ hpa hj (by omega) hj2,
      load32_store32_index_ne _ _ _ _ _ hpa hj (by omega) hj2]
    rfl
  · rw [load32_store32_table_ne _ _ _ _ _ _ hpa hpt hb hblt hj (by omega) (fun h => e h.symm),
      load32_store32_table_ne _ _ _ _ _ _ hpa hpt hb hblt hj (by omega) (fun h => e h.symm)]
    rfl

/-- `vmm_map` leaves the directory as the walker left it. -/
theorem InvG.map_dir {B va : Nat} {s : VMM} (h3 : InvG B (getPT va s).2)
    (hpt : (getPT va s).1 < W32) (hne : (getPT va s).1 ≠ (getPT va s).2.pd)
    (pa i : Nat) (hi : i < 1024) :
    dirEntry (vmm_map va pa s) i = dirEntry (getPT va s).2 i := by
  rw [vmm_map_eq]
  show load32 (store32 (store32 _ _ _) _ _) (entryAddr (getPT va s).2.pd i) = _
  have hpa := getPT_fst_aligned va s
  rw [load32_store32_table_ne _ _ _ _ _ _ hpa hpt h3.pd_al h3.pd_lt hi (leafIndex_lt va) hne,
    load32_store32_table_ne _ _ _ _ _ _ hpa hpt h3.pd_al h3.pd_lt hi (leafIndex_lt va) hne]
  rfl

/-- Two directory slots with non-zero entries and the same table are the same slot. -/
theorem InvG.base_inj {B : Nat} {s : VMM} (h : InvG B s) (hp : s.pd ≠ 0) (i j : Nat)
    (hi : i < 1024) (hj : j < 1024) (hni : dirEntry s i ≠ 0) (hnj : dirEntry s j ≠ 0)
    (he : dirEntry s i &&& 0xfffff000 = dirEntry s j &&& 0xfffff000) : i = j := by
  obtain ⟨ei, _, _⟩ := h.table_of_entry hp i hi hni
  obtain ⟨ej, _, _⟩ := h.table_of_entry hp j hj hnj
  exact h.dir_inj hp i j hi hj hni (by rw [ei, ej, he])

/-- The table `getPT(va)` returns is not the table of another directory slot. -/
theorem InvG.walk_fst_ne {B : Nat} {s : VMM} (h1 : InvG B (getPD s).2)
    (hp : (getPD s).2.pd ≠ 0) (hB : B + 4096 ≤ W32 + 0x100000) (va : Nat) (hva : va < W32)
    (i : Nat) (hi : i < 1024) (hid : i ≠ va >>> 22) (hni : dirEntry (getPD s).2 i ≠ 0) :
    dirEntry (getPD s).2 i &&& 0xfffff000 ≠ (getPT va s).1 := by
  obtain ⟨_, hal, _⟩ := h1.table_of_entry hp i hi hni
  by_cases hz : dirEntry (getPD s).2 (va >>> 22) = 0
  · rw [h1.walk_fst_zero va hz]
    have := allocd_fresh_ne hal h1.A_lo hB
    rw [← h1.avail_eq] at this
    exact fun e => this e.symm
  · rw [getPT_nonzero va s hz]
    exact fun e => hid (h1.base_inj hp i _ hi (shr22_lt va hva) hni hz e)

/-- Effect of `vmm_map(va, pa)` on the rest of the tables, from a state reached
without wrapping: the directory entries of the other slots, the non-zero entry
of its own slot, and every leaf entry other than the one of `va`, in every
table the directory pointed to, are as `getPD` left them. -/
theorem ReachableNW.map_frame {s : VMM} (hs : ReachableNW s) (va pa : Nat) (hva : va < W32)
    (hpa : pa < W32) (i : Nat) (hi : i < 1024) :
    ((i ≠ va >>> 22 ∨ dirEntry (getPD s).2 (va >>> 22) ≠ 0) →
      dirEntry (vmm_map va pa s) i = dirEntry (getPD s).2 i) ∧
    (dirEntry (getPD s).2 i ≠ 0 → ∀ j, j < 1024 → (i ≠ va >>> 22 ∨ j ≠ va / 4096 % 1024) →
      leafEntry (vmm_map va pa s) (dirEntry (getPD s).2 i &&& 0xfffff000) j =
        leafEntry (getPD s).2 (dirEntry (getPD s).2 i &&& 0xfffff000) j) := by
  obtain ⟨B, hB, h1, hp⟩ := hs.inv_getPD
  have h := hs.inv
  have hlt := h.avail_lt
  have hA : s.avail + 8192 ≤ W32 + 0x100000 := by unfold W32 at *; omega
  obtain ⟨_, a, b, c, _, _⟩ := h.map_post va pa hva hpa hA (Or.inr hlt)
  obtain ⟨B3, _, _, h3, _⟩ := h.after_getPT va hva hA
  have c' : (getPT va s).1 ≠ (getPT va s).2.pd := by
    rw [getPT_pd, ← vmm_map_pd va pa s]; exact c
  constructor
  · intro hne
    rw [h3.map_dir b c' pa i hi, h1.walk_dir hp hB va hva i hi hne]
  · intro hni j hj hne
    obtain ⟨_, hal, hbpd⟩ := h1.table_of_entry hp i hi hni
    have hfr := allocd_fresh_ne hal h1.A_lo hB
    rw [← h1.avail_eq] at hfr
    rw [vmm_map_leaf_other va pa s _ j b hal.1 hal.2.1 hj ?_,
      h1.walk_leaf va hva _ j hal.1 hal.2.1 hbpd (fun e => hfr e.symm) hj]
    by_cases hid : i = va >>> 22
    · exact Or.inr (hne.resolve_left (fun h' => h' hid))
    · exact Or.inl (h1.walk_fst_ne hp hB va hva i hi hid hni)

/-- Effect of `vmm_unmap(va)` on the rest of the tables, from a state reached
without wrapping: every directory entry, and every leaf entry other than the
one of `va`, in every table the directory points to, are as `getPD` left them. -/
theorem ReachableNW.unmap_frame {s : VMM} (hs : ReachableNW s) (va : Nat) (hva : va < W32)
    (i : Nat) (hi : i < 1024) :
    dirEntry (vmm_unmap va s) i = dirEntry (getPD s).2 i ∧
    (dirEntry (getPD s).2 i ≠ 0 → ∀ j, j < 1024 → (i ≠ va >>> 22 ∨ j ≠ va / 4096 % 1024) →
      leafEntry (vmm_unmap va s) (dirEntry (getPD s).2 i &&& 0xfffff000) j =
        leafEntry (getPD s).2 (dirEntry (getPD s).2 i &&& 0xfffff000) j) := by
  obtain ⟨B, hB, h1, hp⟩ := hs.inv_getPD
  have hd := shr22_lt va hva
  rw [vmm_unmap_eq]
  split_ifs with hpres
  · have hnd : dirEntry (getPD s).2 (va >>> 22) ≠ 0 := by
      intro e; rw [e] at hpres; exact absurd hpres (by decide)
    obtain ⟨_, hald, hdpd⟩ := h1.table_of_entry hp _ hd hnd
    constructor
    · show load32 (store32 _ _ _) (entryAddr (getPD s).2.pd i) = _
      rw [load32_store32_table_ne _ _ _ _ _ _ hald.1 hald.2.1 h1.pd_al h1.pd_lt hi
        (leafIndex_lt va) hdpd]
      rfl
    · intro hni j hj hne
      obtain ⟨_, hal, _⟩ := h1.table_of_entry hp i hi hni
      show load32 (store32 _ _ _) (entryAddr _ j) = _
      rw [leafIndex_eq]
      by_cases hid : i = va >>> 22
      · have hj2 : va / 4096 % 1024 ≠ j :=
          fun h => (hne.resolve_left (fun h' => h' hid)) h.symm
        rw [hid, load32_store32_index_ne _ _ _ _ _ hald.1 hj (by omega) hj2]
        rfl
      · rw [load32_store32_table_ne _ _ _ _ _ _ hald.1 hald.2.1 hal.1 hal.2.1 hj (by omega)
          (fun e => hid (h1.base_inj hp i _ hi hd hni hnd e.symm))]
        rfl
  · exact ⟨rfl, fun _ _ _ _ => rfl⟩

/-- What `vmm_pa` returns depends on the directory entry of the address and on
the leaf entry it points to only. -/
theorem vmm_pa_congr (va : Nat) (s t : VMM)
    (hd : dirEntry (getPD t).2 (va >>> 22) = dirEntry (getPD s).2 (va >>> 22))
    (hl : dirEntry (getPD s).2 (va >>> 22) ≠ 0 →
      leafEntry (getPD t).2 (dirEntry (getPD s).2 (va >>> 22) &&& 0xfffff000)
          (va / 4096 % 1024) =
        leafEntry (getPD s).2 (dirEntry (getPD s).2 (va >>> 22) &&& 0xfffff000)
          (va / 4096 % 1024)) :
    (vmm_pa va t).1 = (vmm_pa va s).1 := by
  rw [vmm_pa_fst, vmm_pa_fst, hd, and_3ff, shr12]
  split_ifs with hz
  · rfl
  · rw [hl hz]

theorem ReachableNW.map_pd_ne {s : VMM} (hs : ReachableNW s) (va pa : Nat) (hva : va < W32)
    (hpa : pa < W32) : (vmm_map va pa s).pd ≠ 0 := by
  have h := hs.inv
  have hlt := h.avail_lt
  exact (h.map_post va pa hva hpa (by unfold W32 at *; omega) (Or.inr hlt)).1

theorem ReachableNW.unmap_pd_ne {s : VMM} (hs : ReachableNW s) (va : Nat) :
    (vmm_unmap va s).pd ≠ 0 := by
  obtain ⟨_, _, _, hp⟩ := hs.inv_getPD
  rw [vmm_unmap_pd]; exact hp

theorem page_index_ne (va va2 : Nat) (h : va2 >>> 12 ≠ va >>> 12) :
    va2 >>> 22 ≠ va >>> 22 ∨ va2 / 4096 % 1024 ≠ va / 4096 % 1024 := by
  rw [shr12, shr12] at h
  rw [shr22, shr22]
  omega

/-- C20. Non-interference between pages: from every state reached without the
cursor wrapping, for all 32-bit `va`, `pa` and `va2`.  If `va2` lies in another
page than `va` and its directory entry is not zero, `vmm_pa(va2)` returns the
same value after `vmm_map(va, pa)` and after `vmm_unmap(va)` as before.  If `va2`
lies in another directory slot and its directory entry is zero, `vmm_pa(va2)` is
`0xFFFFFFFF` before and after either call.  The directory entries of the other
slots, and every leaf entry other than the one of `va` in every table the
directory pointed to, are the same after either call as before. -/
theorem C20_non_interference (s : VMM) (hs : ReachableNW s) (va pa va2 : Nat)
    (hva : va < W32) (hpa : pa < W32) (hva2 : va2 < W32) :
    (va2 >>> 12 ≠ va >>> 12 → dirEntry (getPD s).2 (va2 >>> 22) ≠ 0 →
      (vmm_pa va2 (vmm_map va pa s)).1 = (vmm_pa va2 s).1 ∧
      (vmm_pa va2 (vmm_unmap va s)).1 = (vmm_pa va2 s).1) ∧
    (va2 >>> 22 ≠ va >>> 22 → dirEntry (getPD s).2 (va2 >>> 22) = 0 →
      (vmm_pa va2 s).1 = 0xFFFFFFFF ∧
      (vmm_pa va2 (vmm_map va pa s)).1 = 0xFFFFFFFF ∧
      (vmm_pa va2 (vmm_unmap va s)).1 = 0xFFFFFFFF) ∧
    (∀ i, i < 1024 → i ≠ va >>> 22 →
      dirEntry (vmm_map va pa s) i = dirEntry (getPD s).2 i ∧
      dirEntry (vmm_unmap va s) i = dirEntry (getPD s).2 i) ∧
    (∀ i j, i < 1024 → j < 1024 → dirEntry (getPD s).2 i ≠ 0 →
      (i ≠ va >>> 22 ∨ j ≠ (va >>> 12) &&& 0x3FF) →
      leafEntry (vmm_map va pa s) (dirEntry (getPD s).2 i &&& 0xFFFFF000) j =
        leafEntry (getPD s).2 (dirEntry (getPD s).2 i &&& 0xFFFFF000) j ∧
      leafEntry (vmm_unmap va s) (dirEntry (getPD s).2 i &&& 0xFFFFF000) j =
        leafEntry (getPD s).2 (dirEntry (getPD s).2 i &&& 0xFFFFF000) j) := by
  have hd2 := shr22_lt va2 hva2
  have hmp := hs.map_pd_ne va pa hva hpa
  have hup := hs.unmap_pd_ne va
  have hm := hs.map_frame va pa hva hpa (va2 >>> 22) hd2
  have hu := hs.unmap_frame va hva (va2 >>> 22) hd2
  have hj2 : va2 / 4096 % 1024 < 1024 := by omega
  refine ⟨?_, ?_, ?_, ?_⟩
  · intro hpage hnz
    have hne : va2 >>> 22 ≠ va >>> 22 ∨ va2 / 4096 % 1024 ≠ va / 4096 % 1024 :=
      page_index_ne va va2 hpage
    have hne' : va2 >>> 22 ≠ va >>> 22 ∨ dirEntry (getPD s).2 (va >>> 22) ≠ 0 := by
      by_cases e : va2 >>> 22 = va >>> 22
      · right; rw [← e]; exact hnz
      · exact Or.inl e
    constructor
    · apply vmm_pa_congr
      · rw [getPD_pos _ hmp]; exact hm.1 hne'
      · intro _; rw [getPD_pos _ hmp]; exact hm.2 hnz _ hj2 hne
    · apply vmm_pa_congr
      · rw [getPD_pos _ hup]; exact hu.1
      · intro _; rw [getPD_pos _ hup]; exact hu.2 hnz _ hj2 hne
  · intro hslot hz
    have e0 : (vmm_pa va2 s).1 = 0xFFFFFFFF := by rw [vmm_pa_fst, if_pos hz]
    refine ⟨e0, ?_, ?_⟩
    · rw [← e0]
      apply vmm_pa_congr
      · rw [getPD_pos _ hmp]; exact hm.1 (Or.inl hslot)
      · intro h; exact absurd hz h
    · rw [← e0]
      apply vmm_pa_congr
      · rw [getPD_pos _ hup]; exact hu.1
      · intro h; exact absurd hz h
  · intro i hi hid
    exact ⟨(hs.map_frame va pa hva hpa i hi).1 (Or.inl hid), (hs.unmap_frame va hva i hi).1⟩
  · intro i j hi hj hni hne
    rw [and_3ff, shr12] at hne
    exact ⟨(hs.map_frame va pa hva hpa i hi).2 hni j hj hne,
      (hs.unmap_frame va hva i hi).2 hni j hj hne⟩

theorem fresh_map_entry_ne (m : Mem) (va pa : Nat) (hva : va < W32) (hpa : pa < W32) :
    dirEntry (getPD (step (Op.map va pa) (fresh m))).2 (va >>> 22) ≠ 0 := by
  intro hz
  have e := fresh_map_present m va pa hva hpa
  rw [show vmm_map va pa (fresh m) = step (Op.map va pa) (fresh m) from rfl, hz] at e
  exact absurd e (by decide)

/-- Witness of C20.  After `vmm_map(0x00400000, 0x7000)` on the fresh VMM, the
address `0x00400000`, in a present slot, resolves to the same value before and
after `vmm_map(0x00200000, 0x00200000)`.  On the fresh VMM the address
`0x00400000`, in a slot with no table, resolves to `0xFFFFFFFF` before and after
`vmm_map(0x00200000, 0x00200000)` and `vmm_unmap(0x00200000)`. -/
theorem C20_non_interference_witness :
    (vmm_pa 0x00400000
        (vmm_map 0x00200000 0x00200000 (step (Op.map 0x00400000 0x7000) (fresh (fun _ => 0))))).1
      = (vmm_pa 0x00400000 (step (Op.map 0x00400000 0x7000) (fresh (fun _ => 0)))).1 ∧
    (vmm_pa 0x00400000 (fresh (fun _ => 0))).1 = 0xFFFFFFFF ∧
    (vmm_pa 0x00400000 (vmm_map 0x00200000 0x00200000 (fresh (fun _ => 0)))).1 = 0xFFFFFFFF ∧
    (vmm_pa 0x00400000 (vmm_unmap 0x00200000 (fresh (fun _ => 0)))).1 = 0xFFFFFFFF :=
  ⟨((C20_non_interference (step (Op.map 0x00400000 0x7000) (fresh (fun _ => 0)))
      (fresh_step_reachableNW _ (Op.map 0x00400000 0x7000) ⟨by decide, by decide⟩)
      0x00200000 0x00200000 0x00400000 (by decide) (by decide) (by decide)).1 (by decide)
      (fresh_map_entry_ne _ 0x00400000 0x7000 (by decide) (by decide))).1,
   (C20_non_interference (fresh (fun _ => 0)) (ReachableNW.init _) 0x00200000 0x00200000
    0x00400000 (by decide) (by decide) (by decide)).2.1 (by decide)
    (dirEntry_getPD_of_pd_zero _ rfl _ (by decide))⟩

/-! ## Bytes that the walker and `vmm_map` leave alone -/

theorem vmm_dirty_fst (va : Nat) (s : VMM) :
    (vmm_dirty va s).1 = MID (leafEntry (getPT va s).2 (getPT va s).1 ((va >>> 12) &&& 0x3FF)) 6 1 := by
  rw [← MID_12_10]; rfl

theorem vmm_accessed_fst (va : Nat) (s : VMM) :
    (vmm_accessed va s).1 =
      MID (leafEntry (getPT va s).2 (getPT va s).1 ((va >>> 12) &&& 0x3FF)) 5 1 := by
  rw [← MID_12_10]; rfl

/-- The table the walker installs for a slot whose directory entry is zero,
from a state reached without wrapping. -/
theorem ReachableNW.walk_install {s : VMM} (hs : ReachableNW s) (va : Nat) (hva : va < W32)
    (hz : dirEntry (getPD s).2 (va >>> 22) = 0) :
    (getPT va s).1 = (getPD s).2.avail ∧
    (getPD s).2.avail % 4096 = 0 ∧
    (getPT va s).2.avail = ((getPD s).2.avail + 4096) % W32 ∧
    (getPT va s).2.pd ≠ 0 ∧
    (getPD s).2.avail ≠ (getPT va s).2.pd ∧
    dirEntry (getPT va s).2 (va >>> 22) = (getPD s).2.avail + 1 ∧
    (∀ i, i < 1024 → dirEntry (getPD s).2 i = 0 ∨
      dirEntry (getPD s).2 i &&& 0xfffff000 ≠ (getPD s).2.avail) ∧
    (∀ j, j < 1024 → leafEntry (getPT va s).2 (getPD s).2.avail j = 0) := by
  obtain ⟨B, hB, h1, hp⟩ := hs.inv_getPD
  have hd := shr22_lt va hva
  have hne := allocd_fresh_ne (h1.pd_ok.resolve_left hp) h1.A_lo hB
  rw [← h1.avail_eq] at hne
  refine ⟨h1.walk_fst_zero va hz, h1.avail_al, ?_, ?_, ?_, ?_, ?_, ?_⟩
  · rw [getPT_zero va s hz]
  · rw [getPT_pd]; exact hp
  · rw [getPT_pd]; exact hne
  · rw [getPT_zero va s hz, h1.dirEntry_install hp hB _ _ hd hd, if_pos rfl]
  · intro i hi
    rcases h1.dir_ok hp i hi with h0 | ⟨b, hb, hal, _⟩
    · exact Or.inl h0
    · right
      rw [hb, frameMask_succ b hal.1 hal.2.1]
      have := allocd_fresh_ne hal h1.A_lo hB
      rw [← h1.avail_eq] at this
      exact fun e => this e.symm
  · intro j hj
    rw [getPT_zero va s hz]
    show load32 (store32 (zeroFrame _ _) _ _) (entryAddr (getPD s).2.avail j) = 0
    rw [load32_store32_table_ne _ _ _ _ _ _ h1.pd_al h1.pd_lt h1.avail_al h1.avail_lt hj hd
      (fun e => hne e.symm)]
    exact load32_zeroFrame_self _ _ _ hj

theorem getPD_avail (s : VMM) :
    (getPD s).2.avail = if s.pd = 0 then (s.avail + 4096) % W32 else s.avail := by
  rw [getPD_snd]; split_ifs <;> rfl

/-- `vmm_pa` does not return the sentinel when the directory entry is not zero. -/
theorem vmm_pa_ne_sentinel (va : Nat) (s : VMM) (h : dirEntry (getPD s).2 (va >>> 22) ≠ 0) :
    (vmm_pa va s).1 ≠ 0xFFFFFFFF := by
  rw [vmm_pa_fst, if_neg h, and_frameMask_or_lt]
  omega

/-- C16 (amended). Flag queries allocate: from every state reached without the
cursor wrapping, for every `va` whose directory entry (after `getPD` has created
the directory when it did not exist) is zero, `vmm_dirty(va)` and
`vmm_accessed(va)` return `0` and leave the state the walker leaves: the
directory entry of `va` is `f | 1` for the frame `f` at the cursor, which is
aligned, is neither the directory nor the table of another slot, and holds 1024
zero entries; the cursor has advanced by 4096 for the table, after 4096 more
when the directory did not exist; and `vmm_pa(va)` afterwards does not return
`0xFFFFFFFF`. -/
theorem C16_flag_queries_allocate (s : VMM) (hs : ReachableNW s) (va : Nat) (hva : va < W32)
    (hz : dirEntry (getPD s).2 (va >>> 22) = 0) :
    (vmm_dirty va s).1 = 0 ∧ (vmm_accessed va s).1 = 0 ∧
    (vmm_accessed va s).2 = (vmm_dirty va s).2 ∧
    dirEntry (vmm_dirty va s).2 (va >>> 22) = (getPD s).2.avail ||| 1 ∧
    (getPD s).2.avail % 4096 = 0 ∧
    (getPD s).2.avail ≠ (vmm_dirty va s).2.pd ∧
    (∀ i, i < 1024 → dirEntry (getPD s).2 i = 0 ∨
      dirEntry (getPD s).2 i &&& 0xFFFFF000 ≠ (getPD s).2.avail) ∧
    (∀ j, j < 1024 → leafEntry (vmm_dirty va s).2 (getPD s).2.avail j = 0) ∧
    (vmm_dirty va s).2.avail = ((getPD s).2.avail + 4096) % W32 ∧
    (getPD s).2.avail = (if s.pd = 0 then (s.avail + 4096) % W32 else s.avail) ∧
    (vmm_pa va (vmm_dirty va s).2).1 ≠ 0xFFFFFFFF := by
  obtain ⟨e1, hal, e3, hp, hne, ed, hfr, hzero⟩ := hs.walk_install va hva hz
  have hj : (va >>> 12) &&& 0x3FF < 1024 := by rw [and_3ff]; omega
  rw [vmm_dirty_fst, vmm_accessed_fst, vmm_dirty_snd, vmm_accessed_snd, e1, hzero _ hj, ed,
    or_one_of_aligned _ hal]
  refine ⟨rfl, rfl, rfl, rfl, hal, hne, hfr, hzero, e3, getPD_avail s, ?_⟩
  apply vmm_pa_ne_sentinel
  rw [getPD_pos _ hp, ed]
  omega

/-- Witness of C16: `vmm_dirty(0x00200000)` on the fresh VMM. -/
theorem C16_flag_queries_allocate_witness :
    (vmm_dirty 0x00200000 (fresh (fun _ => 0))).1 = 0 ∧
    (vmm_pa 0x00200000 (vmm_dirty 0x00200000 (fresh (fun _ => 0))).2).1 ≠ 0xFFFFFFFF :=
  have h := C16_flag_queries_allocate (fresh (fun _ => 0)) (ReachableNW.init _) 0x00200000
    (by decide) (dirEntry_getPD_of_pd_zero _ rfl _ (by decide))
  ⟨h.1, h.2.2.2.2.2.2.2.2.2.2⟩

/-- With `avail = 0` and `pd = 0`, the walker leaves `pd = 0`, so a later
`vmm_pa` creates another directory and returns the sentinel. -/
theorem wrapped_dirty (s : VMM) (h0 : s.avail = 0) (hp : s.pd = 0) (va : Nat)
    (hva : va < W32) :
    dirEntry (getPD s).2 (va >>> 22) = 0 ∧
    (vmm_pa va (vmm_dirty va s).2).1 = 0xFFFFFFFF := by
  have hz := dirEntry_getPD_of_pd_zero s hp _ (shr22_lt va hva)
  have e : (vmm_dirty va s).2.pd = 0 := by
    rw [vmm_dirty_snd, getPT_pd, getPD_zero s hp, h0]
  refine ⟨hz, ?_⟩
  rw [vmm_pa_fst, dirEntry_getPD_of_pd_zero _ e _ (shr22_lt va hva), if_pos rfl]

/-- Counterexample to C16 as stated for every reachable state: after
`2 ^ 20 - 256` calls of `vmm_frame` on the fresh VMM (`avail = 0`, `pd = 0`) the
directory entry of address `0` is zero, and after `vmm_dirty(0)` the call
`vmm_pa(0)` still returns `0xFFFFFFFF`. -/
theorem C16_counterexample :
    Reachable wrapState ∧
    dirEntry (getPD wrapState).2 (0 >>> 22) = 0 ∧
    (vmm_pa 0 (vmm_dirty 0 wrapState).2).1 = 0xFFFFFFFF :=
  ⟨wrapState_reachable,
    wrapped_dirty wrapState wrapState_avail wrapState_pd 0 (show (0 : Nat) < W32 by decide)⟩

theorem MID_bit (x n : Nat) : MID x n 1 = if x.testBit n then 1 else 0 := by
  unfold MID LAST
  rw [show (1 <<< 1 - 1 : Nat) = 1 from rfl, and_one, Nat.shiftRight_eq_div_pow,
    Nat.testBit_to_div_mod]
  by_cases h : x / 2 ^ n % 2 = 1
  · simp [h]
  · have : x / 2 ^ n % 2 = 0 := by omega
    simp [this]

/-- C17 (amended). Flag queries read the right bit.  In every state and for
every `va`, `vmm_dirty(va)` returns `1` if bit 6 of the leaf entry at index
`(va >> 12) & 0x3FF` of the table the walker gives for `va` is set and `0`
otherwise, and `vmm_accessed(va)` does the same with bit 5.  From every state
reached without the cursor wrapping, neither call changes a directory entry of
another slot, nor any entry of any table the directory pointed to. -/
theorem C17_flag_queries_read_bit :
    (∀ (s : VMM) (va : Nat),
      (vmm_dirty va s).1 =
        (if (leafEntry (getPT va s).2 (getPT va s).1 ((va >>> 12) &&& 0x3FF)).testBit 6
          then 1 else 0) ∧
      (vmm_accessed va s).1 =
        (if (leafEntry (getPT va s).2 (getPT va s).1 ((va >>> 12) &&& 0x3FF)).testBit 5
          then 1 else 0) ∧
      (vmm_dirty va s).2 = (getPT va s).2 ∧ (vmm_accessed va s).2 = (getPT va s).2) ∧
    (∀ (s : VMM), ReachableNW s → ∀ (va : Nat), va < W32 → ∀ i, i < 1024 →
      ((i ≠ va >>> 22 ∨ dirEntry (getPD s).2 (va >>> 22) ≠ 0) →
        dirEntry (vmm_dirty va s).2 i = dirEntry (getPD s).2 i ∧
        dirEntry (vmm_accessed va s).2 i = dirEntry (getPD s).2 i) ∧
      (dirEntry (getPD s).2 i ≠ 0 → ∀ j, j < 1024 →
        leafEntry (vmm_dirty va s).2 (dirEntry (getPD s).2 i &&& 0xFFFFF000) j =
          leafEntry (getPD s).2 (dirEntry (getPD s).2 i &&& 0xFFFFF000) j ∧
        leafEntry (vmm_accessed va s).2 (dirEntry (getPD s).2 i &&& 0xFFFFF000) j =
          leafEntry (getPD s).2 (dirEntry (getPD s).2 i &&& 0xFFFFF000) j)) := by
  constructor
  · intro s va
    rw [vmm_dirty_fst, vmm_accessed_fst, MID_bit, MID_bit]
    exact ⟨rfl, rfl, rfl, rfl⟩
  · intro s hs va hva i hi
    obtain ⟨B, hB, h1, hp⟩ := hs.inv_getPD
    rw [vmm_dirty_snd, vmm_accessed_snd]
    constructor
    · intro hne
      exact ⟨h1.walk_dir hp hB va hva i hi hne, h1.walk_dir hp hB va hva i hi hne⟩
    · intro hni j hj
      obtain ⟨_, hal, hbpd⟩ := h1.table_of_entry hp i hi hni
      have hfr := allocd_fresh_ne hal h1.A_lo hB
      rw [← h1.avail_eq] at hfr
      have e := h1.walk_leaf va hva _ j hal.1 hal.2.1 hbpd (fun e => hfr e.symm) hj
      exact ⟨e, e⟩

/-- Witness of C17: after `vmm_map(0, 0x5000)` on the fresh VMM, the entries of
the table of slot `0` are the same after `vmm_dirty(0x00400000)`, which
installs a table for slot `1`. -/
theorem C17_flag_queries_read_bit_witness :
    ∀ j, j < 1024 →
      leafEntry (vmm_dirty 0x00400000 (step (Op.map 0 0x5000) (fresh (fun _ => 0)))).2
        (dirEntry (getPD (step (Op.map 0 0x5000) (fresh (fun _ => 0)))).2 (0 >>> 22)
          &&& 0xFFFFF000) j =
      leafEntry (getPD (step (Op.map 0 0x5000) (fresh (fun _ => 0)))).2
        (dirEntry (getPD (step (Op.map 0 0x5000) (fresh (fun _ => 0)))).2 (0 >>> 22)
          &&& 0xFFFFF000) j :=
  fun j hj =>
    (((C17_flag_queries_read_bit.2 (step (Op.map 0 0x5000) (fresh (fun _ => 0)))
      (fresh_step_reachableNW _ (Op.map 0 0x5000) ⟨by decide, by decide⟩) 0x00400000
      (by decide) (0 >>> 22) (by decide)).2
      (fresh_map_entry_ne _ 0 0x5000 (by decide) (by decide))) j hj).1

/-! ## Behaviour once the directory is its own page table -/

theorem step_dirty (va : Nat) (s : VMM) : step (Op.dirty va) s = (getPT va s).2 := rfl

/-- The walker run for address `0` when the cursor equals the base `0x100000`
of an empty directory: slot `0` then points to the directory itself. -/
theorem aliased_dirty (s : VMM) (hpd : s.pd = 0x100000) (hav : s.avail = 0x100000)
    (hdir : ∀ i, i < 1024 → dirEntry s i = 0) :
    (step (Op.dirty 0) s).pd = 0x100000 ∧ (step (Op.dirty 0) s).avail = 0x101000 ∧
    dirEntry (step (Op.dirty 0) s) 0 = 0x100001 ∧ dirEntry (step (Op.dirty 0) s) 1 = 0 := by
  have hp : s.pd ≠ 0 := by rw [hpd]; decide
  have hz : dirEntry (getPD s).2 (0 >>> 22) = 0 := by
    rw [getPD_pos _ hp]; exact hdir _ (by decide)
  rw [step_dirty, getPT_zero 0 s hz, getPD_pos _ hp]
  refine ⟨hpd, ?_, ?_, ?_⟩
  · show (s.avail + 4096) % W32 = 0x101000
    rw [hav]; decide
  · show load32 (store32 _ (entryAddr s.pd (0 >>> 22)) (s.avail ||| 1)) (entryAddr s.pd 0) = _
    rw [show (0 >>> 22 : Nat) = 0 from rfl, load32_store32_same, hav]
    decide
  · show load32 (store32 (zeroFrame s.mem s.avail) (entryAddr s.pd (0 >>> 22)) (s.avail ||| 1))
      (entryAddr s.pd 1) = _
    rw [show (0 >>> 22 : Nat) = 0 from rfl, hpd, hav,
      load32_store32_index_ne _ _ _ _ _ (by decide) (by decide) (by decide) (by decide),
      load32_zeroFrame_entry_eq _ _ _ _ (by decide) (by decide) (by decide) (by decide)
        (by decide)]

/-- In a state whose directory slot `0` points to the directory itself,
`vmm_dirty(0x00400000)` installs a table for slot `1` and thereby changes entry
`1` of the table of slot `0`. -/
theorem selfmap_dirty (t : VMM) (hpd : t.pd = 0x100000) (hav : t.avail = 0x101000)
    (h0 : dirEntry t 0 = 0x100001) (h1 : dirEntry t 1 = 0) :
    dirEntry (getPD t).2 0 ≠ 0 ∧
    leafEntry (getPD t).2 (dirEntry (getPD t).2 0 &&& 0xFFFFF000) 1 = 0 ∧
    leafEntry (vmm_dirty 0x00400000 t).2 (dirEntry (getPD t).2 0 &&& 0xFFFFF000) 1
      = 0x101001 := by
  have hp : t.pd ≠ 0 := by rw [hpd]; decide
  have hz : dirEntry (getPD t).2 (0x00400000 >>> 22) = 0 := by
    rw [getPD_pos _ hp]; exact h1
  have eb : dirEntry t 0 &&& 0xFFFFF000 = 0x100000 := by rw [h0]; decide
  rw [vmm_dirty_snd, getPT_zero _ t hz, getPD_pos _ hp, eb]
  refine ⟨by rw [h0]; decide, ?_, ?_⟩
  · rw [← hpd]; exact h1
  · show load32 (store32 _ (entryAddr t.pd (0x00400000 >>> 22)) (t.avail ||| 1))
      (entryAddr 0x100000 1) = _
    rw [show (0x00400000 >>> 22 : Nat) = 1 from rfl, hpd, load32_store32_same, hav]
    decide

theorem selfMapState_def : selfMapState = step (Op.dirty 0) aliasState := by
  unfold selfMapState; rfl

theorem selfMapState_reachable : Reachable selfMapState := by
  rw [selfMapState_def]
  exact Reachable.call (Op.dirty 0) _ aliasState_reachable (show (0 : Nat) < W32 by decide)

/-- Counterexample to C17 as stated for every reachable state: in the state
reached from the fresh VMM by `vmm_pa(0)`, `2 ^ 20 - 1` calls of `vmm_frame` and
`vmm_dirty(0)`, directory slot `0` is present and its table is the directory
itself; entry `1` of that table is `0`, and after `vmm_dirty(0x00400000)` it is
`0x101001`. -/
theorem C17_counterexample :
    Reachable selfMapState ∧
    dirEntry (getPD selfMapState).2 0 ≠ 0 ∧
    leafEntry (getPD selfMapState).2 (dirEntry (getPD selfMapState).2 0 &&& 0xFFFFF000) 1 = 0 ∧
    leafEntry (vmm_dirty 0x00400000 selfMapState).2
      (dirEntry (getPD selfMapState).2 0 &&& 0xFFFFF000) 1 = 0x101001 := by
  refine ⟨selfMapState_reachable, ?_⟩
  rw [selfMapState_def]
  obtain ⟨a, b, c, d⟩ := aliased_dirty aliasState aliasState_pd aliasState_avail
    aliasState_dirEntry
  exact selfmap_dirty _ a b c d

/-! ## The diagnostic dump -/

theorem emit_console (e : ConsoleEvent) (s : VMM) : (emit e s).console = s.console ++ [e] := rfl

/-- A loop whose body only appends console calls that depend on the memory. -/
theorem foldl_console (f : VMM → Nat → VMM) (g : Nat → List ConsoleEvent) (m : Mem)
    (hf : ∀ s i, s.mem = m → (f s i).mem = m ∧ (f s i).console = s.console ++ g i)
    (l : List Nat) (s : VMM) (hs : s.mem = m) :
    (l.foldl f s).mem = m ∧ (l.foldl f s).console = s.console ++ l.flatMap g := by
  induction l generalizing s with
  | nil => exact ⟨hs, by simp⟩
  | cons x xs ih =>
    obtain ⟨h1, h2⟩ := hf s x hs
    obtain ⟨h3, h4⟩ := ih (f s x) h1
    rw [List.foldl_cons, List.flatMap_cons]
    exact ⟨h3, by rw [h4, h2, List.append_assoc]⟩

/-- Console calls of the inner loop body for leaf entry `j`. -/
theorem dumpLeaf_console (pt : Nat) (s : VMM) (j : Nat) :
    (dumpLeaf pt s j).mem = s.mem ∧
    (dumpLeaf pt s j).console = s.console ++
      (if load32 s.mem (entryAddr pt j) ≠ 0
        then (DumpRecord.leaf j (load32 s.mem (entryAddr pt j))).render else []) := by
  unfold dumpLeaf
  dsimp only
  split_ifs with h
  · refine ⟨rfl, ?_⟩
    rw [emit_console, emit_console, emit_console]
    simp [DumpRecord.render]
  · exact ⟨rfl, by simp⟩

theorem filter_map_flatMap {α β γ : Type} (p : α → Bool) (h : α → β) (r : β → List γ)
    (l : List α) :
    ((l.filter p).map h).flatMap r = l.flatMap (fun j => if p j then r (h j) else []) := by
  induction l with
  | nil => rfl
  | cons x xs ih =>
    rw [List.flatMap_cons, List.filter_cons]
    by_cases hp : p x = true
    · rw [if_pos hp, if_pos hp, List.map_cons, List.flatMap_cons, ih]
    · rw [if_neg hp, if_neg hp, ih, List.nil_append]

theorem getPD_console (s : VMM) : (getPD s).2.console = s.console := by
  rw [getPD_snd]; split_ifs <;> rfl

/-- The entries that are not zero. -/
theorem dumpLeaf_console_of (s : VMM) (pt : Nat) (t : VMM) (j : Nat) (ht : t.mem = s.mem) :
    (dumpLeaf pt t j).mem = s.mem ∧
    (dumpLeaf pt t j).console = t.console ++
      (if (fun j => decide (leafEntry s pt j ≠ 0)) j = true
        then DumpRecord.render ((fun j => DumpRecord.leaf j (leafEntry s pt j)) j) else []) := by
  obtain ⟨a, b⟩ := dumpLeaf_console pt t j
  rw [ht] at a b
  refine ⟨a, ?_⟩
  rw [b]
  unfold leafEntry
  by_cases h : load32 s.mem (entryAddr pt j) = 0
  · simp [h]
  · simp [h]

/-- The inner loop of `vmm_dump` prints the records of the non-zero entries of
the table. -/
theorem dumpLeaf_loop (s : VMM) (pt : Nat) (t : VMM) (ht : t.mem = s.mem) :
    ((List.range TABLE_ENTRIES).foldl (dumpLeaf pt) t).mem = s.mem ∧
    ((List.range TABLE_ENTRIES).foldl (dumpLeaf pt) t).console = t.console ++
      (leafRecords (fun e => decide (e ≠ 0)) s pt).flatMap DumpRecord.render := by
  have hl := foldl_console (dumpLeaf pt) _ s.mem
    (fun u j hu => dumpLeaf_console_of s pt u j hu) (List.range TABLE_ENTRIES) t ht
  refine ⟨hl.1, ?_⟩
  rw [hl.2]
  unfold leafRecords
  rw [filter_map_flatMap]

/-- Console calls of the outer loop body for directory entry `i`. -/
theorem dumpDir_console (s : VMM) (t : VMM) (i : Nat) (ht : t.mem = s.mem) :
    (dumpDir s.pd t i).mem = s.mem ∧
    (dumpDir s.pd t i).console = t.console ++
      (dirRecords (fun e => decide (e ≠ 0)) s i).flatMap DumpRecord.render := by
  unfold dumpDir dirRecords
  dsimp only
  rw [ht]
  unfold dirEntry
  by_cases h : load32 s.mem (entryAddr s.pd i) = 0
  · rw [if_neg (not_not.mpr h), if_neg (by simp [h])]
    exact ⟨ht, by simp⟩
  · rw [if_pos h, if_pos (by simp [h])]
    have hl := dumpLeaf_loop s (load32 s.mem (entryAddr s.pd i) &&& 0xfffff000)
      (emit (.sayHex ") PDE = " (load32 s.mem (entryAddr s.pd i)))
        (emit (.putHex i) (emit (.putStr "    ") t))) ht
    refine ⟨hl.1, ?_⟩
    rw [hl.2, emit_console, emit_console, emit_console, List.flatMap_cons]
    simp only [DumpRecord.render, List.append_assoc, List.cons_append, List.nil_append]

/-- The console calls of `vmm_dump`: the rendering of the directory base, of
every non-zero directory entry and, under each, of every non-zero entry of the
table it names, in ascending index, read in the state after `getPD`. -/
theorem vmm_dump_eq (s : VMM) :
    vmm_dump s = (List.range TABLE_ENTRIES).foldl (dumpDir (getPD s).1)
      (emit (.sayHex "PD @ " (getPD s).1) (getPD s).2) := by
  unfold vmm_dump
  exact rfl

theorem dumpRecords_render (s : VMM) :
    (dumpRecords s).flatMap DumpRecord.render =
      [ConsoleEvent.sayHex "PD @ " s.pd] ++ (List.range TABLE_ENTRIES).flatMap
        (fun i => (dirRecords (fun e => decide (e ≠ 0)) s i).flatMap DumpRecord.render) := by
  unfold dumpRecords dumpRecordsBy
  rw [List.flatMap_cons, List.flatMap_assoc, DumpRecord.render]

theorem vmm_dump_console (s : VMM) :
    (vmm_dump s).console =
      s.console ++ (dumpRecords (getPD s).2).flatMap DumpRecord.render := by
  rw [vmm_dump_eq, getPD_fst]
  have hl := foldl_console (dumpDir (getPD s).2.pd) _ (getPD s).2.mem
    (fun t i ht => dumpDir_console (getPD s).2 t i ht) (List.range TABLE_ENTRIES)
    (emit (.sayHex "PD @ " (getPD s).2.pd) (getPD s).2) rfl
  rw [hl.2, emit_console, getPD_console, dumpRecords_render, List.append_assoc]

theorem mem_leafRecords (keep : Nat → Bool) (s : VMM) (pt : Nat) (r : DumpRecord) :
    r ∈ leafRecords keep s pt ↔
      ∃ j, j < 1024 ∧ keep (leafEntry s pt j) = true ∧ r = DumpRecord.leaf j (leafEntry s pt j) := by
  unfold leafRecords
  rw [List.mem_map]
  constructor
  · rintro ⟨j, hj, rfl⟩
    rw [List.mem_filter, List.mem_range, TABLE_ENTRIES_eq] at hj
    exact ⟨j, hj.1, hj.2, rfl⟩
  · rintro ⟨j, hj, hk, rfl⟩
    refine ⟨j, ?_, rfl⟩
    rw [List.mem_filter, List.mem_range, TABLE_ENTRIES_eq]
    exact ⟨hj, hk⟩

theorem mem_dirRecords (keep : Nat → Bool) (s : VMM) (i : Nat) (r : DumpRecord) :
    r ∈ dirRecords keep s i ↔
      keep (dirEntry s i) = true ∧
        (r = DumpRecord.dir i (dirEntry s i) ∨
          r ∈ leafRecords keep s (dirEntry s i &&& 0xfffff000)) := by
  unfold dirRecords
  by_cases h : keep (dirEntry s i) = true
  · rw [if_pos h, List.mem_cons]
    exact ⟨fun a => ⟨h, a⟩, fun a => a.2⟩
  · rw [if_neg h]
    exact ⟨fun a => absurd a (List.not_mem_nil _), fun a => absurd a.1 h⟩

theorem mem_dumpRecordsBy (keep : Nat → Bool) (s : VMM) (r : DumpRecord) :
    r ∈ dumpRecordsBy keep s ↔
      r = DumpRecord.base s.pd ∨ ∃ i, i < 1024 ∧ r ∈ dirRecords keep s i := by
  unfold dumpRecordsBy
  rw [List.mem_cons, List.mem_flatMap]
  constructor
  · rintro (h | ⟨i, hi, h⟩)
    · exact Or.inl h
    · rw [List.mem_range, TABLE_ENTRIES_eq] at hi
      exact Or.inr ⟨i, hi, h⟩
  · rintro (h | ⟨i, hi, h⟩)
    · exact Or.inl h
    · refine Or.inr ⟨i, ?_, h⟩
      rw [List.mem_range, TABLE_ENTRIES_eq]
      exact hi

/-- The directory records of a dump. -/
theorem dir_mem_dumpRecordsBy (keep : Nat → Bool) (s : VMM) (i e : Nat) :
    DumpRecord.dir i e ∈ dumpRecordsBy keep s ↔
      i < 1024 ∧ e = dirEntry s i ∧ keep e = true := by
  rw [mem_dumpRecordsBy]
  constructor
  · rintro (h | ⟨k, hk, h⟩)
    · exact DumpRecord.noConfusion h
    · rw [mem_dirRecords, mem_leafRecords] at h
      obtain ⟨h1, h2 | ⟨j, _, _, h2⟩⟩ := h
      · injection h2 with a b
        subst a
        subst b
        exact ⟨hk, rfl, h1⟩
      · exact DumpRecord.noConfusion h2
  · rintro ⟨hi, rfl, hk⟩
    exact Or.inr ⟨i, hi, (mem_dirRecords _ _ _ _).mpr ⟨hk, Or.inl rfl⟩⟩

/-- The leaf records of a dump. -/
theorem leaf_mem_dumpRecordsBy (keep : Nat → Bool) (s : VMM) (j e : Nat) :
    DumpRecord.leaf j e ∈ dumpRecordsBy keep s ↔
      ∃ i, i < 1024 ∧ keep (dirEntry s i) = true ∧ j < 1024 ∧
        e = leafEntry s (dirEntry s i &&& 0xfffff000) j ∧ keep e = true := by
  rw [mem_dumpRecordsBy]
  constructor
  · rintro (h | ⟨k, hk, h⟩)
    · exact DumpRecord.noConfusion h
    · rw [mem_dirRecords, mem_leafRecords] at h
      obtain ⟨h1, h2 | ⟨j2, hj, hkeep, h2⟩⟩ := h
      · exact DumpRecord.noConfusion h2
      · injection h2 with a b
        subst a
        subst b
        exact ⟨k, hk, h1, hj, rfl, hkeep⟩
  · rintro ⟨i, hi, hk, hj, rfl, hke⟩
    exact Or.inr ⟨i, hi, (mem_dirRecords _ _ _ _).mpr
      ⟨hk, Or.inr ((mem_leafRecords _ _ _ _).mpr ⟨j, hj, hke, rfl⟩)⟩⟩

theorem flatMap_range_congr {β : Type} (n : Nat) (f g : Nat → List β)
    (h : ∀ i, i < n → f i = g i) : (List.range n).flatMap f = (List.range n).flatMap g := by
  have key : ∀ l : List Nat, (∀ i ∈ l, f i = g i) → l.flatMap f = l.flatMap g := by
    intro l
    induction l with
    | nil => intro _; rfl
    | cons x xs ih =>
      intro hl
      rw [List.flatMap_cons, List.flatMap_cons, hl x (List.mem_cons_self _ _),
        ih (fun i hi => hl i (List.mem_cons_of_mem _ hi))]
  exact key _ (fun i hi => h i (List.mem_range.mp hi))

/-- Two selections that agree on every entry the dump visits give the same
records. -/
theorem dumpRecordsBy_congr (k1 k2 : Nat → Bool) (s : VMM)
    (hd : ∀ i, i < 1024 → k1 (dirEntry s i) = k2 (dirEntry s i))
    (hl : ∀ i j, i < 1024 → j < 1024 → k1 (dirEntry s i) = true →
      k1 (leafEntry s (dirEntry s i &&& 0xfffff000) j) =
        k2 (leafEntry s (dirEntry s i &&& 0xfffff000) j)) :
    dumpRecordsBy k1 s = dumpRecordsBy k2 s := by
  unfold dumpRecordsBy
  rw [flatMap_range_congr TABLE_ENTRIES (dirRecords k1 s) (dirRecords k2 s)]
  intro i hi
  rw [TABLE_ENTRIES_eq] at hi
  unfold dirRecords
  rw [← hd i hi]
  by_cases h : k1 (dirEntry s i) = true
  · rw [if_pos h, if_pos h]
    unfold leafRecords
    rw [List.filter_congr (fun j hj => hl i j hi (by
      rw [List.mem_range, TABLE_ENTRIES_eq] at hj; exact hj) h)]
  · rw [if_neg h, if_neg h]

/-! ## C19: the diagnostic dump -/

/-- C19 (amended). Diagnostic dump content, with the console output as a list
of records.  In every state `vmm_dump()` appends to the console the rendering of
`dumpRecords` read in the state `getPD` leaves: the directory base first, then,
in ascending directory index, one record (index, raw value) for exactly those
directory entries whose raw value is not zero, each followed, in ascending leaf
index, by one record (index, raw value) for exactly those entries of its table
whose raw value is not zero; zero entries produce no record.  The test is on the
raw value, not on the present bit.  In a state reached without the cursor
wrapping a directory entry is not zero exactly when its present bit is 1, and
when moreover no non-zero entry of a listed table has present bit 0 (no stale
entry left by unmap) the records are those of the entries whose present bit
is 1. -/
theorem C19_dump_content (s : VMM) :
    (vmm_dump s).console =
      s.console ++ (dumpRecords (getPD s).2).flatMap DumpRecord.render ∧
    (dumpRecords (getPD s).2).head? = some (DumpRecord.base (getPD s).1) ∧
    (∀ i e, DumpRecord.dir i e ∈ dumpRecords (getPD s).2 ↔
      i < 1024 ∧ e = dirEntry (getPD s).2 i ∧ e ≠ 0) ∧
    (∀ j e, DumpRecord.leaf j e ∈ dumpRecords (getPD s).2 ↔
      ∃ i, i < 1024 ∧ dirEntry (getPD s).2 i ≠ 0 ∧ j < 1024 ∧
        e = leafEntry (getPD s).2 (dirEntry (getPD s).2 i &&& 0xFFFFF000) j ∧ e ≠ 0) ∧
    (ReachableNW s →
      (∀ i, i < 1024 →
        (dirEntry (getPD s).2 i ≠ 0 ↔ dirEntry (getPD s).2 i &&& 1 = 1)) ∧
      ((∀ i j, i < 1024 → j < 1024 → dirEntry (getPD s).2 i ≠ 0 →
          leafEntry (getPD s).2 (dirEntry (getPD s).2 i &&& 0xFFFFF000) j ≠ 0 →
          leafEntry (getPD s).2 (dirEntry (getPD s).2 i &&& 0xFFFFF000) j &&& 1 = 1) →
        dumpRecords (getPD s).2 = dumpRecordsPresent (getPD s).2)) := by
  refine ⟨vmm_dump_console s, ?_, ?_, ?_, ?_⟩
  · rw [getPD_fst]
    unfold dumpRecords dumpRecordsBy
    exact List.head?_cons
  · intro i e
    unfold dumpRecords
    rw [dir_mem_dumpRecordsBy, decide_eq_true_eq]
  · intro j e
    unfold dumpRecords
    rw [leaf_mem_dumpRecordsBy]
    simp only [decide_eq_true_eq]
  · intro hs
    obtain ⟨B, _, h1, hp⟩ := hs.inv_getPD
    have hdir : ∀ i, i < 1024 →
        (dirEntry (getPD s).2 i ≠ 0 ↔ dirEntry (getPD s).2 i &&& 1 = 1) := by
      intro i hi
      rw [and_one]
      rcases h1.dir_ok hp i hi with h0 | ⟨b, hb, hal, _⟩
      · rw [h0]; decide
      · rw [hb]; have := hal.1; omega
    refine ⟨hdir, fun hleaf => ?_⟩
    unfold dumpRecords dumpRecordsPresent
    apply dumpRecordsBy_congr
    · intro i hi
      rw [decide_eq_decide]
      exact hdir i hi
    · intro i j hi hj hk
      rw [decide_eq_true_eq] at hk
      rw [decide_eq_decide]
      constructor
      · exact hleaf i j hi hj hk
      · intro h1 h0
        rw [h0] at h1
        exact absurd h1 (by decide)

theorem stale_facts (m : Mem) :
    ReachableNW (vmm_unmap 0x00200000 (vmm_map 0x00200000 0x00200000 (fresh m))) ∧
    (vmm_unmap 0x00200000 (vmm_map 0x00200000 0x00200000 (fresh m))).pd ≠ 0 ∧
    dirEntry (vmm_unmap 0x00200000 (vmm_map 0x00200000 0x00200000 (fresh m))) 0 = 0x00101001 ∧
    leafEntry (vmm_unmap 0x00200000 (vmm_map 0x00200000 0x00200000 (fresh m))) 0x00101000 0x200
      = 0x00200000 := by
  have hpt : (getPT 0x00200000 (fresh m)).1 = 0x00101000 := by
    have h := (ReachableNW.init m).walk_install 0x00200000 (by decide)
      (dirEntry_getPD_of_pd_zero _ rfl _ (by decide))
    rw [h.1, getPD_avail, if_pos (show (fresh m).pd = 0 from rfl)]
    show (0x100000 + 4096) % W32 = 0x00101000
    decide
  obtain ⟨hp, d, e⟩ := (InvG.fresh m).unmap_after_map_post 0x00200000 0x00200000 (by decide)
    (by decide) (by decide) (Or.inr (by decide))
  have hpm := ((InvG.fresh m).map_post 0x00200000 0x00200000 (by decide) (by decide) (by decide)
    (Or.inr (by decide))).1
  rw [hpt] at d e
  refine ⟨?_, hp, d, e⟩
  refine ReachableNW.call (Op.unmap 0x00200000) _
    (fresh_step_reachableNW m (Op.map 0x00200000 0x00200000) ⟨by decide, by decide⟩)
    (show (0x00200000 : Nat) < W32 by decide) ?_
  show (vmm_map 0x00200000 0x00200000 (fresh m)).avail ≤
    (vmm_unmap 0x00200000 (vmm_map 0x00200000 0x00200000 (fresh m))).avail
  rw [vmm_unmap_avail, getPD_pos _ hpm]

theorem staleState_def :
    staleState = vmm_unmap 0x00200000 (vmm_map 0x00200000 0x00200000 (fresh (fun _ => 0))) := by
  unfold staleState
  rfl

/-- Counterexample to C19 as stated.  The state after
`vmm_map(0x00200000, 0x00200000); vmm_unmap(0x00200000)` on the fresh VMM is
reached without the cursor wrapping; directory entry `0` is `0x00101001`, and
entry `0x200` of its table at `0x00101000` is the stale value `0x00200000`,
whose present bit is 0.  `vmm_dump()` emits a record for that entry: the record
is in the non-zero selection, it is not in the present-bit selection, and the
console receives `") PTE = "` with the value `0x00200000`. -/
theorem C19_counterexample :
    ReachableNW staleState ∧
    dirEntry (getPD staleState).2 0 = 0x00101001 ∧
    leafEntry (getPD staleState).2 (0x00101001 &&& 0xFFFFF000) 0x200 = 0x00200000 ∧
    leafEntry (getPD staleState).2 (0x00101001 &&& 0xFFFFF000) 0x200 &&& 1 = 0 ∧
    DumpRecord.leaf 0x200 0x00200000 ∈ dumpRecords (getPD staleState).2 ∧
    DumpRecord.leaf 0x200 0x00200000 ∉ dumpRecordsPresent (getPD staleState).2 ∧
    ConsoleEvent.sayHex ") PTE = " 0x00200000 ∈ (vmm_dump staleState).console := by
  rw [staleState_def]
  obtain ⟨hr, hp, d, e⟩ := stale_facts (fun _ => 0)
  have hmask : (0x00101001 : Nat) &&& 0xFFFFF000 = 0x00101000 := by decide
  have hmem : DumpRecord.leaf 0x200 0x00200000 ∈
      dumpRecords (vmm_unmap 0x00200000 (vmm_map 0x00200000 0x00200000 (fresh (fun _ => 0)))) := by
    unfold dumpRecords
    rw [leaf_mem_dumpRecordsBy]
    refine ⟨0, by decide, ?_, by decide, ?_, by decide⟩
    · rw [d]; decide
    · rw [d, hmask, e]
  rw [vmm_dump_console, getPD_pos _ hp, hmask, d, e]
  refine ⟨hr, rfl, rfl, by decide, hmem, ?_, ?_⟩
  · unfold dumpRecordsPresent
    rw [leaf_mem_dumpRecordsBy]
    rintro ⟨_, _, _, _, _, h⟩
    exact absurd h (by decide)
  · apply List.mem_append_right
    rw [List.mem_flatMap]
    exact ⟨_, hmem, by simp [DumpRecord.render]⟩

/-- After a single `vmm_map` on the fresh VMM no table holds a stale entry. -/
theorem fresh_map_no_stale (m : Mem) (va pa : Nat) (hva : va < W32) (hpa : pa < W32)
    (i j : Nat) (hi : i < 1024) (hj : j < 1024)
    (hni : dirEntry (getPD (vmm_map va pa (fresh m))).2 i ≠ 0)
    (hnj : leafEntry (getPD (vmm_map va pa (fresh m))).2
      (dirEntry (getPD (vmm_map va pa (fresh m))).2 i &&& 0xFFFFF000) j ≠ 0) :
    leafEntry (getPD (vmm_map va pa (fresh m))).2
      (dirEntry (getPD (vmm_map va pa (fresh m))).2 i &&& 0xFFFFF000) j &&& 1 = 1 := by
  have hs := ReachableNW.init m
  have hz : dirEntry (getPD (fresh m)).2 (va >>> 22) = 0 :=
    dirEntry_getPD_of_pd_zero _ rfl _ (shr22_lt va hva)
  obtain ⟨w1, _, _, _, _, _, _, w8⟩ := hs.walk_install va hva hz
  obtain ⟨B, hB, h1, hp1⟩ := hs.inv_getPD
  obtain ⟨hp, a, b, c, d, e⟩ := (InvG.fresh m).map_post va pa hva hpa (by decide)
    (Or.inr (by decide))
  obtain ⟨B3, _, _, h3, _⟩ := (InvG.fresh m).after_getPT va hva (by decide)
  have c3 : (getPT va (fresh m)).1 ≠ (getPT va (fresh m)).2.pd := by
    rw [vmm_map_pd, ← getPT_pd va] at c
    exact c
  rw [getPD_pos _ hp] at hni hnj ⊢
  have hdir : ∀ k, k < 1024 → k ≠ va >>> 22 → dirEntry (vmm_map va pa (fresh m)) k = 0 := by
    intro k hk hne
    rw [h3.map_dir b c3 pa k hk, h1.walk_dir hp1 hB va hva k hk (Or.inl hne)]
    exact dirEntry_getPD_of_pd_zero _ rfl _ hk
  have hi2 : i = va >>> 22 := by
    by_contra hne
    exact hni (hdir i hi hne)
  rw [hi2, d, frameMask_succ _ a b] at hnj ⊢
  by_cases hj2 : j = va / 4096 % 1024
  · rw [hj2, e, and_one]
    omega
  · exfalso
    apply hnj
    rw [vmm_map_leaf_other va pa _ _ j b a b hj (Or.inr hj2), w1]
    exact w8 j hj

/-- Witness of C19.  After `vmm_map(0, 0x5000)` on the fresh VMM (memory all
zero) the console of `vmm_dump()` is the rendering of the records, a directory
entry is not zero exactly when it is present, and, no entry being stale, the
records are those of the present entries. -/
theorem C19_dump_content_witness :
    (vmm_dump (step (Op.map 0 0x5000) (fresh (fun _ => 0)))).console =
      (step (Op.map 0 0x5000) (fresh (fun _ => 0))).console ++
        (dumpRecords (getPD (step (Op.map 0 0x5000) (fresh (fun _ => 0)))).2).flatMap
          DumpRecord.render ∧
    dumpRecords (getPD (step (Op.map 0 0x5000) (fresh (fun _ => 0)))).2 =
      dumpRecordsPresent (getPD (step (Op.map 0 0x5000) (fresh (fun _ => 0)))).2 :=
  ⟨(C19_dump_content (step (Op.map 0 0x5000) (fresh (fun _ => 0)))).1,
   ((C19_dump_content (step (Op.map 0 0x5000) (fresh (fun _ => 0)))).2.2.2.2
      (fresh_step_reachableNW _ (Op.map 0 0x5000) ⟨by decide, by decide⟩)).2
      (fun i j hi hj hni hnj =>
        fresh_map_no_stale (fun _ => 0) 0 0x5000 (by decide) (by decide) i j hi hj hni hnj)⟩

/-! ## Counterexamples after a wrap of the cursor: the log and the fault handler -/

theorem allocMany_tlb (n : Nat) (s : VMM) : (allocMany n s).tlb = s.tlb := by
  induction n generalizing s with
  | zero => rw [allocMany_zero]
  | succ k ih => rw [allocMany_succ, ih, vmm_frame_eq]

/-- From a state with `avail = 0` and `pd = 0`, the sequence `vmm_map(va, pa);
vmm_unmap(va)` appends nothing to the log of `invlpg` calls. -/
theorem wrapped_tlb (s : VMM) (h0 : s.avail = 0) (hp : s.pd = 0) (va pa : Nat)
    (hva : va < W32) :
    (vmm_unmap va (vmm_map va pa s)).tlb = s.tlb := by
  obtain ⟨e1, _, _⟩ := wrapped_map s h0 hp va pa hva
  rw [vmm_unmap_of_pd_zero va _ e1 hva, getPD_tlb, vmm_map_tlb]

/-- Counterexample to C5 as stated for every state: in the state reached by
`2 ^ 20 - 256` calls of `vmm_frame` on the fresh VMM (`avail = 0`, `pd = 0`, empty
log) the sequence `vmm_map(0x00200000, 0x00200000); vmm_unmap(0x00200000)`
leaves the log empty: `invlpg` is not called. -/
theorem C5_counterexample :
    Reachable wrapState ∧ wrapState.tlb = [] ∧
    (vmm_unmap 0x00200000 (vmm_map 0x00200000 0x00200000 wrapState)).tlb = [] := by
  have ht : wrapState.tlb = [] := by
    rw [wrapState_def, allocMany_tlb]
    rfl
  refine ⟨wrapState_reachable, ht, ?_⟩
  rw [wrapped_tlb wrapState wrapState_avail wrapState_pd 0x00200000 0x00200000 (by decide)]
  exact ht

end PageMapping
